import Mathlib

/-!
# Logging pipeline: codec, logger filter, hand-off channel and statistics

A shallow embedding of `lib_logger/src/logger.cpp`, `lib_logger/src/socket_logger.cpp`,
`lib_logger/src/file_logger.cpp`, `app_logger/src/logger_app.cpp` and
`app_statistic/src/statistic_app.cpp`.

* A `std::string` is a `List Char`, one `Char` per byte.
* `enum class Level` has underlying type `int`; `static_cast<Level>(int)` keeps any `int`, so a
  `Level` carries its ordinal.
* `time_t` and `long` are 64-bit signed, `int` is 32-bit signed; values are `Int` with the range
  checked where the code checks it (`std::from_chars`).
* `uint64_t` values are `Nat`, reduced modulo `2 ^ 64` where the code adds; conversions between
  `int` and `uint64_t` are explicit (`to_int`, `to_uint64`). Arithmetic on the `int` counters
  is exact: signed overflow has no defined result, and the theorems on counters state the range
  they hold in. The difference of two `time_t` values in `Statistic::add_time` is reduced to 64
  bits (`to_time_t`), as the built code computes it.
* An execution that leaves defined behaviour is reported as an `Except.error`.
* The two threads of the shipper are interleaved at the level of whole `Channel` method calls and
  whole loop rounds of the worker.
* The system calls `recv`, `send`, `accept` and `poll` are inputs: a function of the model takes
  the count and the bytes a call reports. `std::localtime` is an input as well, since it depends
  on the time zone of the process.
-/

deriving instance DecidableEq for Except

namespace Logger

/-- The `enum class Level { INFO, WARN, ERROR }`, stored by ordinal. -/
structure Level where
  ord : Int
deriving DecidableEq, Repr

namespace Level

/-- Ordinal 0. -/
def INFO : Level := ⟨0⟩
/-- Ordinal 1. -/
def WARN : Level := ⟨1⟩
/-- Ordinal 2. -/
def ERROR : Level := ⟨2⟩

end Level

/-- Events that end an execution outside its defined results. -/
inductive Fault where
  /-- The call `entry.back()` on an empty `std::string`. -/
  | back_of_empty_string
  /-- The exception `std::bad_optional_access` thrown by `.value()`. -/
  | bad_optional_access
  /-- The call `front()`, `back()` or `pop()` on an empty `std::queue`. -/
  | empty_queue_access
  /-- The dereference of the null pointer that `std::localtime` returns on failure. -/
  | null_pointer_dereference
deriving DecidableEq, Repr

/-- The function `std::isspace` in the "C" locale: space, `\t`, `\n`, `\v`, `\f`, `\r`. -/
def isspace (c : Char) : Bool :=
  c = ' ' || c = '\t' || c = '\n' || c = Char.ofNat 11 || c = Char.ofNat 12 || c = '\r'

/-- Largest `long` / `time_t`. -/
def LONG_MAX : Int := 2 ^ 63 - 1
/-- Smallest `long` / `time_t`. -/
def LONG_MIN : Int := -(2 ^ 63)
/-- Largest `int`. -/
def INT_MAX : Int := 2 ^ 31 - 1
/-- Smallest `int`. -/
def INT_MIN : Int := -(2 ^ 31)

/-- The function `deserialization_level`: lookup in the map `INFO`, `WARN`, `ERROR`. -/
def deserialization_level (level : List Char) : Option Level :=
  if level = ['I', 'N', 'F', 'O'] then some Level.INFO
  else if level = ['W', 'A', 'R', 'N'] then some Level.WARN
  else if level = ['E', 'R', 'R', 'O', 'R'] then some Level.ERROR
  else none

/-- The function `serialization_level`: the `switch` over the three enumerators, `return {}`
after it. -/
def serialization_level (level : Level) : Option (List Char) :=
  if level = Level.INFO then some ['I', 'N', 'F', 'O']
  else if level = Level.WARN then some ['W', 'A', 'R', 'N']
  else if level = Level.ERROR then some ['E', 'R', 'R', 'O', 'R']
  else none

namespace Logger_protocol

/-- The class `Protocol`: message, level and time in seconds. -/
structure Protocol where
  message : List Char
  level : Level
  time : Int
deriving DecidableEq, Repr

/-- What `operator<<` writes for a signed integer: a `-` for a negative value, then the decimal
digits of the magnitude. -/
def put_int (v : Int) : List Char :=
  if v < 0 then '-' :: Nat.toDigits 10 v.natAbs else Nat.toDigits 10 v.toNat

/-- Value of a run of decimal digits, most significant first. -/
def digits_value (ds : List Char) : Nat :=
  ds.foldl (fun acc c => 10 * acc + (c.toNat - 48)) 0

/-- The call `std::from_chars(first, last, value)` for a signed integer type with range
`lo .. hi`, reduced to what the caller inspects: `some v` when `ec == std::errc()`, `none`
otherwise. The pattern is an optional minus sign followed by at least one decimal digit; the
longest matching start of the input is converted, whatever follows it is not looked at. -/
def from_chars (lo hi : Int) (s : List Char) : Option Int :=
  let negative : Bool := s.head? = some '-'
  let body : List Char := if negative then s.tail else s
  let ds : List Char := body.takeWhile Char.isDigit
  if ds = [] then none
  else
    let v : Int := if negative then -((digits_value ds : Nat) : Int) else ((digits_value ds : Nat) : Int)
    if lo ≤ v ∧ v ≤ hi then some v else none

/-- The loop `while (std::isspace(entry.back())) entry.pop_back();`, run on the reversed string.
`none` when `back()` is reached on an empty string. -/
def pop_back_spaces : List Char → Option (List Char)
  | [] => none
  | c :: cs => if isspace c then pop_back_spaces cs else some (c :: cs)

/-- The call `entry.rfind(c)`: index of the last occurrence, `none` for `npos`. -/
def rfind (c : Char) : List Char → Option Nat
  | [] => none
  | x :: xs =>
    match rfind c xs with
    | some p => some (p + 1)
    | none => if x = c then some 0 else none

/-- The template `extract_last_number<T>` for a signed integer `T` of range `lo .. hi`. The result
pairs the returned optional with the string as the call leaves it. -/
def extract_last_number (lo hi : Int) (entry : List Char) :
    Except Fault (Option Int × List Char) :=
  if entry = [] then .ok (none, entry)
  else
    match pop_back_spaces entry.reverse with
    | none => .error Fault.back_of_empty_string
    | some r =>
      let entry := r.reverse
      match rfind ' ' entry with
      | none => .ok (none, entry)
      | some position =>
        -- `std::string_view(entry.data() + position + 1)` ends at the first NUL
        let string_value := (entry.drop (position + 1)).takeWhile (fun c => c ≠ Char.ofNat 0)
        match from_chars lo hi string_value with
        | none => .ok (none, entry)
        | some value => .ok (some value, entry.take position)

/-- The function `serialization_log`: message, level ordinal and time separated by one space. -/
def serialization_log (entry : Protocol) : List Char :=
  entry.message ++ [' '] ++ put_int entry.level.ord ++ [' '] ++ put_int entry.time

/-- The function `deserialization_log`: time (`long`), then level (`int`), the rest is the
message. -/
def deserialization_log (entry : List Char) : Except Fault (Option Protocol) :=
  match extract_last_number LONG_MIN LONG_MAX entry with
  | .error f => .error f
  | .ok (none, _) => .ok none
  | .ok (some time, entry) =>
    match extract_last_number INT_MIN INT_MAX entry with
    | .error f => .error f
    | .ok (none, _) => .ok none
    | .ok (some level, entry) => .ok (some ⟨entry, ⟨level⟩, time⟩)

/-- One `is >> word` on the unread rest of the stream: skip leading whitespace, then take
characters up to the next whitespace. `none` when no character is extracted (the stream fails
and `word` is not touched); otherwise the word and what is left unread. -/
def extract_word (is : List Char) : Option (List Char × List Char) :=
  let is := is.dropWhile isspace
  let word := is.takeWhile (fun c => !isspace c)
  if word = [] then none else some (word, is.dropWhile (fun c => !isspace c))

/-- The loop `while (is >> word) { message->append(word); message->push_back(' '); }`, returning
`word` and `message` as the loop leaves them. The first argument bounds the number of rounds;
every round consumes a character of the stream, so one more than its length is never used up
(`read_words_spec`). -/
def read_words : Nat → List Char → List Char → List Char → List Char × List Char
  | 0, _, word, message => (word, message)
  | fuel + 1, is, word, message =>
    match extract_word is with
    | none => (word, message)
    | some (w, rest) => read_words fuel rest w (message ++ w ++ [' '])

/-- The method `Protocol::create_log_entry`. -/
def create_log_entry (data : List Char) (default_level : Level) (time : Int) : Option Protocol :=
  let (word, message) := read_words (data.length + 1) data [] []
  if word = [] then none
  else
    let message := message.dropLast
    match deserialization_level word with
    | some level =>
      -- `erase(find_if(rbegin() + word.size(), rend(), not isspace).base(), end())`
      let message := ((message.reverse.drop word.length).dropWhile isspace).reverse
      if message = [] then none else some ⟨message, level, time⟩
    | none => some ⟨message, default_level, time⟩

end Logger_protocol

open Logger_protocol

/-- The `enum class Error_code`. -/
inductive Error_code where
  | ERROR
  | OPEN_SESSION
  | CLOSE_SESSION
  | WRITE
deriving DecidableEq, Repr

/-- The struct `Error`: a code and a text. -/
structure Error where
  code : Error_code
  error_message : List Char
deriving DecidableEq, Repr

/-- The order of `Level` values is the order of their ordinals. -/
instance : LE Level := ⟨fun a b => a.ord ≤ b.ord⟩

instance (a b : Level) : Decidable (a ≤ b) := inferInstanceAs (Decidable (a.ord ≤ b.ord))

/-- The interface `Session` as far as `Logging::log_write` uses it: `write` acts on the state of
the sink and returns `std::nullopt` or an `Error`. -/
structure Session (σ : Type) where
  write : σ → Protocol → σ × Option Error

/-- A session together with the list of entries its `write` has been called with. -/
def Session.recording {σ : Type} (s : Session σ) : Session (σ × List Protocol) where
  write st entry := (((s.write st.1 entry).1, st.2 ++ [entry]), (s.write st.1 entry).2)

/-- The class `Logging`: a session and the minimum level. -/
structure Logging (σ : Type) where
  session : Session σ
  level : Level

/-- The method `Logging::log_write`, with the state of the session passed through. -/
def Logging.log_write {σ : Type} (lg : Logging σ) (st : σ) (message : List Char) (time : Int) :
    σ × Option Error :=
  match create_log_entry message lg.level time with
  | some entry_log =>
    if lg.level ≤ entry_log.level then lg.session.write st entry_log else (st, none)
  | none => (st, none)

end Logger

/-- The struct `Chanel_protocol`: a message and its time stamp. -/
structure Chanel_protocol where
  message : List Char
  time : Int
deriving DecidableEq, Repr

/-- The class `Channel`: the queue (front first) and the two flags. -/
structure Channel where
  data : List Chanel_protocol
  close_sender : Bool
  close_receive : Bool
deriving DecidableEq, Repr

namespace Channel

/-- A default-constructed channel. -/
def init : Channel := ⟨[], false, false⟩

/-- The method `Channel::notify_error_receiver`. -/
def notify_error_receiver (ch : Channel) : Channel := { ch with close_sender := true }

/-- The method `Channel::notify_error_sender`. -/
def notify_error_sender (ch : Channel) : Channel := { ch with close_receive := true }

/-- The method `Channel::send`: the channel afterwards and the returned flag. -/
def send (ch : Channel) (message : List Char) (time : Int) : Channel × Bool :=
  if ch.close_receive then (ch, false)
  else ({ ch with data := ch.data ++ [⟨message, time⟩] }, true)

/-- A sequence of `send` calls, one after the other; the returned flags are dropped. -/
def send_all (ch : Channel) : List (List Char × Int) → Channel
  | [] => ch
  | (m, t) :: rest => send_all (ch.send m t).1 rest

end Channel

namespace Channel

/-- The method `Channel::receive_wait`. The outer `none` stands for a call that stays blocked in
`condvar.wait`, its predicate `data.size() > 0 || close_sender` being false; otherwise the
channel afterwards and the returned optional. -/
def receive_wait (ch : Channel) : Option (Channel × Option Chanel_protocol) :=
  match ch.close_sender, ch.data with
  | true, _ => some (ch, none)
  | false, [] => none
  | false, log_entry :: rest => some ({ ch with data := rest }, some log_entry)

/-- The method `Channel::receive_not_wait`: the channel afterwards and the returned optional. -/
def receive_not_wait (ch : Channel) : Channel × Option Chanel_protocol :=
  match ch.data with
  | [] => (ch, none)
  | log_entry :: rest => ({ ch with data := rest }, some log_entry)

/-- A completed call of one of the methods of `Channel`. -/
inductive Op where
  | send (message : List Char) (time : Int)
  | receive_wait
  | receive_not_wait
  | notify_error_receiver
  | notify_error_sender
deriving DecidableEq, Repr

/-- A channel together with the messages its `send` has accepted and the messages its receive
methods have returned, both in call order. -/
structure History where
  ch : Channel
  accepted : List Chanel_protocol
  received : List Chanel_protocol
deriving DecidableEq, Repr

/-- One method call on a channel with its history. A `receive_wait` that would block does not
complete and changes nothing. -/
def History.call (h : History) : Op → History
  | Op.send m t =>
    if (h.ch.send m t).2 then { h with ch := (h.ch.send m t).1, accepted := h.accepted ++ [⟨m, t⟩] }
    else { h with ch := (h.ch.send m t).1 }
  | Op.receive_wait =>
    match h.ch.receive_wait with
    | none => h
    | some (ch, r) => { h with ch := ch, received := h.received ++ r.toList }
  | Op.receive_not_wait =>
    { h with ch := h.ch.receive_not_wait.1, received := h.received ++ h.ch.receive_not_wait.2.toList }
  | Op.notify_error_receiver => { h with ch := h.ch.notify_error_receiver }
  | Op.notify_error_sender => { h with ch := h.ch.notify_error_sender }

/-- A sequence of method calls on a fresh channel. -/
def History.run (ops : List Op) : History := ops.foldl History.call ⟨Channel.init, [], []⟩

end Channel

/-- Where the worker `write_logging_file` stands: before `open_session`, in the first loop
(`receive_wait`), in the second loop (`receive_not_wait`), or returned. -/
inductive Phase where
  | starting
  | waiting
  | draining
  | returned
deriving DecidableEq, Repr

/-- The worker thread with the channel it shares with the producer: the phase of
`write_logging_file`, the channel, the state of the logger's session and the arguments of the
`log_write` calls made so far. -/
structure Worker (σ : Type) where
  phase : Phase
  ch : Channel
  st : σ
  passed : List Chanel_protocol

/-- One step of `write_logging_file`: `open_session` with its result, or one round of the loop
the worker is in (a receive call, the `log_write` of what it returned, the reaction to an error).
A `receive_wait` that would block leaves everything as it is. -/
def write_logging_file_step {σ : Type} (logger : Logger.Logging σ)
    (open_session : Option Logger.Error) (w : Worker σ) : Worker σ :=
  match w.phase with
  | Phase.starting =>
    match open_session with
    | some _ => { w with ch := w.ch.notify_error_sender, phase := Phase.returned }
    | none => { w with phase := Phase.waiting }
  | Phase.waiting =>
    match w.ch.receive_wait with
    | none => w
    | some (ch, none) => { w with ch := ch, phase := Phase.draining }
    | some (ch, some data_channel) =>
      match logger.log_write w.st data_channel.message data_channel.time with
      | (st, some _) =>
        { phase := Phase.returned, ch := ch.notify_error_sender, st := st,
          passed := w.passed ++ [data_channel] }
      | (st, none) =>
        { phase := Phase.waiting, ch := ch, st := st, passed := w.passed ++ [data_channel] }
  | Phase.draining =>
    match w.ch.receive_not_wait with
    | (ch, none) => { w with ch := ch, phase := Phase.returned }
    | (ch, some data_channel) =>
      match logger.log_write w.st data_channel.message data_channel.time with
      | (st, some _) =>
        { phase := Phase.returned, ch := ch, st := st, passed := w.passed ++ [data_channel] }
      | (st, none) =>
        { phase := Phase.draining, ch := ch, st := st, passed := w.passed ++ [data_channel] }
  | Phase.returned => w

/-- What the two threads can do next: the producer sends a message, the producer signals that it
is done (`notify_error_receiver`), or the worker takes a step. -/
inductive Event where
  | send (message : List Char) (time : Int)
  | producer_done
  | worker
deriving DecidableEq, Repr

/-- The effect of one event on the worker and the shared channel. -/
def Worker.on {σ : Type} (logger : Logger.Logging σ) (open_session : Option Logger.Error)
    (w : Worker σ) : Event → Worker σ
  | Event.send m t => { w with ch := (w.ch.send m t).1 }
  | Event.producer_done => { w with ch := w.ch.notify_error_receiver }
  | Event.worker => write_logging_file_step logger open_session w

/-- A schedule of events, started with a fresh channel and the worker before `open_session`. -/
def Worker.run {σ : Type} (logger : Logger.Logging σ) (open_session : Option Logger.Error)
    (st : σ) (schedule : List Event) : Worker σ :=
  schedule.foldl (Worker.on logger open_session) ⟨Phase.starting, Channel.init, st, []⟩

/-- The messages of the `send` events of a schedule, in order. -/
def sent_messages : List Event → List Chanel_protocol
  | [] => []
  | Event.send m t :: rest => ⟨m, t⟩ :: sent_messages rest
  | _ :: rest => sent_messages rest

/-- Conversion of an integer value to `uint64_t`: the value modulo `2 ^ 64`. -/
def to_uint64 (i : Int) : Nat := (i % 2 ^ 64).toNat

/-- Conversion of an unsigned value to `int`: the low 32 bits read in two's complement. -/
def to_int (n : Nat) : Int := ((n : Int) + 2 ^ 31) % 2 ^ 32 - 2 ^ 31

/-- Reduction of an integer value to the 64-bit signed `time_t`: the low 64 bits read in two's
complement. A value between `LONG_MIN` and `LONG_MAX` is kept. -/
def to_time_t (i : Int) : Int := (i + 2 ^ 63) % 2 ^ 64 - 2 ^ 63

/-- The constant `std::numeric_limits<uint64_t>::max()`. -/
def UINT64_MAX : Nat := 2 ^ 64 - 1

/-- The struct `Statistics_data`. -/
structure Statistics_data where
  sum_length : Nat
  averege_length : Nat
  max_length : Nat
  min_length : Nat
  Level_INFO_count : Int
  Level_WARN_count : Int
  Level_ERROR_count : Int
  count_last_interval_time : Int
  all_count : Int
deriving DecidableEq, Repr

/-- The class `Statistic`. The map `level_map` is read as a function: a key that is absent reads
as 0, which is what `operator[]` inserts before `++`; the keys INFO, WARN and ERROR are present
from construction on, so `at` on them never throws. The queue `times` has its front first. -/
structure Statistic where
  level_map : Logger.Level → Int
  sum_length : Nat
  averege_length : Nat
  max_length : Nat
  min_length : Nat
  times : List Int

namespace Statistic

/-- The constant `Statistic::interval_time`: one hour. -/
def interval_time : Int := 3600

/-- A default-constructed `Statistic`. -/
def init : Statistic :=
  { level_map := fun _ => 0, sum_length := 0, averege_length := 0, max_length := 0,
    min_length := UINT64_MAX, times := [] }

/-- The method `Statistic::get_count_message`: the sum of the three counters as `uint64_t`. -/
def get_count_message (s : Statistic) : Nat :=
  to_uint64 (s.level_map Logger.Level.INFO + s.level_map Logger.Level.WARN
    + s.level_map Logger.Level.ERROR)

/-- The method `Statistic::update_length_message`. A division by a zero `count` has no defined
result in the code; here it yields 0. -/
def update_length_message (s : Statistic) (length : Nat) : Statistic :=
  let sum_length := (s.sum_length + length) % 2 ^ 64
  let count : Int := to_int (if s.get_count_message = 0 then 1 else s.get_count_message)
  { s with
    sum_length := sum_length
    max_length := max s.max_length length
    min_length := min s.min_length length
    averege_length := sum_length / to_uint64 count }

/-- The loop `while (times.back() - times.front() >= interval_time) times.pop();`. The
difference of the two `time_t` values is the 64-bit result: when the exact difference does not
fit `time_t` the language defines no result, and the built code wraps modulo `2 ^ 64`. -/
def evict : List Int → Except Logger.Fault (List Int)
  | [] => .error Logger.Fault.empty_queue_access
  | front :: rest =>
    if to_time_t ((front :: rest).getLast (List.cons_ne_nil front rest) - front) ≥ interval_time
    then evict rest
    else .ok (front :: rest)

/-- The method `Statistic::add_time` on the queue `times`. -/
def add_time (times : List Int) (time : Int) : Except Logger.Fault (List Int) :=
  evict (times ++ [time])

/-- The method `Statistic::update`. -/
def update (s : Statistic) (entry_log : Logger.Logger_protocol.Protocol) :
    Except Logger.Fault Statistic :=
  let s1 : Statistic :=
    { s with level_map := fun l => if l = entry_log.level then s.level_map l + 1 else s.level_map l }
  let s2 := s1.update_length_message entry_log.message.length
  match add_time s2.times entry_log.time with
  | .error f => .error f
  | .ok times => .ok { s2 with times := times }

/-- The method `Statistic::get_statistics_data`. -/
def get_statistics_data (s : Statistic) : Statistics_data :=
  { Level_INFO_count := s.level_map Logger.Level.INFO
    Level_WARN_count := s.level_map Logger.Level.WARN
    Level_ERROR_count := s.level_map Logger.Level.ERROR
    all_count := to_int s.get_count_message
    count_last_interval_time := to_int s.times.length
    averege_length := s.averege_length
    max_length := s.max_length
    min_length := s.min_length
    sum_length := s.sum_length }

/-- A sequence of `update` calls, one after the other. -/
def update_all (s : Statistic) : List Logger.Logger_protocol.Protocol → Except Logger.Fault Statistic
  | [] => .ok s
  | entry_log :: rest =>
    match s.update entry_log with
    | .error f => .error f
    | .ok s1 => update_all s1 rest

/-- What the eviction loop leaves of a queue, as a plain function. -/
def drop_old : List Int → List Int
  | [] => []
  | front :: rest =>
    if to_time_t ((front :: rest).getLast (List.cons_ne_nil front rest) - front) ≥ interval_time
    then drop_old rest
    else front :: rest

end Statistic

namespace Logger

namespace Logger_protocol

/-- The fields of `struct tm` that the format `"%F %T"` reads. -/
structure Tm where
  tm_sec : Int
  tm_min : Int
  tm_hour : Int
  tm_mday : Int
  tm_mon : Int
  tm_year : Int
deriving DecidableEq, Repr

/-- A decimal number padded with `0` to two places, as the conversions `%m`, `%d`, `%H`, `%M`
and `%S` write it. -/
def two_digits (v : Int) : List Char :=
  if 0 ≤ v ∧ v < 10 then '0' :: put_int v else put_int v

/-- What `std::put_time(&tm, "%F %T")` writes: `%F` is `%Y-%m-%d` and `%T` is `%H:%M:%S`, with
`%Y` the year `tm_year + 1900` in decimal and `%m` the month `tm_mon + 1`. -/
def put_time (tm : Tm) : List Char :=
  put_int (tm.tm_year + 1900) ++ ['-'] ++ two_digits (tm.tm_mon + 1) ++ ['-']
    ++ two_digits tm.tm_mday ++ [' '] ++ two_digits tm.tm_hour ++ [':']
    ++ two_digits tm.tm_min ++ [':'] ++ two_digits tm.tm_sec

/-- The conversion `std::localtime` for a process whose time zone is UTC, where it agrees with
`std::gmtime`: the date of the proleptic Gregorian calendar and the time of day that lie `time`
seconds after 1970-01-01 00:00:00. Days are counted from 0000-03-01 in eras of 400 years
(146097 days). The result is a null pointer (`none`) when the year minus 1900 does not fit
`int`. -/
def gmtime (time : Int) : Option Tm :=
  let days := time / 86400
  let seconds := time % 86400
  let z := days + 719468
  let era := z / 146097
  let day_of_era := z % 146097
  let year_of_era :=
    (day_of_era - day_of_era / 1460 + day_of_era / 36524 - day_of_era / 146096) / 365
  let day_of_year := day_of_era - (365 * year_of_era + year_of_era / 4 - year_of_era / 100)
  let mp := (5 * day_of_year + 2) / 153
  let day := day_of_year - (153 * mp + 2) / 5 + 1
  let month := if mp < 10 then mp + 3 else mp - 9
  let year := year_of_era + era * 400 + (if month ≤ 2 then 1 else 0)
  if INT_MIN ≤ year - 1900 ∧ year - 1900 ≤ INT_MAX then
    some ⟨seconds % 60, seconds / 60 % 60, seconds / 3600, day, month - 1, year - 1900⟩
  else none

/-- The function `print_log_entry`: the text it writes to the stream. The conversion
`std::localtime` depends on the time zone of the process and is a parameter; it returns `none`
for a null pointer (a year that does not fit `int`), which the code dereferences. -/
def print_log_entry (localtime : Int → Option Tm) (log_entry : Protocol) :
    Except Fault (List Char) :=
  match localtime log_entry.time with
  | none => .error Fault.null_pointer_dereference
  | some tm =>
    match serialization_level log_entry.level with
    | none => .error Fault.bad_optional_access
    | some name => .ok (log_entry.message ++ [' '] ++ name ++ [' '] ++ put_time tm)

end Logger_protocol

/-- The method `File_logging::write` on the text of the file written so far. `stream_ok` tells
whether the output succeeds (`log_file.fail()` is false afterwards); what reaches the file when
it does not is left out. The text of the error is `strerror(errno)`. -/
def File_logging.write (localtime : Int → Option Logger_protocol.Tm) (stream_ok : Bool)
    (strerror : List Char) (log_file : List Char) (entry : Logger_protocol.Protocol) :
    Except Fault (List Char × Option Error) :=
  match Logger_protocol.print_log_entry localtime entry with
  | .error f => .error f
  | .ok text =>
    if stream_ok then .ok (log_file ++ text ++ ['\n'], none)
    else .ok (log_file, some ⟨Error_code.WRITE, strerror⟩)

namespace Socket

/-- What one `recv` or `send` call reports: the returned count (-1 on failure) and, for `recv`,
the bytes it stored, as many as the count when that is positive. -/
structure Recv_result where
  count : Int
  data : List Char
deriving DecidableEq, Repr

/-- Conversion of an integer value to `uint32_t`: the value modulo `2 ^ 32`. -/
def to_uint32 (i : Int) : Nat := (i % 2 ^ 32).toNat

/-- Conversion of the `ssize_t` returned by `recv` and `send` to the `int` it is stored in: the
low 32 bits read in two's complement. -/
def int_of_ssize (r : Int) : Int := (r + 2 ^ 31) % 2 ^ 32 - 2 ^ 31

/-- The four bytes in memory of `htonl(n)`: `n` in big-endian order. -/
def htonl_bytes (n : Nat) : List Char :=
  [Char.ofNat (n / 2 ^ 24 % 256), Char.ofNat (n / 2 ^ 16 % 256), Char.ofNat (n / 2 ^ 8 % 256),
    Char.ofNat (n % 256)]

/-- The value `ntohl` gives for the bytes in memory: they are read in big-endian order. -/
def ntohl_bytes (bytes : List Char) : Nat :=
  bytes.foldl (fun acc b => 256 * acc + b.toNat % 256) 0

/-- The function `Socket::socket_write`: the returned variant and the bytes that went out. The
two `send` calls report `sent_size` and `sent_data`; the second is made only if the first
reports a positive count. -/
def socket_write (data : List Char) (sent_size sent_data : Int) (strerror : List Char) :
    Except Error Int × List Char :=
  let message_size := htonl_bytes (data.length % 2 ^ 32)
  if int_of_ssize sent_size ≤ 0 then (.error ⟨Error_code.WRITE, strerror⟩, [])
  else if int_of_ssize sent_data ≤ 0 then
    (.error ⟨Error_code.WRITE, strerror⟩, message_size.take sent_size.toNat)
  else (.ok (int_of_ssize sent_data), message_size.take sent_size.toNat ++ data.take sent_data.toNat)

/-- The function `Socket::socket_read`. The first `recv` (4 bytes into the zero-initialised
`message_length`) reports `header`; `alloc_ok` tells whether `buf->resize` succeeds; the second
`recv` (into the zero-filled buffer) reports `payload` and is made only if this point is
reached. -/
def socket_read (header : Recv_result) (alloc_ok : Bool) (payload : Recv_result)
    (strerror : List Char) : Except Error (List Char) :=
  if int_of_ssize header.count ≤ 0 then
    if int_of_ssize header.count = 0 then
      .error ⟨Error_code.ERROR, "closed the connection".toList⟩
    else .error ⟨Error_code.ERROR, strerror⟩
  else
    let message_length :=
      ntohl_bytes ((header.data ++ List.replicate 4 (Char.ofNat 0)).take 4)
    if alloc_ok then
      let buf := (payload.data ++ List.replicate message_length (Char.ofNat 0)).take message_length
      -- `receive != message_length` compares an `int` with a `uint32_t`
      if to_uint32 (int_of_ssize payload.count) ≠ message_length then
        .error ⟨Error_code.ERROR, "not all data received".toList⟩
      else .ok buf
    else .error ⟨Error_code.ERROR, "std::bad_alloc".toList⟩

end Socket

end Logger

/-- The method `Statistic::statistic_display`: the text it writes. -/
def Statistic.statistic_display (s : Statistic) : List Char :=
  "Message statistic:".toList ++ ['\n'] ++
  "count: ".toList ++ Nat.toDigits 10 s.get_count_message ++ ['\n'] ++
  "level ".toList ++ "INFO".toList ++ ":".toList
    ++ Logger.Logger_protocol.put_int (s.level_map Logger.Level.INFO) ++ ['\n'] ++
  "level ".toList ++ "WARN".toList ++ ":".toList
    ++ Logger.Logger_protocol.put_int (s.level_map Logger.Level.WARN) ++ ['\n'] ++
  "level ".toList ++ "ERROR".toList ++ ":".toList
    ++ Logger.Logger_protocol.put_int (s.level_map Logger.Level.ERROR) ++ ['\n'] ++
  "last hour: ".toList ++ Nat.toDigits 10 s.times.length ++ ['\n'] ++
  "max length: ".toList ++ Nat.toDigits 10 s.max_length ++ ['\n'] ++
  "min length: ".toList ++ Nat.toDigits 10 s.min_length ++ ['\n'] ++
  "averege length: ".toList ++ Nat.toDigits 10 s.averege_length

/-- What one round of the server loop writes. -/
inductive Output where
  /-- The line written by `print_log_entry(std::cout, entry) << std::endl`. -/
  | log_entry (text : List Char)
  /-- The text written by `stats.statistic_display(std::cout) << std::endl`. -/
  | statistic (text : List Char)
  /-- The message of the error returned by `socket_read`. -/
  | error_message (text : List Char)
  /-- The text `strerror(errno)` written to `std::cerr` after a failed `poll`. -/
  | poll_error
  /-- The text `strerror(errno)` written to `std::cerr` after a failed `accept`. -/
  | accept_error
deriving DecidableEq, Repr

/-- What `statistic_app_run` carries from round to round: the aggregator and the count at the
last display. -/
structure Server where
  stats : Statistic
  previous_count_message : Int

/-- What `poll` reports in one round of the inner loop: -1 with `EINTR`, -1 with another error,
0 (timeout), or 1, given together with what `socket_read` then returns. -/
inductive Poll where
  | interrupted
  | failed
  | timeout
  | ready (data_socket : Except Logger.Error (List Char))

/-- The outcome of one round of the inner loop: the state carried on, what was written, and
whether the connection is still served (`false`: closed, back to `accept`). -/
structure Step where
  server : Server
  output : List Output
  connected : Bool

/-- One round of the inner loop `while (true)` of `statistic_app_run` with message interval
`interval_count_message`; `localtime` is the time zone conversion used by `print_log_entry`. -/
def statistic_app_step (localtime : Int → Option Logger.Logger_protocol.Tm)
    (interval_count_message : Int) (sv : Server) : Poll → Except Logger.Fault Step
  | Poll.interrupted => .ok ⟨sv, [], true⟩
  | Poll.failed => .ok ⟨sv, [Output.poll_error], false⟩
  | Poll.ready (.error error) => .ok ⟨sv, [Output.error_message error.error_message], false⟩
  | Poll.ready (.ok message) =>
    match Logger.Logger_protocol.deserialization_log message with
    | .error f => .error f
    | .ok none => .ok ⟨sv, [], true⟩
    | .ok (some log_entry) =>
      match Logger.Logger_protocol.print_log_entry localtime log_entry with
      | .error f => .error f
      | .ok line =>
        match sv.stats.update log_entry with
        | .error f => .error f
        | .ok stats =>
          if stats.get_count_message % to_uint64 interval_count_message = 0 then
            .ok ⟨⟨stats, to_int stats.get_count_message⟩,
              [Output.log_entry line, Output.statistic stats.statistic_display], true⟩
          else .ok ⟨⟨stats, sv.previous_count_message⟩, [Output.log_entry line], true⟩
  | Poll.timeout =>
    if sv.stats.get_count_message > to_uint64 sv.previous_count_message then
      .ok ⟨⟨sv.stats, to_int sv.stats.get_count_message⟩,
        [Output.statistic sv.stats.statistic_display], true⟩
    else .ok ⟨sv, [], true⟩

/-- Rounds of the inner loop on one connection, one after the other, with everything written;
the rounds stop when the connection is closed. -/
def statistic_app_steps (localtime : Int → Option Logger.Logger_protocol.Tm)
    (interval_count_message : Int) :
    Server → List Poll → Except Logger.Fault (Server × List (List Output))
  | sv, [] => .ok (sv, [])
  | sv, p :: rest =>
    match statistic_app_step localtime interval_count_message sv p with
    | .error f => .error f
    | .ok step =>
      if step.connected then
        match statistic_app_steps localtime interval_count_message step.server rest with
        | .error f => .error f
        | .ok (sv2, outs) => .ok (sv2, step.output :: outs)
      else .ok (step.server, [step.output])

/-- What `accept` reports in one round of the outer loop: -1 with `EINTR`, -1 with another
error, or a new connection. -/
inductive Accept where
  | interrupted
  | failed
  | connection
deriving DecidableEq, Repr

/-- Where `statistic_app_run` stands: in `accept`, in the inner loop on a connection, or
returned with a code. -/
inductive Mode where
  | accepting
  | serving
  | returned (code : Int)
deriving DecidableEq, Repr

/-- The result of the system call that `statistic_app_run` makes next. -/
inductive Syscall where
  | accept (result : Accept)
  | poll (result : Poll)

/-- The state of `statistic_app_run`: where it stands, the aggregator and the count at the last
display (both declared before the outer loop), and everything written so far. -/
structure Run where
  mode : Mode
  server : Server
  output : List Output

/-- The state of `statistic_app_run` when it enters the outer loop. -/
def Run.init : Run := ⟨Mode.accepting, ⟨Statistic.init, 0⟩, []⟩

/-- One round of `statistic_app_run`: of the outer loop when it is in `accept`, of the inner loop
when it serves a connection. The result of a call that the function is not making is ignored. -/
def statistic_app_run_step (localtime : Int → Option Logger.Logger_protocol.Tm)
    (interval_count_message : Int) (r : Run) : Syscall → Except Logger.Fault Run
  | Syscall.accept result =>
    match r.mode, result with
    | Mode.accepting, Accept.interrupted => .ok r
    | Mode.accepting, Accept.failed =>
      .ok { r with mode := Mode.returned (-1), output := r.output ++ [Output.accept_error] }
    | Mode.accepting, Accept.connection => .ok { r with mode := Mode.serving }
    | _, _ => .ok r
  | Syscall.poll result =>
    match r.mode with
    | Mode.serving =>
      match statistic_app_step localtime interval_count_message r.server result with
      | .error f => .error f
      | .ok step =>
        .ok { mode := if step.connected then Mode.serving else Mode.accepting
              server := step.server
              output := r.output ++ step.output }
    | _ => .ok r

/-- The eviction loop of `Statistic::add_time` with the number of `pop` calls it makes. -/
def Statistic.evict_pops : List Int → Except Logger.Fault (List Int × Nat)
  | [] => .error Logger.Fault.empty_queue_access
  | front :: rest =>
    if to_time_t ((front :: rest).getLast (List.cons_ne_nil front rest) - front)
        ≥ Statistic.interval_time then
      match Statistic.evict_pops rest with
      | .error f => .error f
      | .ok (times, pops) => .ok (times, pops + 1)
    else .ok (front :: rest, 0)

namespace Logger.Socket

/-- A `recv` with `MSG_WAITALL` of `len` bytes on a byte stream, given as the bytes written and
not yet read: it transfers all requested bytes, or the bytes that are left when the stream ends
before. The result is what the call reports and the unread rest of the stream. -/
def recv_all (stream : List Char) (len : Nat) : Recv_result × List Char :=
  (⟨((stream.take len).length : Int), stream.take len⟩, stream.drop len)

/-- The function `socket_write` on a byte stream on which every `send` transfers all requested
bytes: the first `send` reports 4, the second the size of the data. The result is the returned
variant and the stream with the bytes that went out appended. -/
def socket_write_stream (stream data strerror : List Char) : Except Error Int × List Char :=
  let sent := socket_write data 4 (data.length : Int) strerror
  (sent.1, stream ++ sent.2)

/-- The function `socket_read` on a byte stream on which every `recv` transfers all requested
bytes: the first `recv` asks for 4 bytes, the second, if it is made, for as many as the buffer
holds. The result is the returned variant and the unread rest of the stream. -/
def socket_read_stream (stream strerror : List Char) : Except Error (List Char) × List Char :=
  let header := recv_all stream 4
  if int_of_ssize header.1.count ≤ 0 then (socket_read header.1 true ⟨0, []⟩ strerror, header.2)
  else
    let message_length :=
      ntohl_bytes ((header.1.data ++ List.replicate 4 (Char.ofNat 0)).take 4)
    let payload := recv_all header.2 message_length
    (socket_read header.1 true payload.1 strerror, payload.2)

/-- Calls of `socket_write` one after the other on the same stream, one for each payload. -/
def write_frames (strerror : List Char) (stream : List Char) (frames : List (List Char)) :
    List Char :=
  frames.foldl (fun st data => (socket_write_stream st data strerror).2) stream

/-- The given number of `socket_read` calls one after the other on the same stream: what each
returns, and the unread rest. -/
def read_frames (strerror : List Char) :
    Nat → List Char → List (Except Error (List Char)) × List Char
  | 0, stream => ([], stream)
  | n + 1, stream =>
    let first := socket_read_stream stream strerror
    let others := read_frames strerror n first.2
    (first.1 :: others.1, others.2)

end Logger.Socket

/-- A text is the decimal field of the given width for a value: that many characters, all of
them decimal digits, reading as the value. -/
def decimal_field (width : Nat) (value : Int) (text : List Char) : Prop :=
  text.length = width ∧ (∀ c ∈ text, c.isDigit = true) ∧
    (Logger.Logger_protocol.digits_value text : Int) = value

/-- The whitespace-separated tokens of a text: the pieces between whitespace characters, empty
pieces left out. -/
def tokens (raw : List Char) : List (List Char) :=
  (raw.splitOnP Logger.isspace).filter (fun w => !w.isEmpty)

/-- A token: non-empty and free of whitespace. -/
def clean (w : List Char) : Prop := w ≠ [] ∧ ∀ c ∈ w, Logger.isspace c = false

/-- Every word followed by one space, as the loop appends them. -/
def spaced : List (List Char) → List Char
  | [] => []
  | w :: ws => w ++ ' ' :: spaced ws

/-- Last element of a list, or the given value for the empty list. -/
def last_or (d : List Char) : List (List Char) → List Char
  | [] => d
  | w :: ws => last_or w ws

namespace Logger.Logger_protocol

/-! ## Decimal output read back by `from_chars` -/

theorem digitChar_spec : ∀ d, d < 10 →
    (Nat.digitChar d).isDigit = true ∧ (Nat.digitChar d).toNat - 48 = d := by
  decide

theorem digits_value_snoc (ds : List Char) (c : Char) :
    digits_value (ds ++ [c]) = 10 * digits_value ds + (c.toNat - 48) := by
  simp [digits_value, List.foldl_append]

theorem toDigitsCore_spec : ∀ (fuel n : Nat) (acc : List Char), n < fuel →
    ∃ ds, Nat.toDigitsCore 10 fuel n acc = ds ++ acc ∧ ds ≠ [] ∧
      (∀ c ∈ ds, c.isDigit = true) ∧ digits_value ds = n := by
  intro fuel
  induction fuel with
  | zero => intro n acc h; omega
  | succ fuel ih =>
    intro n acc h
    have hd := digitChar_spec (n % 10) (Nat.mod_lt _ (by decide))
    by_cases hq : n / 10 = 0
    · refine ⟨[Nat.digitChar (n % 10)], ?_, by simp, ?_, ?_⟩
      · simp [Nat.toDigitsCore, hq]
      · intro c hc
        simp only [List.mem_singleton] at hc
        rw [hc]; exact hd.1
      · have := digits_value_snoc [] (Nat.digitChar (n % 10))
        simp only [List.nil_append] at this
        rw [this, hd.2]
        simp [digits_value]
        omega
    · obtain ⟨ds, h1, h2, h3, h4⟩ := ih (n / 10) (Nat.digitChar (n % 10) :: acc) (by omega)
      refine ⟨ds ++ [Nat.digitChar (n % 10)], ?_, by simp, ?_, ?_⟩
      · simp [Nat.toDigitsCore, hq, h1]
      · intro c hc
        rcases List.mem_append.1 hc with hc | hc
        · exact h3 c hc
        · simp only [List.mem_singleton] at hc
          rw [hc]; exact hd.1
      · rw [digits_value_snoc, h4, hd.2]
        omega

theorem toDigits_spec (n : Nat) :
    Nat.toDigits 10 n ≠ [] ∧ (∀ c ∈ Nat.toDigits 10 n, c.isDigit = true) ∧
      digits_value (Nat.toDigits 10 n) = n := by
  obtain ⟨ds, h1, h2, h3, h4⟩ := toDigitsCore_spec (n + 1) n [] (Nat.lt_succ_self n)
  simp only [List.append_nil] at h1
  unfold Nat.toDigits
  rw [h1]
  exact ⟨h2, h3, h4⟩

theorem isDigit_not_space {c : Char} (h : c.isDigit = true) : c ≠ ' ' := by
  rintro rfl; revert h; decide

theorem isDigit_not_minus {c : Char} (h : c.isDigit = true) : c ≠ '-' := by
  rintro rfl; revert h; decide

theorem isDigit_not_nul {c : Char} (h : c.isDigit = true) : c ≠ Char.ofNat 0 := by
  rintro rfl; revert h; decide

theorem isDigit_not_isspace {c : Char} (h : c.isDigit = true) : isspace c = false := by
  cases hs : isspace c with
  | false => rfl
  | true =>
    exfalso
    simp only [isspace, Bool.or_eq_true, decide_eq_true_eq] at hs
    rcases hs with ((((hs | hs) | hs) | hs) | hs) | hs <;> (subst hs; revert h; decide)

/-! ## `rfind` and the trailing trim -/

theorem rfind_eq_none {c : Char} : ∀ {l : List Char}, c ∉ l → rfind c l = none
  | [], _ => rfl
  | x :: xs, h => by
    have hx : x ≠ c := fun e => h (by simp [e])
    have hxs : c ∉ xs := fun e => h (by simp [e])
    simp [rfind, rfind_eq_none hxs, hx]

theorem rfind_append_sep (c : Char) (p d : List Char) (h : c ∉ d) :
    rfind c (p ++ c :: d) = some p.length := by
  induction p with
  | nil => simp [rfind, rfind_eq_none h]
  | cons x xs ih => simp [rfind, ih]

theorem pop_back_spaces_snoc (l : List Char) (c : Char) (h : isspace c = false) :
    pop_back_spaces (l ++ [c]).reverse = some (l ++ [c]).reverse := by
  simp [pop_back_spaces, h]

theorem from_chars_digits (lo hi : Int) (d : List Char) (hne : d ≠ [])
    (hd : ∀ c ∈ d, c.isDigit = true) (hlo : lo ≤ (digits_value d : Int))
    (hhi : (digits_value d : Int) ≤ hi) :
    from_chars lo hi d = some (digits_value d : Int) := by
  have hneg : (d.head? = some '-') = False := by
    cases d with
    | nil => exact absurd rfl hne
    | cons x xs =>
      have := isDigit_not_minus (hd x (by simp))
      simp [this]
  have htw : d.takeWhile Char.isDigit = d := List.takeWhile_eq_self_iff.2 hd
  simp [from_chars, hneg, htw, hne, hlo, hhi]

/-- Success path of `extract_last_number`: a trailing run of digits after a space is read and cut
off together with that space. -/
theorem extract_last_number_digits (lo hi : Int) (p d : List Char) (hne : d ≠ [])
    (hd : ∀ c ∈ d, c.isDigit = true) (hlo : lo ≤ (digits_value d : Int))
    (hhi : (digits_value d : Int) ≤ hi) :
    extract_last_number lo hi (p ++ ' ' :: d) = .ok (some (digits_value d : Int), p) := by
  have hsplit : p ++ ' ' :: d = (p ++ ' ' :: d.dropLast) ++ [d.getLast hne] := by
    simp [List.dropLast_append_getLast hne]
  have hlast : isspace (d.getLast hne) = false :=
    isDigit_not_isspace (hd _ (List.getLast_mem hne))
  have hpop : pop_back_spaces (p ++ ' ' :: d).reverse = some (p ++ ' ' :: d).reverse := by
    rw [hsplit]; exact pop_back_spaces_snoc _ _ hlast
  have hsp : ' ' ∉ d := fun h => isDigit_not_space (hd _ h) rfl
  have hnul : (d.takeWhile fun c => decide (c ≠ Char.ofNat 0)) = d :=
    List.takeWhile_eq_self_iff.2 (fun c hc => by simpa using isDigit_not_nul (hd c hc))
  have hdrop : (p ++ ' ' :: d).drop (p.length + 1) = d := by
    rw [show p ++ ' ' :: d = (p ++ [' ']) ++ d by simp]
    exact List.drop_left' (by simp)
  have htake : (p ++ ' ' :: d).take p.length = p := by simp
  have hnonempty : (p ++ ' ' :: d = []) = False := by simp
  simp only [extract_last_number, hnonempty, if_false, hpop, List.reverse_reverse,
    rfind_append_sep ' ' p d hsp, hdrop, hnul, from_chars_digits lo hi d hne hd hlo hhi, htake]

end Logger.Logger_protocol

open Logger Logger.Logger_protocol

/-! ## Tokens of a text and the word loop of `create_log_entry` -/

theorem tokens_nil : tokens [] = [] := by
  simp [tokens, List.splitOnP_nil]

theorem tokens_cons_space (c : Char) (s : List Char) (h : isspace c = true) :
    tokens (c :: s) = tokens s := by
  simp [tokens, List.splitOnP_cons, h]

theorem splitOnP_isspace_shape (s : List Char) :
    ∃ t, s.splitOnP isspace = s.takeWhile (fun c => !isspace c) :: t ∧
      t.filter (fun w => !w.isEmpty) = tokens (s.dropWhile (fun c => !isspace c)) := by
  induction s with
  | nil => exact ⟨[], by simp [List.splitOnP_nil], by simp [tokens_nil]⟩
  | cons c s ih =>
    obtain ⟨t, h1, h2⟩ := ih
    cases hc : isspace c with
    | true =>
      refine ⟨s.splitOnP isspace, by simp [List.splitOnP_cons, hc], ?_⟩
      have hdrop : (c :: s).dropWhile (fun c => !isspace c) = c :: s := by
        simp [List.dropWhile_cons, hc]
      rw [hdrop, tokens_cons_space c s hc]
      rfl
    | false =>
      refine ⟨t, by simp [List.splitOnP_cons, hc, h1], ?_⟩
      simpa [List.dropWhile_cons, hc] using h2

theorem extract_word_spec (s : List Char) :
    (extract_word s = none ∧ tokens s = []) ∨
    ∃ w rest, extract_word s = some (w, rest) ∧ tokens s = w :: tokens rest ∧
      rest.length < s.length ∧ w ≠ [] ∧ ∀ c ∈ w, isspace c = false := by
  induction s with
  | nil => left; exact ⟨by simp [extract_word], tokens_nil⟩
  | cons c s ih =>
    cases hc : isspace c with
    | true =>
      have hstep : extract_word (c :: s) = extract_word s := by
        simp [extract_word, List.dropWhile_cons, hc]
      rw [hstep, tokens_cons_space c s hc]
      rcases ih with ih | ⟨w, rest, h1, h2, h3, h4, h5⟩
      · left; exact ih
      · right; exact ⟨w, rest, h1, h2, by simp only [List.length_cons]; omega, h4, h5⟩
    | false =>
      right
      obtain ⟨t, h1, h2⟩ := splitOnP_isspace_shape s
      refine ⟨c :: s.takeWhile (fun c => !isspace c), s.dropWhile (fun c => !isspace c),
        by simp [extract_word, List.dropWhile_cons, List.takeWhile_cons, hc], ?_, ?_, by simp, ?_⟩
      · simp [tokens, List.splitOnP_cons, hc, h1]
        simpa [tokens] using h2
      · have := (List.dropWhile_suffix (l := s) (fun c => !isspace c)).length_le
        simp only [List.length_cons]; omega
      · intro x hx
        rcases List.mem_cons.1 hx with hx | hx
        · rw [hx]; exact hc
        · simpa using (List.mem_takeWhile_imp hx)


theorem tokens_clean : ∀ (n : Nat) (s : List Char), s.length < n → ∀ w ∈ tokens s, clean w := by
  intro n
  induction n with
  | zero => intro s h; omega
  | succ n ih =>
    intro s hs w hw
    rcases extract_word_spec s with ⟨_, h0⟩ | ⟨w0, rest, _, h2, h3, h4, h5⟩
    · rw [h0] at hw; simp at hw
    · rw [h2] at hw
      rcases List.mem_cons.1 hw with hw | hw
      · rw [hw]; exact ⟨h4, h5⟩
      · exact ih rest (by omega) w hw

theorem read_words_spec : ∀ (fuel : Nat) (s word msg : List Char), s.length < fuel →
    read_words fuel s word msg = (last_or word (tokens s), msg ++ spaced (tokens s)) := by
  intro fuel
  induction fuel with
  | zero => intro s word msg h; omega
  | succ fuel ih =>
    intro s word msg hs
    rcases extract_word_spec s with ⟨h1, h0⟩ | ⟨w, rest, h1, h2, h3, _, _⟩
    · simp [read_words, h1, h0, last_or, spaced]
    · simp only [read_words, h1, h2, last_or, spaced]
      rw [ih rest w (msg ++ w ++ [' ']) (by omega)]
      simp

theorem last_or_eq (d : List Char) (ts : List (List Char)) :
    last_or d ts = ts.getLast?.getD d := by
  induction ts generalizing d with
  | nil => rfl
  | cons w ws ih =>
    rw [last_or, ih]
    cases ws with
    | nil => simp
    | cons a b => simp [List.getLast?_eq_getLast _ (List.cons_ne_nil a b)]

theorem intercalate_cons_cons (sep w w2 : List Char) (r : List (List Char)) :
    List.intercalate sep (w :: w2 :: r) = w ++ sep ++ List.intercalate sep (w2 :: r) := by
  simp [List.intercalate, List.intersperse]

theorem intercalate_single (sep w : List Char) : List.intercalate sep [w] = w := by
  simp [List.intercalate, List.intersperse]

theorem intercalate_snoc (sep w : List Char) (init : List (List Char)) (h : init ≠ []) :
    List.intercalate sep (init ++ [w]) = List.intercalate sep init ++ sep ++ w := by
  induction init with
  | nil => exact absurd rfl h
  | cons a r ih =>
    cases r with
    | nil => simp [intercalate_cons_cons, intercalate_single]
    | cons b r2 =>
      have := ih (by simp)
      simp only [List.cons_append] at this ⊢
      rw [intercalate_cons_cons, this, intercalate_cons_cons]
      simp

theorem spaced_ne_nil {ts : List (List Char)} (h : ts ≠ []) : spaced ts ≠ [] := by
  cases ts with
  | nil => exact absurd rfl h
  | cons w ws => simp [spaced]

theorem spaced_dropLast (ts : List (List Char)) (h : ts ≠ []) :
    (spaced ts).dropLast = List.intercalate [' '] ts := by
  induction ts with
  | nil => exact absurd rfl h
  | cons w ws ih =>
    cases ws with
    | nil => simp [spaced, intercalate_single]
    | cons w2 r =>
      have hne : spaced (w2 :: r) ≠ [] := spaced_ne_nil (by simp)
      rw [intercalate_cons_cons, ← ih (by simp)]
      show (w ++ ' ' :: spaced (w2 :: r)).dropLast = _
      rw [List.dropLast_append_of_ne_nil _ (by simp), List.dropLast_cons_of_ne_nil hne]
      simp

/-- A joined list of tokens ends in a character that is not whitespace. -/
theorem intercalate_last_clean (ts : List (List Char)) (h : ts ≠ [])
    (hc : ∀ w ∈ ts, clean w) :
    ∃ c, (List.intercalate [' '] ts).getLast? = some c ∧ isspace c = false := by
  rcases List.eq_nil_or_concat ts with h0 | ⟨init, w, rfl⟩
  · exact absurd h0 h
  · simp only [List.concat_eq_append] at hc ⊢
    obtain ⟨hw1, hw2⟩ := hc w (by simp)
    have hw : w.getLast? = some (w.getLast hw1) := List.getLast?_eq_getLast _ hw1
    refine ⟨w.getLast hw1, ?_, hw2 _ (List.getLast_mem hw1)⟩
    by_cases hi : init = []
    · rw [hi]; simp [intercalate_single, hw]
    · rw [intercalate_snoc _ _ _ hi, List.getLast?_append, hw]
      rfl

/-- A joined list of tokens starts with a character that is not whitespace. -/
theorem intercalate_head_clean (ts : List (List Char)) (h : ts ≠ [])
    (hc : ∀ w ∈ ts, clean w) :
    ∃ c, (List.intercalate [' '] ts).head? = some c ∧ isspace c = false := by
  cases ts with
  | nil => exact absurd rfl h
  | cons w r =>
    obtain ⟨hw1, hw2⟩ := hc w (by simp)
    cases w with
    | nil => exact absurd rfl hw1
    | cons x xs =>
      refine ⟨x, ?_, hw2 x (by simp)⟩
      cases r with
      | nil => simp [intercalate_single]
      | cons w2 r2 => simp [intercalate_cons_cons]

theorem tokens_all_clean (s : List Char) : ∀ w ∈ tokens s, clean w :=
  tokens_clean (s.length + 1) s (Nat.lt_succ_self _)

theorem read_words_tokens (raw : List Char) :
    read_words (raw.length + 1) raw [] [] =
      ((tokens raw).getLast?.getD [], spaced (tokens raw)) := by
  rw [read_words_spec _ _ _ _ (Nat.lt_succ_self _), last_or_eq]
  simp

/-- No token: `word` stays empty and nothing is returned. -/
theorem create_log_entry_no_token (raw : List Char) (d : Level) (t : Int)
    (h : tokens raw = []) : create_log_entry raw d t = none := by
  simp [create_log_entry, read_words_tokens, h]

/-- The last token is no severity name: all tokens joined, default level. -/
theorem create_log_entry_untagged (raw : List Char) (d : Level) (t : Int)
    (init : List (List Char)) (w : List Char) (h : tokens raw = init ++ [w])
    (hw : deserialization_level w = none) :
    create_log_entry raw d t = some ⟨List.intercalate [' '] (init ++ [w]), d, t⟩ := by
  have hclean : clean w := tokens_all_clean raw w (by rw [h]; simp)
  have hne : init ++ [w] ≠ [] := by simp
  have hrw : read_words (raw.length + 1) raw [] [] = (w, spaced (init ++ [w])) := by
    rw [read_words_tokens, h]; simp
  simp only [create_log_entry, hrw, hclean.1, if_false, hw, spaced_dropLast _ hne]

/-- The last token is a severity name and it is the only token: nothing is returned. -/
theorem create_log_entry_only_level (raw : List Char) (d : Level) (t : Int)
    (w : List Char) (lvl : Level) (h : tokens raw = [w])
    (hw : deserialization_level w = some lvl) :
    create_log_entry raw d t = none := by
  have hclean : clean w := tokens_all_clean raw w (by rw [h]; simp)
  have hrw : read_words (raw.length + 1) raw [] [] = (w, spaced [w]) := by
    rw [read_words_tokens, h]; simp
  have hdrop : w.reverse.drop w.length = [] := List.drop_eq_nil_of_le (by simp)
  simp [create_log_entry, hrw, hclean.1, hw, spaced, hdrop]

/-- The last token is a severity name and other tokens precede it: those tokens joined, the
named level. -/
theorem create_log_entry_tagged (raw : List Char) (d : Level) (t : Int)
    (init : List (List Char)) (w : List Char) (lvl : Level) (h : tokens raw = init ++ [w])
    (hinit : init ≠ []) (hw : deserialization_level w = some lvl) :
    create_log_entry raw d t = some ⟨List.intercalate [' '] init, lvl, t⟩ := by
  have hclean : clean w := tokens_all_clean raw w (by rw [h]; simp)
  have hne : init ++ [w] ≠ [] := by simp
  have hinit_clean : ∀ x ∈ init, clean x := fun x hx => tokens_all_clean raw x (by rw [h]; simp [hx])
  obtain ⟨c, hc1, hc2⟩ := intercalate_last_clean init hinit hinit_clean
  have hrev : (List.intercalate [' '] init).reverse.head? = some c := by
    rw [List.head?_reverse]; exact hc1
  obtain ⟨r, hr⟩ : ∃ r, (List.intercalate [' '] init).reverse = c :: r := by
    cases hcs : (List.intercalate [' '] init).reverse with
    | nil => rw [hcs] at hrev; simp at hrev
    | cons a b =>
      rw [hcs] at hrev
      simp only [List.head?_cons, Option.some.injEq] at hrev
      exact ⟨b, by rw [hrev]⟩
  have herase : (((List.intercalate [' '] (init ++ [w])).reverse.drop w.length).dropWhile
      isspace).reverse = List.intercalate [' '] init := by
    rw [intercalate_snoc _ _ _ hinit]
    have h1 : (List.intercalate [' '] init ++ [' '] ++ w).reverse
        = w.reverse ++ (' ' :: (List.intercalate [' '] init).reverse) := by simp
    rw [h1, List.drop_left' (by simp), hr]
    have hsp : isspace ' ' = true := by decide
    simp only [List.dropWhile_cons, hsp, if_true, hc2, Bool.false_eq_true, if_false]
    rw [← hr, List.reverse_reverse]
  have hnonempty : List.intercalate [' '] init ≠ [] := by
    intro h0; rw [h0] at hc1; simp at hc1
  have hrw : read_words (raw.length + 1) raw [] [] = (w, spaced (init ++ [w])) := by
    rw [read_words_tokens, h]; simp
  simp only [create_log_entry, hrw, hclean.1, if_false, hw, spaced_dropLast _ hne, herase,
    hnonempty]

theorem mem_intercalate_space (ts : List (List Char)) (c : Char)
    (h : c ∈ List.intercalate [' '] ts) : c = ' ' ∨ ∃ w ∈ ts, c ∈ w := by
  induction ts with
  | nil => simp [List.intercalate, List.intersperse] at h
  | cons w r ih =>
    cases r with
    | nil =>
      rw [intercalate_single] at h
      exact Or.inr ⟨w, by simp, h⟩
    | cons w2 r2 =>
      rw [intercalate_cons_cons] at h
      rcases List.mem_append.1 h with h | h
      · rcases List.mem_append.1 h with h | h
        · exact Or.inr ⟨w, by simp, h⟩
        · exact Or.inl (by simpa using h)
      · rcases ih h with h | ⟨x, hx, hcx⟩
        · exact Or.inl h
        · exact Or.inr ⟨x, List.mem_cons_of_mem _ hx, hcx⟩

theorem chain_of_no_space (w : List Char) (h : ∀ c ∈ w, c ≠ ' ') :
    w.Chain' (fun a b => ¬(a = ' ' ∧ b = ' ')) := by
  induction w with
  | nil => exact List.chain'_nil
  | cons x xs ih =>
    rw [List.chain'_cons']
    exact ⟨fun y _ hxy => h x (by simp) hxy.1, ih (fun c hc => h c (List.mem_cons_of_mem _ hc))⟩

theorem clean_no_space {w : List Char} (h : clean w) : ∀ c ∈ w, c ≠ ' ' := by
  intro c hc e
  have := h.2 c hc
  rw [e] at this
  exact absurd this (by decide)

/-- Joined tokens never hold two spaces in a row. -/
theorem intercalate_chain (ts : List (List Char)) (hc : ∀ w ∈ ts, clean w) :
    (List.intercalate [' '] ts).Chain' (fun a b => ¬(a = ' ' ∧ b = ' ')) := by
  induction ts with
  | nil => simp [List.intercalate, List.intersperse]
  | cons w r ih =>
    have hw := hc w (by simp)
    cases r with
    | nil => rw [intercalate_single]; exact chain_of_no_space w (clean_no_space hw)
    | cons w2 r2 =>
      have ih2 := ih (fun x hx => hc x (List.mem_cons_of_mem _ hx))
      obtain ⟨c, hc1, hc2⟩ := intercalate_head_clean (w2 :: r2) (by simp)
        (fun x hx => hc x (List.mem_cons_of_mem _ hx))
      rw [intercalate_cons_cons, List.append_assoc]
      refine List.Chain'.append (chain_of_no_space w (clean_no_space hw)) ?_ ?_
      · rw [List.singleton_append, List.chain'_cons']
        refine ⟨fun y hy hxy => ?_, ih2⟩
        rw [hc1] at hy
        have hyc : c = y := by simpa using hy
        rw [← hyc] at hxy
        rw [hxy.2] at hc2
        exact absurd hc2 (by decide)
      · intro x hx y _ hxy
        exact clean_no_space hw x (List.mem_of_mem_getLast? hx) hxy.1

theorem deserialization_level_eq_none (w : List Char) :
    deserialization_level w = none ↔
      w ≠ "INFO".toList ∧ w ≠ "WARN".toList ∧ w ≠ "ERROR".toList := by
  have e1 : "INFO".toList = ['I', 'N', 'F', 'O'] := rfl
  have e2 : "WARN".toList = ['W', 'A', 'R', 'N'] := rfl
  have e3 : "ERROR".toList = ['E', 'R', 'R', 'O', 'R'] := rfl
  rw [e1, e2, e3]
  unfold deserialization_level
  by_cases h1 : w = ['I', 'N', 'F', 'O']
  · simp [h1]
  · by_cases h2 : w = ['W', 'A', 'R', 'N']
    · simp [h2]
    · by_cases h3 : w = ['E', 'R', 'R', 'O', 'R']
      · simp [h3]
      · simp [h1, h2, h3]

theorem getLast?_eq_some_split {ts : List (List Char)} {w : List Char}
    (h : ts.getLast? = some w) : ts = ts.dropLast ++ [w] := by
  rcases List.eq_nil_or_concat ts with h0 | ⟨init, x, rfl⟩
  · rw [h0] at h; simp at h
  · simp only [List.concat_eq_append] at h ⊢
    simp only [List.getLast?_append, List.getLast?_singleton] at h
    have hx : x = w := by simpa using h
    rw [hx]; simp

/-! ## Round trip of the wire text -/

theorem put_int_nonneg_spec (v : Int) (h : 0 ≤ v) :
    put_int v ≠ [] ∧ (∀ c ∈ put_int v, c.isDigit = true) ∧ (digits_value (put_int v) : Int) = v := by
  have hv : ¬ v < 0 := by omega
  obtain ⟨h1, h2, h3⟩ := toDigits_spec v.toNat
  simp only [put_int, hv, if_false]
  refine ⟨h1, h2, ?_⟩
  rw [h3]; omega

/-- C1: decoding the encoding of an entry whose message has no newline, whose level is INFO, WARN
or ERROR and whose time is a non-negative `time_t` returns that entry: same message, level and
time. -/
theorem C1_decode_encode_roundtrip (e : Protocol) (hmsg : '\n' ∉ e.message)
    (hlevel : e.level = Level.INFO ∨ e.level = Level.WARN ∨ e.level = Level.ERROR)
    (htime : 0 ≤ e.time) (hrange : e.time ≤ LONG_MAX) :
    deserialization_log (serialization_log e) = .ok (some e) := by
  obtain ⟨msg, lvl, time⟩ := e
  obtain ⟨ord⟩ := lvl
  simp only at hlevel htime hrange
  have hord : 0 ≤ ord ∧ ord ≤ 2 := by
    simp only [Level.INFO, Level.WARN, Level.ERROR, Level.mk.injEq] at hlevel
    omega
  obtain ⟨t1, t2, t3⟩ := put_int_nonneg_spec time htime
  obtain ⟨l1, l2, l3⟩ := put_int_nonneg_spec ord hord.1
  have hshape : serialization_log ⟨msg, ⟨ord⟩, time⟩ =
      (msg ++ ' ' :: put_int ord) ++ ' ' :: put_int time := by
    simp [serialization_log]
  have e1 := extract_last_number_digits LONG_MIN LONG_MAX (msg ++ ' ' :: put_int ord)
    (put_int time) t1 t2 (by rw [t3]; simp only [LONG_MIN]; omega) (by rw [t3]; exact hrange)
  have e2 := extract_last_number_digits INT_MIN INT_MAX msg (put_int ord) l1 l2
    (by rw [l3]; simp only [INT_MIN]; omega) (by rw [l3]; simp only [INT_MAX]; omega)
  rw [t3] at e1
  rw [l3] at e2
  simp only [deserialization_log, hshape, e1, e2]

theorem C1_decode_encode_roundtrip_witness :
    '\n' ∉ "Hello wide world".toList ∧ (0 : Int) ≤ 1700000000 ∧ (1700000000 : Int) ≤ LONG_MAX ∧
    deserialization_log (serialization_log ⟨"Hello wide world".toList, Level.WARN, 1700000000⟩)
      = .ok (some ⟨"Hello wide world".toList, Level.WARN, 1700000000⟩) :=
  ⟨by decide, by decide, by decide,
   C1_decode_encode_roundtrip ⟨"Hello wide world".toList, Level.WARN, 1700000000⟩ (by decide)
     (Or.inr (Or.inl rfl)) (by decide) (by decide)⟩




/-! ## Decoding at inputs outside the wire format -/

/-- C2: on the wire texts "msg 7 100" and "msg -1 100", whose level token is an integer outside
0, 1, 2, `deserialization_log` returns an entry (level ordinal 7, resp. -1) instead of nothing;
the returned level is none of INFO, WARN, ERROR and `serialization_level` has no name for it. -/
theorem C2_decode_level_out_of_range :
    deserialization_log "msg 7 100".toList = .ok (some ⟨"msg".toList, ⟨7⟩, 100⟩) ∧
    deserialization_log "msg -1 100".toList = .ok (some ⟨"msg".toList, ⟨-1⟩, 100⟩) ∧
    (⟨7⟩ : Level) ≠ Level.INFO ∧ (⟨7⟩ : Level) ≠ Level.WARN ∧ (⟨7⟩ : Level) ≠ Level.ERROR ∧
    serialization_level ⟨7⟩ = none := by
  decide

/-- C3: on the wire texts "msg 1 12abc" and "msg 1x 5", whose time resp. level token only starts
with digits, `deserialization_log` returns an entry, reading the token as 12 resp. 1 and
dropping the rest of the token, instead of returning nothing. -/
theorem C3_decode_token_with_trailing_text :
    deserialization_log "msg 1 12abc".toList = .ok (some ⟨"msg".toList, Level.WARN, 12⟩) ∧
    deserialization_log "msg 1x 5".toList = .ok (some ⟨"msg".toList, Level.WARN, 5⟩) ∧
    extract_last_number LONG_MIN LONG_MAX "msg 1 12abc".toList
      = .ok (some 12, "msg 1".toList) := by
  decide

/-- C4: on the wire text " 0 5", where nothing is left once level and time are removed,
`deserialization_log` returns an entry with the empty message instead of nothing, while
`create_log_entry` never returns an entry with an empty message. -/
theorem C4_decode_empty_message :
    deserialization_log " 0 5".toList = .ok (some ⟨[], Level.INFO, 5⟩) ∧
    create_log_entry "INFO".toList Level.INFO 5 = none ∧
    create_log_entry " ".toList Level.INFO 5 = none := by
  decide

/-! ## Claims on `create_log_entry` -/

/-- C5: when the text has at least two tokens and the last one is exactly INFO, WARN or ERROR,
`create_log_entry` returns the entry whose level is the one named by the last token (whatever
the default level), whose time is the given time and whose message is the other tokens joined
by single spaces; only the last token is removed. -/
theorem C5_create_log_entry_tagged (raw : List Char) (d : Level) (t : Int) (wn : List Char)
    (lvl : Level) (hn : 2 ≤ (tokens raw).length) (hlast : (tokens raw).getLast? = some wn)
    (hname : (wn = "INFO".toList ∧ lvl = Level.INFO) ∨ (wn = "WARN".toList ∧ lvl = Level.WARN) ∨
      (wn = "ERROR".toList ∧ lvl = Level.ERROR)) :
    create_log_entry raw d t = some ⟨List.intercalate [' '] (tokens raw).dropLast, lvl, t⟩ := by
  have hsplit := getLast?_eq_some_split hlast
  have hinit : (tokens raw).dropLast ≠ [] := by
    intro h0
    have := congrArg List.length h0
    simp only [List.length_dropLast, List.length_nil] at this
    omega
  have hw : deserialization_level wn = some lvl := by
    rcases hname with ⟨h1, h2⟩ | ⟨h1, h2⟩ | ⟨h1, h2⟩ <;> (rw [h1, h2]; rfl)
  exact create_log_entry_tagged raw d t _ wn lvl hsplit hinit hw

theorem C5_create_log_entry_tagged_witness :
    2 ≤ (tokens "INFO  ERROR \t WARN ".toList).length ∧
    (tokens "INFO  ERROR \t WARN ".toList).getLast? = some "WARN".toList ∧
    create_log_entry "INFO  ERROR \t WARN ".toList Level.ERROR 7
      = some ⟨"INFO ERROR".toList, Level.WARN, 7⟩ :=
  ⟨by decide, by decide,
   (C5_create_log_entry_tagged "INFO  ERROR \t WARN ".toList Level.ERROR 7 "WARN".toList
      Level.WARN (by decide) (by decide) (Or.inr (Or.inl ⟨rfl, rfl⟩))).trans (by decide)⟩

/-- C6: when the text has a token and its last token is not exactly INFO, WARN or ERROR,
`create_log_entry` returns an entry with the default level, the given time and all tokens joined
by single spaces as message; the message neither starts nor ends with whitespace, its only
whitespace characters are spaces (no tab, no newline) and no two spaces are adjacent. -/
theorem C6_create_log_entry_untagged (raw : List Char) (d : Level) (t : Int) (wn : List Char)
    (hlast : (tokens raw).getLast? = some wn)
    (hname : wn ≠ "INFO".toList ∧ wn ≠ "WARN".toList ∧ wn ≠ "ERROR".toList) :
    ∃ e, create_log_entry raw d t = some e ∧ e.level = d ∧ e.time = t ∧
      e.message = List.intercalate [' '] (tokens raw) ∧
      (∃ c, e.message.head? = some c ∧ isspace c = false) ∧
      (∃ c, e.message.getLast? = some c ∧ isspace c = false) ∧
      (∀ c ∈ e.message, isspace c = true → c = ' ') ∧
      '\t' ∉ e.message ∧ '\n' ∉ e.message ∧
      e.message.Chain' (fun a b => ¬(a = ' ' ∧ b = ' ')) := by
  have hsplit := getLast?_eq_some_split hlast
  have hw : deserialization_level wn = none := (deserialization_level_eq_none wn).2 hname
  have hne : tokens raw ≠ [] := by intro h0; rw [h0] at hlast; simp at hlast
  have hclean := tokens_all_clean raw
  have hws : ∀ c ∈ List.intercalate [' '] (tokens raw), isspace c = true → c = ' ' := by
    intro c hc hsp
    rcases mem_intercalate_space _ c hc with h | ⟨w, hw1, hw2⟩
    · exact h
    · rw [(hclean w hw1).2 c hw2] at hsp; exact absurd hsp (by decide)
  refine ⟨⟨List.intercalate [' '] (tokens raw), d, t⟩, ?_, rfl, rfl, rfl,
    intercalate_head_clean _ hne hclean, intercalate_last_clean _ hne hclean, hws, ?_, ?_,
    intercalate_chain _ hclean⟩
  · have := create_log_entry_untagged raw d t _ wn hsplit hw
    rw [← hsplit] at this
    exact this
  · intro h; exact absurd (hws _ h (by decide)) (by decide)
  · intro h; exact absurd (hws _ h (by decide)) (by decide)

theorem C6_create_log_entry_untagged_witness :
    (tokens "  a \t\n  b  warn ".toList).getLast? = some "warn".toList ∧
    ∃ e, create_log_entry "  a \t\n  b  warn ".toList Level.WARN 9 = some e ∧ e.level = Level.WARN ∧
      e.time = 9 ∧ e.message = List.intercalate [' '] (tokens "  a \t\n  b  warn ".toList) ∧
      (∃ c, e.message.head? = some c ∧ isspace c = false) ∧
      (∃ c, e.message.getLast? = some c ∧ isspace c = false) ∧
      (∀ c ∈ e.message, isspace c = true → c = ' ') ∧
      '\t' ∉ e.message ∧ '\n' ∉ e.message ∧
      e.message.Chain' (fun a b => ¬(a = ' ' ∧ b = ' ')) :=
  ⟨by decide,
   C6_create_log_entry_untagged "  a \t\n  b  warn ".toList Level.WARN 9 "warn".toList
     (by decide) (by decide)⟩

/-- C7: `create_log_entry` returns nothing exactly when the text has no token or its single token
is INFO, WARN or ERROR; whenever it returns an entry, the message of that entry is not empty. -/
theorem C7_create_log_entry_none_iff (raw : List Char) (d : Level) (t : Int) :
    (create_log_entry raw d t = none ↔
      (tokens raw = [] ∨ ∃ w, tokens raw = [w] ∧
        (w = "INFO".toList ∨ w = "WARN".toList ∨ w = "ERROR".toList))) ∧
    (∀ e, create_log_entry raw d t = some e → e.message ≠ []) := by
  have hclean := tokens_all_clean raw
  rcases List.eq_nil_or_concat (tokens raw) with h0 | ⟨init, w, hsplit⟩
  · have hnone := create_log_entry_no_token raw d t h0
    exact ⟨⟨fun _ => Or.inl h0, fun _ => hnone⟩, fun e he => by rw [hnone] at he; cases he⟩
  · simp only [List.concat_eq_append] at hsplit
    have hne : tokens raw ≠ [] := by rw [hsplit]; simp
    cases hw : deserialization_level w with
    | none =>
      have hsome := create_log_entry_untagged raw d t init w hsplit hw
      have hnames := (deserialization_level_eq_none w).1 hw
      obtain ⟨c, hc, _⟩ := intercalate_head_clean (init ++ [w]) (by simp)
        (fun x hx => hclean x (by rw [hsplit]; exact hx))
      refine ⟨⟨fun h => (by rw [hsome] at h; cases h), fun h => ?_⟩, fun e he => ?_⟩
      · rcases h with h | ⟨w2, h1, h2⟩
        · exact absurd h hne
        · rw [h1] at hsplit
          have hw2 : w2 = w := by
            have := congrArg List.getLast? hsplit
            simpa using this
          rw [hw2] at h2
          rcases h2 with h2 | h2 | h2
          · exact absurd h2 hnames.1
          · exact absurd h2 hnames.2.1
          · exact absurd h2 hnames.2.2
      · rw [hsome] at he
        cases he
        intro h0; simp only at h0; rw [h0] at hc; simp at hc
    | some lvl =>
      have hname : w = "INFO".toList ∨ w = "WARN".toList ∨ w = "ERROR".toList := by
        by_contra hcon
        have := (deserialization_level_eq_none w).2 (by tauto)
        rw [this] at hw; cases hw
      by_cases hinit : init = []
      · rw [hinit] at hsplit
        simp only [List.nil_append] at hsplit
        have hnone := create_log_entry_only_level raw d t w lvl hsplit hw
        exact ⟨⟨fun _ => Or.inr ⟨w, hsplit, hname⟩, fun _ => hnone⟩,
          fun e he => by rw [hnone] at he; cases he⟩
      · have hsome := create_log_entry_tagged raw d t init w lvl hsplit hinit hw
        obtain ⟨c, hc, _⟩ := intercalate_head_clean init hinit
          (fun x hx => hclean x (by rw [hsplit]; simp [hx]))
        refine ⟨⟨fun h => (by rw [hsome] at h; cases h), fun h => ?_⟩, fun e he => ?_⟩
        · rcases h with h | ⟨w2, h1, _⟩
          · exact absurd h hne
          · rw [h1] at hsplit
            have := congrArg List.length hsplit
            simp only [List.length_singleton, List.length_append] at this
            have hlen : init.length = 0 := by omega
            exact absurd (List.length_eq_zero.1 hlen) hinit
        · rw [hsome] at he
          cases he
          intro h0; simp only at h0; rw [h0] at hc; simp at hc

/-! ## `Logging::log_write` -/

/-- C8: `log_write` calls the session's `write` exactly when `create_log_entry` with the
threshold as default level yields an entry whose level is at least the threshold; it then passes
that entry and returns the session's result. When no entry is built, or the entry's level is
below the threshold, it returns success and `write` is not called. -/
theorem C8_log_write_filter {σ : Type} (sess : Session σ) (threshold : Level) (raw : List Char)
    (time : Int) (st : σ) (calls : List Protocol) :
    (∀ e, create_log_entry raw threshold time = some e → threshold ≤ e.level →
      Logging.log_write ⟨sess.recording, threshold⟩ (st, calls) raw time
        = (((sess.write st e).1, calls ++ [e]), (sess.write st e).2)) ∧
    (create_log_entry raw threshold time = none →
      Logging.log_write ⟨sess.recording, threshold⟩ (st, calls) raw time = ((st, calls), none)) ∧
    (∀ e, create_log_entry raw threshold time = some e → ¬ threshold ≤ e.level →
      Logging.log_write ⟨sess.recording, threshold⟩ (st, calls) raw time
        = ((st, calls), none)) := by
  refine ⟨fun e he hle => ?_, fun hnone => ?_, fun e he hlt => ?_⟩
  · simp [Logging.log_write, he, hle, Session.recording]
  · simp [Logging.log_write, hnone]
  · simp [Logging.log_write, he, hlt]

theorem C8_log_write_filter_witness :
    create_log_entry "disk full ERROR".toList Level.WARN 3
      = some ⟨"disk full".toList, Level.ERROR, 3⟩ ∧
    Level.WARN ≤ Level.ERROR ∧
    Logging.log_write ⟨Session.recording ⟨fun (n : Nat) e => (n + e.message.length, none)⟩,
        Level.WARN⟩ (0, []) "disk full ERROR".toList 3
      = ((9, [⟨"disk full".toList, Level.ERROR, 3⟩]), none) ∧
    create_log_entry "boot INFO".toList Level.WARN 3 = some ⟨"boot".toList, Level.INFO, 3⟩ ∧
    ¬ Level.WARN ≤ Level.INFO ∧
    Logging.log_write ⟨Session.recording ⟨fun (n : Nat) e => (n + e.message.length, none)⟩,
        Level.WARN⟩ (0, []) "boot INFO".toList 3
      = ((0, []), none) :=
  ⟨by decide, by decide,
   (C8_log_write_filter ⟨fun (n : Nat) e => (n + e.message.length, none)⟩ Level.WARN
      "disk full ERROR".toList 3 0 []).1 ⟨"disk full".toList, Level.ERROR, 3⟩ (by decide)
      (by decide),
   by decide, by decide,
   (C8_log_write_filter ⟨fun (n : Nat) e => (n + e.message.length, none)⟩ Level.WARN
      "boot INFO".toList 3 0 []).2.2 ⟨"boot".toList, Level.INFO, 3⟩ (by decide) (by decide)⟩

/-- C9: for every threshold, a line that has a token and whose last token is no severity name is
written to the session with level equal to the threshold, so it is never filtered out; an entry
that is built but not written comes from a line whose last token is a severity name, and the
level it names is below the threshold. -/
theorem C9_untagged_line_always_written {σ : Type} (sess : Session σ) (threshold : Level)
    (raw : List Char) (time : Int) (st : σ) (calls : List Protocol) (wn : List Char)
    (hlast : (tokens raw).getLast? = some wn)
    (hname : wn ≠ "INFO".toList ∧ wn ≠ "WARN".toList ∧ wn ≠ "ERROR".toList) :
    Logging.log_write ⟨sess.recording, threshold⟩ (st, calls) raw time
      = (((sess.write st ⟨List.intercalate [' '] (tokens raw), threshold, time⟩).1,
          calls ++ [⟨List.intercalate [' '] (tokens raw), threshold, time⟩]),
         (sess.write st ⟨List.intercalate [' '] (tokens raw), threshold, time⟩).2) ∧
    (∀ (raw2 : List Char) (e : Protocol), create_log_entry raw2 threshold time = some e →
      ¬ threshold ≤ e.level →
      ∃ w, (tokens raw2).getLast? = some w ∧
        (w = "INFO".toList ∨ w = "WARN".toList ∨ w = "ERROR".toList) ∧
        deserialization_level w = some e.level ∧ e.level.ord < threshold.ord) := by
  constructor
  · have hsplit := getLast?_eq_some_split hlast
    have hw : deserialization_level wn = none := (deserialization_level_eq_none wn).2 hname
    have hcreate := create_log_entry_untagged raw threshold time _ wn hsplit hw
    rw [← hsplit] at hcreate
    have hle : threshold ≤ threshold := Int.le_refl threshold.ord
    simp [Logging.log_write, hcreate, hle, Session.recording]
  · intro raw2 e he hlt
    have hord : e.level.ord < threshold.ord := Int.not_le.1 hlt
    rcases List.eq_nil_or_concat (tokens raw2) with h0 | ⟨init, w, hsplit⟩
    · rw [create_log_entry_no_token raw2 threshold time h0] at he; cases he
    · simp only [List.concat_eq_append] at hsplit
      cases hw : deserialization_level w with
      | none =>
        rw [create_log_entry_untagged raw2 threshold time init w hsplit hw] at he
        cases he
        exact absurd (Int.le_refl threshold.ord) hlt
      | some lvl =>
        have hnm : w = "INFO".toList ∨ w = "WARN".toList ∨ w = "ERROR".toList := by
          by_contra hcon
          have := (deserialization_level_eq_none w).2 (by tauto)
          rw [this] at hw; cases hw
        by_cases hinit : init = []
        · rw [hinit] at hsplit
          simp only [List.nil_append] at hsplit
          rw [create_log_entry_only_level raw2 threshold time w lvl hsplit hw] at he; cases he
        · rw [create_log_entry_tagged raw2 threshold time init w lvl hsplit hinit hw] at he
          cases he
          exact ⟨w, by rw [hsplit]; simp, hnm, hw, hord⟩

theorem C9_untagged_line_always_written_witness :
    (tokens "  low  battery ".toList).getLast? = some "battery".toList ∧
    Logging.log_write ⟨Session.recording ⟨fun (n : Nat) e => (n + e.message.length, none)⟩,
        Level.ERROR⟩ (0, []) "  low  battery ".toList 4
      = ((11, [⟨"low battery".toList, Level.ERROR, 4⟩]), none) :=
  ⟨by decide,
   ((C9_untagged_line_always_written ⟨fun (n : Nat) e => (n + e.message.length, none)⟩
      Level.ERROR "  low  battery ".toList 4 0 [] "battery".toList (by decide) (by decide)).1).trans
      (by decide)⟩

/-! ## `Channel::send` after the consumer is done -/

theorem send_closed (ch : Channel) (h : ch.close_receive = true) (m : List Char) (t : Int) :
    ch.send m t = (ch, false) := by
  simp [Channel.send, h]

theorem send_all_closed (ch : Channel) (h : ch.close_receive = true)
    (later : List (List Char × Int)) : ch.send_all later = ch := by
  induction later with
  | nil => rfl
  | cons x rest ih =>
    obtain ⟨m, t⟩ := x
    simp only [Channel.send_all, send_closed ch h]
    exact ih

/-- C10: in the channel state reached by any sequence of `send` calls followed by
`notify_error_sender`, every later `send` returns false and leaves the channel, its queue
included, exactly as it was; the queue is the one the earlier sends built. -/
theorem C10_send_after_consumer_done (ch0 : Channel) (sent later : List (List Char × Int))
    (m : List Char) (t : Int) :
    ((ch0.send_all sent).notify_error_sender.send_all later).send m t
      = ((ch0.send_all sent).notify_error_sender, false) ∧
    (((ch0.send_all sent).notify_error_sender.send_all later).send m t).1.data
      = (ch0.send_all sent).data := by
  have hclosed : (ch0.send_all sent).notify_error_sender.close_receive = true := rfl
  rw [send_all_closed _ hclosed, send_closed _ hclosed]
  exact ⟨rfl, rfl⟩

/-! ## `Channel::receive_wait`, `Channel::receive_not_wait` and the order of messages -/

/-- C11, as stated, fails: with producer-done set and one message in the queue, `receive_wait`
returns nothing and leaves the message in the queue, although the queue is not empty. -/
theorem C11_receive_wait_done_nonempty_counterexample :
    Channel.receive_wait ⟨[⟨"a".toList, 1⟩], true, false⟩
      = some (⟨[⟨"a".toList, 1⟩], true, false⟩, none) ∧
    ¬ ((⟨[⟨"a".toList, 1⟩], true, false⟩ : Channel).close_sender = true ∧
        (⟨[⟨"a".toList, 1⟩], true, false⟩ : Channel).data = []) ∧
    ¬ (∀ (ch : Channel) (r : Channel × Option Chanel_protocol), ch.receive_wait = some r →
        (r.2 = none ↔ (ch.close_sender = true ∧ ch.data = []))) := by
  refine ⟨by decide, by decide, fun h => ?_⟩
  have h1 := h ⟨[⟨"a".toList, 1⟩], true, false⟩ _ rfl
  exact absurd (h1.1 rfl).2 (by decide)

/-- C11, amended: in every channel state in which `receive_wait` can return (the queue is not
empty or producer-done is set) it does return, and it returns nothing if and only if
producer-done is set, whether or not the queue is empty: with producer-done set the channel is
left as it is, queue included; with producer-done not set the oldest message is popped and
returned. -/
theorem C11_receive_wait_returns (ch : Channel)
    (hret : ch.data ≠ [] ∨ ch.close_sender = true) :
    ∃ r, ch.receive_wait = some r ∧
      (r.2 = none ↔ ch.close_sender = true) ∧
      (ch.close_sender = true → r = (ch, none)) ∧
      (ch.close_sender = false →
        ∃ d rest, ch.data = d :: rest ∧ r = ({ ch with data := rest }, some d)) := by
  obtain ⟨data, cs, cr⟩ := ch
  cases cs with
  | true => exact ⟨_, rfl, by simp, fun _ => rfl, fun h => by simp at h⟩
  | false =>
    cases data with
    | nil => simp at hret
    | cons d rest =>
      exact ⟨_, rfl, by simp, fun h => by simp at h, fun _ => ⟨d, rest, rfl, rfl⟩⟩

theorem C11_receive_wait_returns_witness :
    ((⟨[⟨"a".toList, 1⟩, ⟨"b".toList, 2⟩], false, false⟩ : Channel).data ≠ [] ∨
      (⟨[⟨"a".toList, 1⟩, ⟨"b".toList, 2⟩], false, false⟩ : Channel).close_sender = true) ∧
    ∃ r, Channel.receive_wait ⟨[⟨"a".toList, 1⟩, ⟨"b".toList, 2⟩], false, false⟩ = some r ∧
      (r.2 = none ↔
        (⟨[⟨"a".toList, 1⟩, ⟨"b".toList, 2⟩], false, false⟩ : Channel).close_sender = true) ∧
      ((⟨[⟨"a".toList, 1⟩, ⟨"b".toList, 2⟩], false, false⟩ : Channel).close_sender = true →
        r = (⟨[⟨"a".toList, 1⟩, ⟨"b".toList, 2⟩], false, false⟩, none)) ∧
      ((⟨[⟨"a".toList, 1⟩, ⟨"b".toList, 2⟩], false, false⟩ : Channel).close_sender = false →
        ∃ d rest, (⟨[⟨"a".toList, 1⟩, ⟨"b".toList, 2⟩], false, false⟩ : Channel).data = d :: rest ∧
          r = ({ (⟨[⟨"a".toList, 1⟩, ⟨"b".toList, 2⟩], false, false⟩ : Channel) with
                  data := rest }, some d)) :=
  ⟨Or.inl (by decide),
   C11_receive_wait_returns ⟨[⟨"a".toList, 1⟩, ⟨"b".toList, 2⟩], false, false⟩
     (Or.inl (by decide))⟩

theorem history_call_invariant (h : Channel.History) (op : Channel.Op)
    (hinv : h.received ++ h.ch.data = h.accepted) :
    (h.call op).received ++ (h.call op).ch.data = (h.call op).accepted := by
  obtain ⟨⟨data, cs, cr⟩, accepted, received⟩ := h
  simp only at hinv
  cases op with
  | send m t =>
    cases cr with
    | true => simpa [Channel.History.call, Channel.send] using hinv
    | false => simp [Channel.History.call, Channel.send, ← hinv]
  | receive_wait =>
    cases cs with
    | true => simpa [Channel.History.call, Channel.receive_wait] using hinv
    | false =>
      cases data with
      | nil => simpa [Channel.History.call, Channel.receive_wait] using hinv
      | cons d rest => simpa [Channel.History.call, Channel.receive_wait] using hinv
  | receive_not_wait =>
    cases data with
    | nil => simpa [Channel.History.call, Channel.receive_not_wait] using hinv
    | cons d rest => simpa [Channel.History.call, Channel.receive_not_wait] using hinv
  | notify_error_receiver =>
    simpa [Channel.History.call, Channel.notify_error_receiver] using hinv
  | notify_error_sender =>
    simpa [Channel.History.call, Channel.notify_error_sender] using hinv

theorem history_foldl_invariant (ops : List Channel.Op) :
    ∀ h : Channel.History, h.received ++ h.ch.data = h.accepted →
      (ops.foldl Channel.History.call h).received ++ (ops.foldl Channel.History.call h).ch.data
        = (ops.foldl Channel.History.call h).accepted := by
  induction ops with
  | nil => intro h hinv; exact hinv
  | cons op rest ih =>
    intro h hinv
    exact ih (h.call op) (history_call_invariant h op hinv)

/-- C12: after any sequence of calls on a fresh channel, the messages returned by `receive_wait`
and `receive_not_wait`, followed by the messages still queued, are the messages accepted by
`send`, in send order; so the k-th returned message is the k-th accepted one, payload and time
stamp unchanged. `receive_not_wait` returns nothing exactly when the queue is empty, pops the
oldest message otherwise, and does not look at the producer-done flag. -/
theorem C12_channel_fifo (ops : List Channel.Op) :
    (Channel.History.run ops).received ++ (Channel.History.run ops).ch.data
      = (Channel.History.run ops).accepted ∧
    (∀ (k : Nat) (m : Chanel_protocol), (Channel.History.run ops).received[k]? = some m →
      (Channel.History.run ops).accepted[k]? = some m) ∧
    (∀ ch : Channel, (ch.receive_not_wait.2 = none ↔ ch.data = []) ∧
      (∀ d rest, ch.data = d :: rest →
        ch.receive_not_wait = ({ ch with data := rest }, some d)) ∧
      (∀ b, ({ ch with close_sender := b } : Channel).receive_not_wait.2
        = ch.receive_not_wait.2)) := by
  have hinv := history_foldl_invariant ops ⟨Channel.init, [], []⟩ rfl
  refine ⟨hinv, fun k m hk => ?_, fun ch => ?_⟩
  · have hlt : k < (Channel.History.run ops).received.length := by
      by_contra hge
      rw [List.getElem?_eq_none (by omega)] at hk
      cases hk
    have := @List.getElem?_append_left _ _ (Channel.History.run ops).ch.data _ hlt
    rw [← hk, ← this]
    exact congrArg (fun l => l[k]?) hinv.symm
  · obtain ⟨data, cs, cr⟩ := ch
    cases data with
    | nil => simp [Channel.receive_not_wait]
    | cons d rest => simp [Channel.receive_not_wait]

/-! ## The worker `write_logging_file` -/

theorem sent_messages_append (a b : List Event) :
    sent_messages (a ++ b) = sent_messages a ++ sent_messages b := by
  induction a with
  | nil => rfl
  | cons e rest ih => cases e <;> simp [sent_messages, ih]

theorem log_write_never_fails {σ : Type} (logger : Logger.Logging σ)
    (hw : ∀ s e, (logger.session.write s e).2 = none) (st : σ) (m : List Char) (t : Int) :
    (logger.log_write st m t).2 = none := by
  unfold Logger.Logging.log_write
  split
  · split
    · exact hw _ _
    · rfl
  · rfl

/-- While the producer has not signalled done and no write fails, an event keeps the worker in
its first loop (or before it) and keeps every accepted message either passed or queued. -/
theorem worker_on_before_done {σ : Type} (logger : Logger.Logging σ)
    (hw : ∀ s e, (logger.session.write s e).2 = none) (w : Worker σ) (e : Event)
    (he : e ≠ Event.producer_done)
    (hcs : w.ch.close_sender = false) (hcr : w.ch.close_receive = false)
    (hph : w.phase = Phase.starting ∨ w.phase = Phase.waiting) :
    (w.on logger none e).ch.close_sender = false ∧
    (w.on logger none e).ch.close_receive = false ∧
    ((w.on logger none e).phase = Phase.starting ∨ (w.on logger none e).phase = Phase.waiting) ∧
    (w.on logger none e).passed ++ (w.on logger none e).ch.data
      = w.passed ++ w.ch.data ++ sent_messages [e] := by
  obtain ⟨phase, ⟨data, cs, cr⟩, st, passed⟩ := w
  simp only at hcs hcr hph
  subst hcs hcr
  cases e with
  | producer_done => exact absurd rfl he
  | send m t => simp [Worker.on, Channel.send, sent_messages, hph]
  | worker =>
    rcases hph with hph | hph
    · subst hph
      simp [Worker.on, write_logging_file_step, sent_messages]
    · subst hph
      cases data with
      | nil => simp [Worker.on, write_logging_file_step, Channel.receive_wait, sent_messages]
      | cons d rest =>
        have hnf := log_write_never_fails logger hw st d.message d.time
        rcases hlw : logger.log_write st d.message d.time with ⟨st2, r⟩
        rw [hlw] at hnf
        simp only at hnf
        subst hnf
        simp [Worker.on, write_logging_file_step, Channel.receive_wait, sent_messages, hlw]

theorem worker_run_before_done {σ : Type} (logger : Logger.Logging σ)
    (hw : ∀ s e, (logger.session.write s e).2 = none) (pre : List Event)
    (hpre : Event.producer_done ∉ pre) :
    ∀ w : Worker σ, w.ch.close_sender = false → w.ch.close_receive = false →
      (w.phase = Phase.starting ∨ w.phase = Phase.waiting) →
      (pre.foldl (Worker.on logger none) w).ch.close_sender = false ∧
      (pre.foldl (Worker.on logger none) w).ch.close_receive = false ∧
      ((pre.foldl (Worker.on logger none) w).phase = Phase.starting ∨
        (pre.foldl (Worker.on logger none) w).phase = Phase.waiting) ∧
      (pre.foldl (Worker.on logger none) w).passed ++ (pre.foldl (Worker.on logger none) w).ch.data
        = w.passed ++ w.ch.data ++ sent_messages pre := by
  induction pre with
  | nil => intro w hcs hcr hph; exact ⟨hcs, hcr, hph, by simp [sent_messages]⟩
  | cons e rest ih =>
    intro w hcs hcr hph
    have he : e ≠ Event.producer_done := fun h => hpre (by simp [h])
    have hrest : Event.producer_done ∉ rest := fun h => hpre (List.mem_cons_of_mem _ h)
    obtain ⟨h1, h2, h3, h4⟩ := worker_on_before_done logger hw w e he hcs hcr hph
    obtain ⟨g1, g2, g3, g4⟩ := ih hrest (w.on logger none e) h1 h2 h3
    refine ⟨g1, g2, g3, ?_⟩
    rw [List.foldl_cons, g4, h4, show e :: rest = [e] ++ rest from rfl, sent_messages_append]
    simp

/-- A returned worker takes no further step. -/
theorem worker_returned_steps {σ : Type} (logger : Logger.Logging σ)
    (op : Option Logger.Error) (n : Nat) (w : Worker σ) (h : w.phase = Phase.returned) :
    (List.replicate n Event.worker).foldl (Worker.on logger op) w = w := by
  induction n with
  | zero => rfl
  | succ n ih =>
    have hstep : w.on logger op Event.worker = w := by
      simp [Worker.on, write_logging_file_step, h]
    rw [List.replicate_succ, List.foldl_cons, hstep, ih]

/-- The second loop, when no write fails: it passes the whole queue, in order, and returns. -/
theorem worker_drain {σ : Type} (logger : Logger.Logging σ)
    (hw : ∀ s e, (logger.session.write s e).2 = none) (op : Option Logger.Error) :
    ∀ (q : List Chanel_protocol) (w : Worker σ) (n : Nat), w.phase = Phase.draining →
      w.ch.data = q → q.length + 1 ≤ n →
      ((List.replicate n Event.worker).foldl (Worker.on logger op) w).phase = Phase.returned ∧
      ((List.replicate n Event.worker).foldl (Worker.on logger op) w).passed = w.passed ++ q ∧
      ((List.replicate n Event.worker).foldl (Worker.on logger op) w).ch.data = [] := by
  intro q
  induction q with
  | nil =>
    intro w n hph hq hn
    obtain ⟨m, rfl⟩ : ∃ m, n = m + 1 := ⟨n - 1, by omega⟩
    have hstep : (w.on logger op Event.worker).phase = Phase.returned ∧
        (w.on logger op Event.worker).passed = w.passed ∧
        (w.on logger op Event.worker).ch.data = [] := by
      simp [Worker.on, write_logging_file_step, hph, Channel.receive_not_wait, hq]
    rw [List.replicate_succ, List.foldl_cons, worker_returned_steps logger op m _ hstep.1]
    simpa using hstep
  | cons d rest ih =>
    intro w n hph hq hn
    obtain ⟨m, rfl⟩ : ∃ m, n = m + 1 := ⟨n - 1, by simp only [List.length_cons] at hn; omega⟩
    have hnf := log_write_never_fails logger hw w.st d.message d.time
    rcases hlw : logger.log_write w.st d.message d.time with ⟨st2, r⟩
    rw [hlw] at hnf
    simp only at hnf
    subst hnf
    have hstep : (w.on logger op Event.worker).phase = Phase.draining ∧
        (w.on logger op Event.worker).passed = w.passed ++ [d] ∧
        (w.on logger op Event.worker).ch.data = rest := by
      simp [Worker.on, write_logging_file_step, hph, Channel.receive_not_wait, hq, hlw]
    obtain ⟨g1, g2, g3⟩ := ih (w.on logger op Event.worker) m hstep.1 hstep.2.2
      (by simp only [List.length_cons] at hn; omega)
    rw [List.replicate_succ, List.foldl_cons]
    refine ⟨g1, ?_, g3⟩
    rw [g2, hstep.2.1]
    simp

/-- C13: if the session opens and no write fails, then for every interleaving of accepted sends
and worker steps up to the point at which the producer signals done, every message sent is,
at that point, either passed to `log_write` or still queued, in send order; and once the
producer has signalled done, the worker returns (within queue length + 3 of its steps) having
passed every message to `log_write` exactly once and in send order, with the queue empty. -/
theorem C13_worker_no_loss_no_reorder {σ : Type} (logger : Logger.Logging σ) (st : σ)
    (pre : List Event) (n : Nat)
    (hw : ∀ s e, (logger.session.write s e).2 = none)
    (hpre : Event.producer_done ∉ pre)
    (hn : (Worker.run logger none st pre).ch.data.length + 3 ≤ n) :
    (Worker.run logger none st pre).passed ++ (Worker.run logger none st pre).ch.data
      = sent_messages pre ∧
    (Worker.run logger none st
      (pre ++ Event.producer_done :: List.replicate n Event.worker)).phase = Phase.returned ∧
    (Worker.run logger none st
      (pre ++ Event.producer_done :: List.replicate n Event.worker)).passed = sent_messages pre ∧
    (Worker.run logger none st
      (pre ++ Event.producer_done :: List.replicate n Event.worker)).ch.data = [] := by
  obtain ⟨h1, h2, h3, h4⟩ := worker_run_before_done logger hw pre hpre
    ⟨Phase.starting, Channel.init, st, []⟩ rfl rfl (Or.inl rfl)
  simp only [List.nil_append, Channel.init] at h4
  have hrun : Worker.run logger none st pre
      = pre.foldl (Worker.on logger none) ⟨Phase.starting, Channel.init, st, []⟩ := rfl
  rw [← hrun] at h1 h2 h3
  have h4 : (Worker.run logger none st pre).passed ++ (Worker.run logger none st pre).ch.data
      = sent_messages pre := by rw [hrun]; simpa using h4
  refine ⟨h4, ?_⟩
  have hsplit : Worker.run logger none st
      (pre ++ Event.producer_done :: List.replicate n Event.worker)
      = (List.replicate n Event.worker).foldl (Worker.on logger none)
          ((Worker.run logger none st pre).on logger none Event.producer_done) := by
    simp [Worker.run, List.foldl_append]
  rw [hsplit]
  generalize Worker.run logger none st pre = w at h1 h2 h3 h4 hn
  obtain ⟨phase, ⟨data, cs, cr⟩, s, passed⟩ := w
  simp only at h1 h2 h3 h4 hn
  subst h1 h2
  -- the worker reaches its second loop in at most two steps
  obtain ⟨m, rfl⟩ : ∃ m, n = m + 2 := ⟨n - 2, by omega⟩
  have hdrain := worker_drain logger hw none data
  rcases h3 with h3 | h3
  · subst h3
    have hs : (List.replicate (m + 2) Event.worker).foldl (Worker.on logger none)
          ((⟨Phase.starting, ⟨data, false, false⟩, s, passed⟩ : Worker σ).on logger none
            Event.producer_done)
        = (List.replicate m Event.worker).foldl (Worker.on logger none)
            ⟨Phase.draining, ⟨data, true, false⟩, s, passed⟩ := by
      simp [List.replicate_succ, Worker.on, write_logging_file_step,
        Channel.notify_error_receiver, Channel.receive_wait]
    rw [hs]
    obtain ⟨g1, g2, g3⟩ := hdrain ⟨Phase.draining, ⟨data, true, false⟩, s, passed⟩ m rfl rfl
      (by omega)
    exact ⟨g1, by rw [g2]; exact h4, g3⟩
  · subst h3
    have hs : (List.replicate (m + 2) Event.worker).foldl (Worker.on logger none)
          ((⟨Phase.waiting, ⟨data, false, false⟩, s, passed⟩ : Worker σ).on logger none
            Event.producer_done)
        = (List.replicate (m + 1) Event.worker).foldl (Worker.on logger none)
            ⟨Phase.draining, ⟨data, true, false⟩, s, passed⟩ := by
      simp [List.replicate_succ, Worker.on, write_logging_file_step,
        Channel.notify_error_receiver, Channel.receive_wait]
    rw [hs]
    obtain ⟨g1, g2, g3⟩ := hdrain ⟨Phase.draining, ⟨data, true, false⟩, s, passed⟩ (m + 1)
      rfl rfl (by omega)
    exact ⟨g1, by rw [g2]; exact h4, g3⟩

theorem C13_worker_no_loss_no_reorder_witness :
    Event.producer_done ∉
      [Event.send "a".toList 1, Event.worker, Event.worker, Event.send "b".toList 2,
        Event.send "c".toList 3] ∧
    (Worker.run ⟨⟨fun (k : Nat) e => (k + e.message.length, none)⟩, Logger.Level.INFO⟩ none 0
      [Event.send "a".toList 1, Event.worker, Event.worker, Event.send "b".toList 2,
        Event.send "c".toList 3]).ch.data.length + 3 ≤ 5 ∧
    (Worker.run ⟨⟨fun (k : Nat) e => (k + e.message.length, none)⟩, Logger.Level.INFO⟩ none 0
      ([Event.send "a".toList 1, Event.worker, Event.worker, Event.send "b".toList 2,
        Event.send "c".toList 3] ++ Event.producer_done :: List.replicate 5 Event.worker)).passed
      = [⟨"a".toList, 1⟩, ⟨"b".toList, 2⟩, ⟨"c".toList, 3⟩] :=
  ⟨by decide, by decide,
   (C13_worker_no_loss_no_reorder
      ⟨⟨fun (k : Nat) e => (k + e.message.length, none)⟩, Logger.Level.INFO⟩ 0
      [Event.send "a".toList 1, Event.worker, Event.worker, Event.send "b".toList 2,
        Event.send "c".toList 3] 5 (fun _ _ => rfl) (by decide) (by decide)).2.2.1.trans
      (by decide)⟩

/-- C14, as stated, fails: with two messages queued and a session whose `write` fails, the
worker returns after the first `log_write`; the second message is still in the queue, was never
passed to `log_write`, and further worker steps do not take it out. -/
theorem C14_write_failure_counterexample :
    (Worker.run ⟨⟨fun (_ : Unit) _ => ((), some ⟨Logger.Error_code.WRITE, []⟩)⟩,
        Logger.Level.INFO⟩ none ()
      [Event.send "a".toList 1, Event.send "b".toList 2, Event.worker, Event.worker,
        Event.worker, Event.worker]).phase = Phase.returned ∧
    (Worker.run ⟨⟨fun (_ : Unit) _ => ((), some ⟨Logger.Error_code.WRITE, []⟩)⟩,
        Logger.Level.INFO⟩ none ()
      [Event.send "a".toList 1, Event.send "b".toList 2, Event.worker, Event.worker,
        Event.worker, Event.worker]).ch.data = [⟨"b".toList, 2⟩] ∧
    (Worker.run ⟨⟨fun (_ : Unit) _ => ((), some ⟨Logger.Error_code.WRITE, []⟩)⟩,
        Logger.Level.INFO⟩ none ()
      [Event.send "a".toList 1, Event.send "b".toList 2, Event.worker, Event.worker,
        Event.worker, Event.worker]).passed = [⟨"a".toList, 1⟩] := by
  decide

/-- C14, amended: when the `log_write` of the message at the head of the queue fails, in the
first loop (producer-done not set) or in the second loop, the worker returns with that step; the
messages behind it stay in the queue and are not passed to `log_write`, however many further
steps the worker is given. -/
theorem C14_write_failure_ends_worker {σ : Type} (logger : Logger.Logging σ)
    (op : Option Logger.Error) (w : Worker σ) (d : Chanel_protocol)
    (rest : List Chanel_protocol) (n : Nat)
    (hq : w.ch.data = d :: rest)
    (hphase : (w.phase = Phase.waiting ∧ w.ch.close_sender = false) ∨ w.phase = Phase.draining)
    (hfail : (logger.log_write w.st d.message d.time).2 ≠ none) :
    (write_logging_file_step logger op w).phase = Phase.returned ∧
    (write_logging_file_step logger op w).ch.data = rest ∧
    (write_logging_file_step logger op w).passed = w.passed ++ [d] ∧
    ((List.replicate n Event.worker).foldl (Worker.on logger op)
      (write_logging_file_step logger op w)).ch.data = rest ∧
    ((List.replicate n Event.worker).foldl (Worker.on logger op)
      (write_logging_file_step logger op w)).passed = w.passed ++ [d] := by
  have hstep : (write_logging_file_step logger op w).phase = Phase.returned ∧
      (write_logging_file_step logger op w).ch.data = rest ∧
      (write_logging_file_step logger op w).passed = w.passed ++ [d] := by
    rcases hlw : logger.log_write w.st d.message d.time with ⟨st2, r⟩
    rw [hlw] at hfail
    cases r with
    | none => exact absurd rfl hfail
    | some err =>
      rcases hphase with ⟨hph, hcs⟩ | hph
      · simp [write_logging_file_step, hph, Channel.receive_wait, hcs, hq, hlw,
          Channel.notify_error_sender]
      · simp [write_logging_file_step, hph, Channel.receive_not_wait, hq, hlw]
  rw [worker_returned_steps logger op n _ hstep.1]
  exact ⟨hstep.1, hstep.2.1, hstep.2.2, hstep.2.1, hstep.2.2⟩

theorem C14_write_failure_ends_worker_witness :
    (⟨Phase.draining, ⟨[⟨"a".toList, 1⟩, ⟨"b".toList, 2⟩], true, false⟩, (), []⟩ :
      Worker Unit).ch.data = ⟨"a".toList, 1⟩ :: [⟨"b".toList, 2⟩] ∧
    ((List.replicate 3 Event.worker).foldl
      (Worker.on ⟨⟨fun (_ : Unit) _ => ((), some ⟨Logger.Error_code.WRITE, []⟩)⟩,
        Logger.Level.INFO⟩ none)
      (write_logging_file_step
        ⟨⟨fun (_ : Unit) _ => ((), some ⟨Logger.Error_code.WRITE, []⟩)⟩, Logger.Level.INFO⟩ none
        ⟨Phase.draining, ⟨[⟨"a".toList, 1⟩, ⟨"b".toList, 2⟩], true, false⟩, (), []⟩)).ch.data
      = [⟨"b".toList, 2⟩] :=
  ⟨rfl,
   (C14_write_failure_ends_worker
      ⟨⟨fun (_ : Unit) _ => ((), some ⟨Logger.Error_code.WRITE, []⟩)⟩, Logger.Level.INFO⟩ none
      ⟨Phase.draining, ⟨[⟨"a".toList, 1⟩, ⟨"b".toList, 2⟩], true, false⟩, (), []⟩
      ⟨"a".toList, 1⟩ [⟨"b".toList, 2⟩] 3 rfl (Or.inr rfl) (by decide)).2.2.2.1⟩

/-- Once consumer-done is set, no event clears it. -/
theorem worker_on_keeps_close_receive {σ : Type} (logger : Logger.Logging σ)
    (op : Option Logger.Error) (w : Worker σ) (e : Event) (h : w.ch.close_receive = true) :
    (w.on logger op e).ch.close_receive = true := by
  obtain ⟨phase, ⟨data, cs, cr⟩, st, passed⟩ := w
  simp only at h
  subst h
  cases e with
  | send m t => simp [Worker.on, Channel.send]
  | producer_done => simp [Worker.on, Channel.notify_error_receiver]
  | worker =>
    cases phase with
    | starting => cases op <;> simp [Worker.on, write_logging_file_step, Channel.notify_error_sender]
    | returned => simp [Worker.on, write_logging_file_step]
    | waiting =>
      cases cs with
      | true => simp [Worker.on, write_logging_file_step, Channel.receive_wait]
      | false =>
        cases data with
        | nil => simp [Worker.on, write_logging_file_step, Channel.receive_wait]
        | cons d rest =>
          rcases hlw : logger.log_write st d.message d.time with ⟨st2, r⟩
          cases r <;>
            simp [Worker.on, write_logging_file_step, Channel.receive_wait, hlw,
              Channel.notify_error_sender]
    | draining =>
      cases data with
      | nil => simp [Worker.on, write_logging_file_step, Channel.receive_not_wait]
      | cons d rest =>
        rcases hlw : logger.log_write st d.message d.time with ⟨st2, r⟩
        cases r <;> simp [Worker.on, write_logging_file_step, Channel.receive_not_wait, hlw]

theorem worker_events_keep_close_receive {σ : Type} (logger : Logger.Logging σ)
    (op : Option Logger.Error) (later : List Event) :
    ∀ w : Worker σ, w.ch.close_receive = true →
      (later.foldl (Worker.on logger op) w).ch.close_receive = true := by
  induction later with
  | nil => intro w h; exact h
  | cons e rest ih =>
    intro w h
    exact ih _ (worker_on_keeps_close_receive logger op w e h)

/-- C15, as stated, fails: when the `log_write` that fails is one of the second loop (the
producer has signalled done), the worker returns without `notify_error_sender`; consumer-done is
not set and a `send` made after the worker has returned yields true. -/
theorem C15_drain_failure_counterexample :
    (Worker.run ⟨⟨fun (_ : Unit) _ => ((), some ⟨Logger.Error_code.WRITE, []⟩)⟩,
        Logger.Level.INFO⟩ none ()
      [Event.send "a".toList 1, Event.producer_done, Event.worker, Event.worker,
        Event.worker]).phase = Phase.returned ∧
    (Worker.run ⟨⟨fun (_ : Unit) _ => ((), some ⟨Logger.Error_code.WRITE, []⟩)⟩,
        Logger.Level.INFO⟩ none ()
      [Event.send "a".toList 1, Event.producer_done, Event.worker, Event.worker,
        Event.worker]).passed = [⟨"a".toList, 1⟩] ∧
    (Worker.run ⟨⟨fun (_ : Unit) _ => ((), some ⟨Logger.Error_code.WRITE, []⟩)⟩,
        Logger.Level.INFO⟩ none ()
      [Event.send "a".toList 1, Event.producer_done, Event.worker, Event.worker,
        Event.worker]).ch.close_receive = false ∧
    ((Worker.run ⟨⟨fun (_ : Unit) _ => ((), some ⟨Logger.Error_code.WRITE, []⟩)⟩,
        Logger.Level.INFO⟩ none ()
      [Event.send "a".toList 1, Event.producer_done, Event.worker, Event.worker,
        Event.worker]).ch.send "x".toList 9).2 = true := by
  decide

/-- C15, amended: when `open_session` fails, or a `log_write` fails in the first loop, the
worker calls `notify_error_sender` before it returns, and every `send` made afterwards, whatever
happens in between, yields false. When a `log_write` fails in the second loop, which is entered
only after the producer has signalled done, the worker returns and leaves the consumer-done
flag as it was. -/
theorem C15_error_signals_producer {σ : Type} (logger : Logger.Logging σ) (w : Worker σ) :
    (∀ err, w.phase = Phase.starting →
      (write_logging_file_step logger (some err) w).phase = Phase.returned ∧
      ∀ (later : List Event) (m : List Char) (t : Int), ((later.foldl (Worker.on logger (some err))
        (write_logging_file_step logger (some err) w)).ch.send m t).2 = false) ∧
    (∀ op d rest, w.phase = Phase.waiting → w.ch.close_sender = false → w.ch.data = d :: rest →
      (logger.log_write w.st d.message d.time).2 ≠ none →
      (write_logging_file_step logger op w).phase = Phase.returned ∧
      ∀ (later : List Event) (m : List Char) (t : Int), ((later.foldl (Worker.on logger op)
        (write_logging_file_step logger op w)).ch.send m t).2 = false) ∧
    (∀ op d rest, w.phase = Phase.draining → w.ch.data = d :: rest →
      (logger.log_write w.st d.message d.time).2 ≠ none →
      (write_logging_file_step logger op w).phase = Phase.returned ∧
      (write_logging_file_step logger op w).ch.close_receive = w.ch.close_receive) := by
  have hsend : ∀ (op : Option Logger.Error) (w2 : Worker σ), w2.ch.close_receive = true →
      ∀ (later : List Event) (m : List Char) (t : Int),
        ((later.foldl (Worker.on logger op) w2).ch.send m t).2 = false := by
    intro op w2 h later m t
    have := worker_events_keep_close_receive logger op later w2 h
    simp [Channel.send, this]
  refine ⟨fun err hph => ?_, fun op d rest hph hcs hq hfail => ?_,
    fun op d rest hph hq hfail => ?_⟩
  · have hstep : (write_logging_file_step logger (some err) w).phase = Phase.returned ∧
        (write_logging_file_step logger (some err) w).ch.close_receive = true := by
      simp [write_logging_file_step, hph, Channel.notify_error_sender]
    exact ⟨hstep.1, hsend _ _ hstep.2⟩
  · rcases hlw : logger.log_write w.st d.message d.time with ⟨st2, r⟩
    rw [hlw] at hfail
    cases r with
    | none => exact absurd rfl hfail
    | some e2 =>
      have hstep : (write_logging_file_step logger op w).phase = Phase.returned ∧
          (write_logging_file_step logger op w).ch.close_receive = true := by
        simp [write_logging_file_step, hph, Channel.receive_wait, hcs, hq, hlw,
          Channel.notify_error_sender]
      exact ⟨hstep.1, hsend _ _ hstep.2⟩
  · rcases hlw : logger.log_write w.st d.message d.time with ⟨st2, r⟩
    rw [hlw] at hfail
    cases r with
    | none => exact absurd rfl hfail
    | some e2 =>
      simp [write_logging_file_step, hph, Channel.receive_not_wait, hq, hlw]

theorem C15_error_signals_producer_witness :
    (⟨Phase.waiting, ⟨[⟨"a".toList, 1⟩, ⟨"b".toList, 2⟩], false, false⟩, (), []⟩ :
      Worker Unit).phase = Phase.waiting ∧
    (write_logging_file_step
      ⟨⟨fun (_ : Unit) _ => ((), some ⟨Logger.Error_code.WRITE, []⟩)⟩, Logger.Level.INFO⟩ none
      ⟨Phase.waiting, ⟨[⟨"a".toList, 1⟩, ⟨"b".toList, 2⟩], false, false⟩, (), []⟩).phase
      = Phase.returned ∧
    (([Event.send "c".toList 3, Event.worker].foldl
      (Worker.on ⟨⟨fun (_ : Unit) _ => ((), some ⟨Logger.Error_code.WRITE, []⟩)⟩,
        Logger.Level.INFO⟩ none)
      (write_logging_file_step
        ⟨⟨fun (_ : Unit) _ => ((), some ⟨Logger.Error_code.WRITE, []⟩)⟩, Logger.Level.INFO⟩ none
        ⟨Phase.waiting, ⟨[⟨"a".toList, 1⟩, ⟨"b".toList, 2⟩], false, false⟩, (), []⟩)).ch.send
      "d".toList 4).2 = false :=
  ⟨rfl,
   ((C15_error_signals_producer
      ⟨⟨fun (_ : Unit) _ => ((), some ⟨Logger.Error_code.WRITE, []⟩)⟩, Logger.Level.INFO⟩
      ⟨Phase.waiting, ⟨[⟨"a".toList, 1⟩, ⟨"b".toList, 2⟩], false, false⟩, (), []⟩).2.1 none
      ⟨"a".toList, 1⟩ [⟨"b".toList, 2⟩] rfl rfl rfl (by decide)).1,
   ((C15_error_signals_producer
      ⟨⟨fun (_ : Unit) _ => ((), some ⟨Logger.Error_code.WRITE, []⟩)⟩, Logger.Level.INFO⟩
      ⟨Phase.waiting, ⟨[⟨"a".toList, 1⟩, ⟨"b".toList, 2⟩], false, false⟩, (), []⟩).2.1 none
      ⟨"a".toList, 1⟩ [⟨"b".toList, 2⟩] rfl rfl rfl (by decide)).2
      [Event.send "c".toList 3, Event.worker] "d".toList 4⟩

/-! ## The sliding window of `Statistic` -/

/-- A difference that fits `time_t` is computed exactly. -/
theorem to_time_t_exact (d : Int) (h0 : LONG_MIN ≤ d) (h1 : d ≤ LONG_MAX) : to_time_t d = d := by
  simp only [LONG_MIN, LONG_MAX] at h0 h1
  unfold to_time_t
  omega

theorem evict_eq_drop_old : ∀ (l : List Int), l ≠ [] →
    Statistic.evict l = .ok (Statistic.drop_old l)
  | [], h => absurd rfl h
  | [x], _ => by
    have h0 : to_time_t 0 = 0 := rfl
    simp [Statistic.evict, Statistic.drop_old, Statistic.interval_time, h0]
  | x :: y :: r, _ => by
    have ih := evict_eq_drop_old (y :: r) (List.cons_ne_nil y r)
    by_cases hc : to_time_t ((x :: y :: r).getLast (List.cons_ne_nil x (y :: r)) - x)
        ≥ Statistic.interval_time
    · rw [Statistic.evict, Statistic.drop_old, if_pos hc, if_pos hc, ih]
    · rw [Statistic.evict, Statistic.drop_old, if_neg hc, if_neg hc]

theorem add_time_eq (w : List Int) (t : Int) :
    Statistic.add_time w t = .ok (Statistic.drop_old (w ++ [t])) :=
  evict_eq_drop_old (w ++ [t]) (by simp)

/-- What the eviction loop leaves: a non-empty end piece of the queue with the same back, whose
back minus front, as computed in `time_t`, is less than 3600. -/
theorem drop_old_spec : ∀ (l : List Int), l ≠ [] →
    Statistic.drop_old l ≠ [] ∧ Statistic.drop_old l <:+ l ∧
    (Statistic.drop_old l).getLast? = l.getLast? ∧
    (Statistic.drop_old l).length ≤ l.length ∧
    ∀ a b, (Statistic.drop_old l).head? = some a → (Statistic.drop_old l).getLast? = some b →
      to_time_t (b - a) < 3600
  | [], h => absurd rfl h
  | [x], _ => by
    have h0 : to_time_t 0 = 0 := rfl
    simp [Statistic.drop_old, Statistic.interval_time, h0]
  | x :: y :: r, _ => by
    obtain ⟨h1, h2, h3, h4, h5⟩ := drop_old_spec (y :: r) (List.cons_ne_nil y r)
    by_cases hc : to_time_t ((x :: y :: r).getLast (List.cons_ne_nil x (y :: r)) - x)
        ≥ Statistic.interval_time
    · rw [Statistic.drop_old, if_pos hc]
      refine ⟨h1, h2.trans (List.suffix_cons x (y :: r)), ?_, ?_, h5⟩
      · rw [h3]; simp
      · simp only [List.length_cons] at h4 ⊢; omega
    · rw [Statistic.drop_old, if_neg hc]
      refine ⟨by simp, List.suffix_refl _, rfl, Nat.le_refl _, ?_⟩
      intro a b ha hb
      rw [List.getLast?_eq_getLast _ (List.cons_ne_nil x (y :: r))] at hb
      simp only [List.head?_cons, Option.some.injEq] at ha hb
      simp only [Statistic.interval_time, ge_iff_le, not_le] at hc
      rw [← ha, ← hb]
      exact hc

/-- On a queue in non-decreasing order whose differences to the back fit `time_t`, the eviction
loop keeps exactly the elements that are less than 3600 below the back. -/
theorem drop_old_sorted (l : List Int) (t : Int) (h : (l ++ [t]).Pairwise (· ≤ ·))
    (hfit : ∀ x ∈ l, t - x ≤ LONG_MAX) :
    Statistic.drop_old (l ++ [t]) = (l ++ [t]).filter (fun x => decide (t - x < 3600)) := by
  induction l with
  | nil =>
    have h0 : to_time_t 0 = 0 := rfl
    simp [Statistic.drop_old, Statistic.interval_time, h0]
  | cons x r ih =>
    have hr : (r ++ [t]).Pairwise (· ≤ ·) := (List.pairwise_cons.1 h).2
    have hx : ∀ y ∈ r ++ [t], x ≤ y := (List.pairwise_cons.1 h).1
    have hxt : x ≤ t := hx t (by simp)
    have hexact : to_time_t (t - x) = t - x :=
      to_time_t_exact _ (by simp only [LONG_MIN]; omega) (hfit x (by simp))
    have hlast : (x :: (r ++ [t])).getLast (List.cons_ne_nil x (r ++ [t])) = t := by
      simp [List.getLast_cons]
    by_cases hc : t - x ≥ 3600
    · have hnot : ¬ (t - x < 3600) := by omega
      rw [List.cons_append, Statistic.drop_old, hlast, hexact,
        if_pos (by simpa [Statistic.interval_time] using hc),
        ih hr (fun y hy => hfit y (List.mem_cons_of_mem x hy))]
      simp [List.filter_cons, hnot]
    · have hlt : t - x < 3600 := by omega
      rw [List.cons_append, Statistic.drop_old, hlast, hexact,
        if_neg (by simpa [Statistic.interval_time] using hlt)]
      symm
      rw [List.filter_eq_self]
      intro y hy
      rcases List.mem_cons.1 hy with hy | hy
      · rw [hy]; simpa using hlt
      · have := hx y hy
        simp only [decide_eq_true_eq]
        omega

theorem update_eq (s : Statistic) (e : Protocol) :
    s.update e = .ok
      { (Statistic.update_length_message
          { s with level_map := fun l => if l = e.level then s.level_map l + 1 else s.level_map l }
          e.message.length) with
        times := Statistic.drop_old (s.times ++ [e.time]) } := by
  simp [Statistic.update, Statistic.update_length_message, add_time_eq]

theorem update_all_times (es : List Protocol) :
    ∀ s : Statistic, ∃ s2, s.update_all es = .ok s2 ∧
      s2.times = (es.map (fun e => e.time)).foldl
        (fun w t => Statistic.drop_old (w ++ [t])) s.times := by
  induction es with
  | nil => intro s; exact ⟨s, rfl, rfl⟩
  | cons e rest ih =>
    intro s
    obtain ⟨s2, h1, h2⟩ := ih
      { (Statistic.update_length_message
          { s with level_map := fun l => if l = e.level then s.level_map l + 1 else s.level_map l }
          e.message.length) with
        times := Statistic.drop_old (s.times ++ [e.time]) }
    refine ⟨s2, ?_, ?_⟩
    · simp only [Statistic.update_all, update_eq]
      exact h1
    · rw [h2]; simp [Statistic.update_length_message]

/-- Feeding timestamps in non-decreasing order, with a span that fits `time_t`, keeps in the
window exactly the timestamps fed so far that are less than 3600 below the newest one. -/
theorem feed_sorted : ∀ (ts p w : List Int), (p ++ ts).Pairwise (· ≤ ·) →
    (∀ m, p.getLast? = some m → w = p.filter (fun x => decide (m - x < 3600))) →
    (p = [] → w = []) →
    ∀ n, (p ++ ts).getLast? = some n → (∀ x ∈ p ++ ts, n - x ≤ LONG_MAX) →
      ts.foldl (fun w t => Statistic.drop_old (w ++ [t])) w
        = (p ++ ts).filter (fun x => decide (n - x < 3600)) := by
  intro ts
  induction ts with
  | nil =>
    intro p w _ hw _ n hn _
    simp only [List.append_nil] at hn ⊢
    exact hw n hn
  | cons t r ih =>
    intro p w hs hw hnil n hn hfit
    have hpt : (p ++ [t]).Pairwise (· ≤ ·) := by
      have : List.Sublist (p ++ [t]) (p ++ t :: r) :=
        List.Sublist.append_left (List.Sublist.cons₂ t (List.nil_sublist r)) p
      exact hs.sublist this
    have hle : ∀ x ∈ p, x ≤ t := fun x hx =>
      (List.pairwise_append.1 hpt).2.2 x hx t (by simp)
    have htn : t ≤ n := by
      have hmem : n ∈ p ++ t :: r := List.mem_of_mem_getLast? hn
      have hlast : (t :: r).getLast? = some n := by
        rw [List.getLast?_append_of_ne_nil p (List.cons_ne_nil t r)] at hn
        exact hn
      have hn2 : n ∈ t :: r := List.mem_of_mem_getLast? hlast
      rcases List.mem_cons.1 hn2 with h | h
      · omega
      · exact (List.pairwise_cons.1 (List.pairwise_append.1 hs).2.1).1 n h
    have hwp : List.Sublist w p := by
      cases hp : p.getLast? with
      | none =>
        have : p = [] := by simpa using hp
        rw [hnil this]; exact List.nil_sublist p
      | some m => rw [hw m hp]; exact List.filter_sublist p
    have hwt : (w ++ [t]).Pairwise (· ≤ ·) :=
      hpt.sublist (List.Sublist.append_right hwp [t])
    have hwfit : ∀ x ∈ w, t - x ≤ LONG_MAX := by
      intro x hx
      have := hfit x (List.mem_append_left _ (hwp.subset hx))
      omega
    have hfil : w.filter (fun x => decide (t - x < 3600))
        = p.filter (fun x => decide (t - x < 3600)) := by
      cases hp : p.getLast? with
      | none =>
        have : p = [] := by simpa using hp
        rw [hnil this, this]
      | some m =>
        rw [hw m hp, List.filter_filter]
        apply List.filter_congr
        intro x hx
        have hm : m ≤ t := hle m (List.mem_of_mem_getLast? hp)
        by_cases hc : t - x < 3600
        · have : m - x < 3600 := by omega
          simp [hc, this]
        · simp [hc]
    have hstep : Statistic.drop_old (w ++ [t])
        = (p ++ [t]).filter (fun x => decide (t - x < 3600)) := by
      rw [drop_old_sorted w t hwt hwfit, List.filter_append, List.filter_append, hfil]
    rw [List.foldl_cons, show p ++ t :: r = (p ++ [t]) ++ r by simp]
    apply ih (p ++ [t]) _ (by simpa using hs)
    · intro m hm
      have : m = t := by simpa using hm.symm
      rw [this]; exact hstep
    · intro h; simp at h
    · simpa using hn
    · intro x hx
      exact hfit x (by simpa using hx)

theorem suffix_append_right {a b : List Int} (c : List Int) (h : a <:+ b) : a ++ c <:+ b ++ c := by
  obtain ⟨k, rfl⟩ := h
  exact ⟨k, by simp⟩

/-- The window after feeding timestamps, in any order, is an end piece of the old window followed
by the timestamps fed. -/
theorem feed_suffix : ∀ (ts w : List Int),
    ts.foldl (fun w t => Statistic.drop_old (w ++ [t])) w <:+ w ++ ts
  | [], w => by simp
  | t :: ts, w => by
    have h1 := feed_suffix ts (Statistic.drop_old (w ++ [t]))
    have h2 := (drop_old_spec (w ++ [t]) (by simp)).2.1
    have h3 := suffix_append_right ts h2
    simp only [List.foldl_cons]
    rw [show w ++ t :: ts = (w ++ [t]) ++ ts by simp]
    exact h1.trans h3

/-- After `add_time` the queue is not empty, it is an end piece of the old queue with the
timestamp appended, its back is that timestamp, and back minus front as computed in `time_t` is
below 3600. -/
theorem add_time_spec (q : List Int) (x : Int) :
    Statistic.drop_old (q ++ [x]) ≠ [] ∧ Statistic.drop_old (q ++ [x]) <:+ q ++ [x] ∧
    (Statistic.drop_old (q ++ [x])).getLast? = some x ∧
    ∀ a, (Statistic.drop_old (q ++ [x])).head? = some a → to_time_t (x - a) < 3600 := by
  obtain ⟨h1, h2, h3, _, h5⟩ := drop_old_spec (q ++ [x]) (by simp)
  have hlast : (Statistic.drop_old (q ++ [x])).getLast? = some x := by rw [h3]; simp
  exact ⟨h1, h2, hlast, fun a ha => h5 a x ha hlast⟩

/-- When the differences between the added timestamp and the queued ones fit `time_t`, back minus
front is below 3600 after `add_time`. -/
theorem add_time_exact (q : List Int) (x : Int)
    (hfit : ∀ y ∈ q, LONG_MIN ≤ x - y ∧ x - y ≤ LONG_MAX) :
    ∀ a, (Statistic.drop_old (q ++ [x])).head? = some a → x - a < 3600 := by
  intro a ha
  obtain ⟨_, h2, _, h4⟩ := add_time_spec q x
  have hmem : a ∈ q ++ [x] := h2.subset (List.mem_of_mem_head? ha)
  have hexact : to_time_t (x - a) = x - a := by
    rcases List.mem_append.1 hmem with h | h
    · exact to_time_t_exact _ (hfit a h).1 (hfit a h).2
    · simp only [List.mem_singleton] at h
      rw [h, sub_self]; rfl
  rw [← hexact]
  exact h4 a ha

/-- C16, as stated, fails. With the queue `[100, 0]` and 3600 added, the front 100 is less than
3600 older than 3600, the loop stops at once, and 0, which is exactly 3600 older than the newest
timestamp, stays in the queue. With the queue `[LONG_MIN]` and `LONG_MAX` added, the difference
back minus front does not fit `time_t`, the loop sees a difference below 3600 and keeps both,
although the newest timestamp is 2^64 - 1 above the oldest. -/
theorem C16_window_invariant_counterexample :
    Statistic.add_time [100, 0] 3600 = .ok [100, 0, 3600] ∧
    (0 : Int) ∈ [(100 : Int), 0, 3600] ∧ (3600 : Int) - 0 = 3600 ∧
    Statistic.add_time [LONG_MIN] LONG_MAX = .ok [LONG_MIN, LONG_MAX] ∧
    ¬ (LONG_MAX - LONG_MIN < 3600) := by
  decide

/-- C16, amended: after every `add_time`, for every prior queue and every timestamp, the queue is
not empty, it is an end piece of the prior queue with the timestamp appended, its back is the
timestamp just added, and back minus front as the code computes it in `time_t` is below 3600;
when the differences between the added timestamp and the queued ones fit `time_t`, back minus
front is below 3600 exactly. A front that is exactly 3600 older than the added timestamp is
evicted (so `[0, 10]` with 3600 added becomes `[10, 3600]`). The same holds for the queue after
every `update`. -/
theorem C16_window_invariant (w : List Int) (t : Int)
    (hfit : ∀ x ∈ w, LONG_MIN ≤ t - x ∧ t - x ≤ LONG_MAX) :
    (∃ w2, Statistic.add_time w t = .ok w2 ∧ w2 ≠ [] ∧ w2 <:+ w ++ [t] ∧
      w2.getLast? = some t ∧ ∀ a, w2.head? = some a → t - a < 3600) ∧
    (∀ (q : List Int) (x : Int), ∃ w2, Statistic.add_time q x = .ok w2 ∧ w2 ≠ [] ∧
      w2 <:+ q ++ [x] ∧ w2.getLast? = some x ∧
      ∀ a, w2.head? = some a → to_time_t (x - a) < 3600) ∧
    Statistic.add_time ((t - 3600) :: w) t = Statistic.add_time w t ∧
    Statistic.add_time [0, 10] 3600 = .ok [10, 3600] ∧
    (∀ (s : Statistic) (e : Protocol),
      (∀ x ∈ s.times, LONG_MIN ≤ e.time - x ∧ e.time - x ≤ LONG_MAX) →
      ∃ s2, s.update e = .ok s2 ∧ s2.times ≠ [] ∧ s2.times <:+ s.times ++ [e.time] ∧
        s2.times.getLast? = some e.time ∧ ∀ a, s2.times.head? = some a → e.time - a < 3600) := by
  refine ⟨?_, fun q x => ?_, ?_, by decide, fun s e hs => ?_⟩
  · obtain ⟨h1, h2, h3, _⟩ := add_time_spec w t
    exact ⟨_, add_time_eq w t, h1, h2, h3, add_time_exact w t hfit⟩
  · obtain ⟨h1, h2, h3, h4⟩ := add_time_spec q x
    exact ⟨_, add_time_eq q x, h1, h2, h3, h4⟩
  · have hlast : ((t - 3600) :: (w ++ [t])).getLast (List.cons_ne_nil _ _) = t := by
      simp [List.getLast_cons]
    have hd : t - (t - 3600) = 3600 := by omega
    have hge : to_time_t (t - (t - 3600)) ≥ Statistic.interval_time := by
      rw [hd]; decide
    simp only [Statistic.add_time, List.cons_append]
    rw [Statistic.evict, hlast, if_pos hge]
  · obtain ⟨h1, h2, h3, _⟩ := add_time_spec s.times e.time
    exact ⟨_, update_eq s e, h1, h2, h3, add_time_exact s.times e.time hs⟩

theorem C16_window_invariant_witness :
    ∃ w2, Statistic.add_time [-7200, 0, 10] 3605 = .ok w2 ∧ w2 ≠ [] ∧
      w2 <:+ [-7200, 0, 10] ++ [3605] ∧ w2.getLast? = some 3605 ∧
      ∀ a, w2.head? = some a → 3605 - a < 3600 :=
  (C16_window_invariant [-7200, 0, 10] 3605 (by decide)).1

/-- C17, as stated, fails for timestamps that arrive out of order: after 100, 0, 3600 the window
is `[100, 0, 3600]` and holds 0, which is 3600 older than the newest; after 0, 5000, 100 the
window is `[5000, 100]` and lacks 0, which is only 100 older than the newest. It also fails when
the span of the timestamps does not fit `time_t`: after `LONG_MIN`, `LONG_MAX` the window holds
both. -/
theorem C17_out_of_order_counterexample :
    (Statistic.init.update_all [⟨"a".toList, Level.INFO, 100⟩, ⟨"b".toList, Level.INFO, 0⟩,
        ⟨"c".toList, Level.INFO, 3600⟩]).map (fun s => s.times) = .ok [100, 0, 3600] ∧
    (0 : Int) ∈ [(100 : Int), 0, 3600] ∧ ¬ ((3600 : Int) - 0 < 3600) ∧
    (Statistic.init.update_all [⟨"a".toList, Level.INFO, 0⟩, ⟨"b".toList, Level.INFO, 5000⟩,
        ⟨"c".toList, Level.INFO, 100⟩]).map (fun s => s.times) = .ok [5000, 100] ∧
    (0 : Int) ∉ [(5000 : Int), 100] ∧ (100 : Int) - 0 < 3600 ∧
    (Statistic.init.update_all [⟨"a".toList, Level.INFO, LONG_MIN⟩,
        ⟨"b".toList, Level.INFO, LONG_MAX⟩]).map (fun s => s.times)
      = .ok [LONG_MIN, LONG_MAX] ∧
    ¬ (LONG_MAX - LONG_MIN < 3600) := by
  decide

/-- C17, amended: after every sequence of updates whose timestamps arrive in non-decreasing
order and whose span, newest minus any of them, fits `time_t`, the sliding window holds, in
arrival order, exactly the received timestamps that are less than 3600 below the newest one, and
`count_last_interval_time` is their number. After every sequence of updates, in whatever order
the timestamps arrive, the window is an end piece of the arrival sequence. -/
theorem C17_window_in_order (es : List Protocol) (newest : Int)
    (hsorted : (es.map (fun e => e.time)).Pairwise (· ≤ ·))
    (hnewest : (es.map (fun e => e.time)).getLast? = some newest)
    (hfit : ∀ t ∈ es.map (fun e => e.time), newest - t ≤ LONG_MAX) :
    (∃ s, Statistic.init.update_all es = .ok s ∧
      s.times = (es.map (fun e => e.time)).filter (fun t => decide (newest - t < 3600)) ∧
      (∀ t, t ∈ s.times ↔ (t ∈ es.map (fun e => e.time) ∧ newest - t < 3600)) ∧
      s.get_statistics_data.count_last_interval_time
        = to_int ((es.map (fun e => e.time)).filter
            (fun t => decide (newest - t < 3600))).length) ∧
    (∀ (any : List Protocol), ∃ s, Statistic.init.update_all any = .ok s ∧
      s.times <:+ any.map (fun e => e.time)) := by
  constructor
  · obtain ⟨s, h1, h2⟩ := update_all_times es Statistic.init
    have hfeed := feed_sorted (es.map (fun e => e.time)) [] [] (by simpa using hsorted)
      (fun m hm => by simp at hm) (fun _ => rfl) newest (by simpa using hnewest)
      (by simpa using hfit)
    have htimes : s.times
        = (es.map (fun e => e.time)).filter (fun t => decide (newest - t < 3600)) := by
      rw [h2]; simpa [Statistic.init] using hfeed
    refine ⟨s, h1, htimes, fun t => ?_, ?_⟩
    · rw [htimes, List.mem_filter]; simp
    · simp [Statistic.get_statistics_data, htimes]
  · intro any
    obtain ⟨s, h1, h2⟩ := update_all_times any Statistic.init
    refine ⟨s, h1, ?_⟩
    have := feed_suffix (any.map (fun e => e.time)) []
    rw [h2]
    simpa [Statistic.init] using this

theorem C17_window_in_order_witness :
    ([⟨"a".toList, Level.INFO, 0⟩, ⟨"b".toList, Level.WARN, 10⟩,
        ⟨"c".toList, Level.ERROR, 3600⟩].map (fun (e : Protocol) => e.time)).Pairwise (· ≤ ·) ∧
    ([⟨"a".toList, Level.INFO, 0⟩, ⟨"b".toList, Level.WARN, 10⟩,
        ⟨"c".toList, Level.ERROR, 3600⟩].map (fun (e : Protocol) => e.time)).getLast? = some 3600 ∧
    ∃ s, Statistic.init.update_all [⟨"a".toList, Level.INFO, 0⟩, ⟨"b".toList, Level.WARN, 10⟩,
        ⟨"c".toList, Level.ERROR, 3600⟩] = .ok s ∧ s.times = [10, 3600] ∧
      s.get_statistics_data.count_last_interval_time = 2 :=
  ⟨by decide, by decide,
   (C17_window_in_order [⟨"a".toList, Level.INFO, 0⟩, ⟨"b".toList, Level.WARN, 10⟩,
        ⟨"c".toList, Level.ERROR, 3600⟩] 3600 (by decide) (by decide) (by decide)).1.imp
      (fun _ h => ⟨h.1, h.2.1.trans (by decide), h.2.2.2.trans (by decide)⟩)⟩

/-! ## Counters and length statistics of `Statistic` -/

theorem counts_conv (x : Int) (h0 : 0 ≤ x) (h : x < 2 ^ 31 - 1) :
    to_uint64 x = x.toNat ∧ to_uint64 (x + 1) = x.toNat + 1 ∧ to_int (to_uint64 x) = x ∧
    to_int (to_uint64 (x + 1)) = x + 1 ∧
    to_uint64 (to_int (if to_uint64 (x + 1) = 0 then 1 else to_uint64 (x + 1))) = x.toNat + 1 := by
  unfold to_uint64 to_int
  refine ⟨by omega, by omega, by omega, by omega, ?_⟩
  split <;> omega

/-- One `update` with an entry of level INFO, WARN or ERROR, on counters that are not negative
and leave room for the increment. -/
theorem update_spec (s : Statistic) (e : Protocol)
    (hlevel : e.level = Level.INFO ∨ e.level = Level.WARN ∨ e.level = Level.ERROR)
    (h0 : 0 ≤ s.level_map Level.INFO) (h1 : 0 ≤ s.level_map Level.WARN)
    (h2 : 0 ≤ s.level_map Level.ERROR)
    (hroom : s.level_map Level.INFO + s.level_map Level.WARN + s.level_map Level.ERROR
      < 2 ^ 31 - 1) :
    ∃ s2, s.update e = .ok s2 ∧
      s2.level_map e.level = s.level_map e.level + 1 ∧
      (∀ l, l ≠ e.level → s2.level_map l = s.level_map l) ∧
      0 ≤ s2.level_map Level.INFO ∧ 0 ≤ s2.level_map Level.WARN ∧
      0 ≤ s2.level_map Level.ERROR ∧
      s2.level_map Level.INFO + s2.level_map Level.WARN + s2.level_map Level.ERROR
        = s.level_map Level.INFO + s.level_map Level.WARN + s.level_map Level.ERROR + 1 ∧
      s2.get_count_message = s.get_count_message + 1 ∧
      (s2.get_count_message : Int)
        = s2.level_map Level.INFO + s2.level_map Level.WARN + s2.level_map Level.ERROR ∧
      s2.sum_length = (s.sum_length + e.message.length) % 2 ^ 64 ∧
      s2.max_length = max s.max_length e.message.length ∧
      s2.min_length = min s.min_length e.message.length ∧
      s2.averege_length = s2.sum_length / s2.get_count_message ∧
      s2.times = Statistic.drop_old (s.times ++ [e.time]) := by
  have hsum0 : 0 ≤ s.level_map Level.INFO + s.level_map Level.WARN + s.level_map Level.ERROR := by
    omega
  obtain ⟨c1, c2, _, _, c5⟩ := counts_conv _ hsum0 hroom
  rw [c2] at c5
  have hiw : Level.INFO ≠ Level.WARN := by decide
  have hie : Level.INFO ≠ Level.ERROR := by decide
  have hwe : Level.WARN ≠ Level.ERROR := by decide
  have hnew : (if Level.INFO = e.level then s.level_map Level.INFO + 1 else s.level_map Level.INFO)
      + (if Level.WARN = e.level then s.level_map Level.WARN + 1 else s.level_map Level.WARN)
      + (if Level.ERROR = e.level then s.level_map Level.ERROR + 1 else s.level_map Level.ERROR)
      = s.level_map Level.INFO + s.level_map Level.WARN + s.level_map Level.ERROR + 1 := by
    rcases hlevel with h | h | h <;> rw [h] <;>
      simp [hiw, hie, hwe, hiw.symm, hie.symm, hwe.symm] <;> omega
  refine ⟨_, update_eq s e, ?_, ?_, ?_, ?_, ?_, ?_, ?_, ?_, ?_, ?_, ?_, ?_, ?_⟩
  · simp [Statistic.update_length_message]
  · intro l hl; simp [Statistic.update_length_message, hl]
  · simp only [Statistic.update_length_message]; split <;> omega
  · simp only [Statistic.update_length_message]; split <;> omega
  · simp only [Statistic.update_length_message]; split <;> omega
  · simpa [Statistic.update_length_message] using hnew
  · simp only [Statistic.get_count_message, Statistic.update_length_message, hnew, c1, c2]
  · simp only [Statistic.get_count_message, Statistic.update_length_message, hnew, c2]
    omega
  · simp [Statistic.update_length_message]
  · simp [Statistic.update_length_message]
  · simp [Statistic.update_length_message]
  · simp only [Statistic.get_count_message, Statistic.update_length_message, hnew, c2, c5]
  · simp [Statistic.update_length_message]

theorem update_all_spec : ∀ (es : List Protocol) (s : Statistic),
    (∀ e ∈ es, e.level = Level.INFO ∨ e.level = Level.WARN ∨ e.level = Level.ERROR) →
    0 ≤ s.level_map Level.INFO → 0 ≤ s.level_map Level.WARN → 0 ≤ s.level_map Level.ERROR →
    s.level_map Level.INFO + s.level_map Level.WARN + s.level_map Level.ERROR + es.length
      ≤ 2 ^ 31 - 1 →
    s.sum_length + (es.map (fun e => e.message.length)).sum < 2 ^ 64 →
    ∃ s2, s.update_all es = .ok s2 ∧
      s2.level_map Level.INFO + s2.level_map Level.WARN + s2.level_map Level.ERROR
        = s.level_map Level.INFO + s.level_map Level.WARN + s.level_map Level.ERROR + es.length ∧
      (s2.get_count_message : Int)
        = s.level_map Level.INFO + s.level_map Level.WARN + s.level_map Level.ERROR + es.length ∧
      s2.sum_length = s.sum_length + (es.map (fun e => e.message.length)).sum ∧
      s2.max_length = (es.map (fun e => e.message.length)).foldl max s.max_length ∧
      s2.min_length = (es.map (fun e => e.message.length)).foldl min s.min_length ∧
      (es ≠ [] → s2.averege_length = s2.sum_length / s2.get_count_message) ∧
      (es = [] → s2.averege_length = s.averege_length) := by
  intro es
  induction es with
  | nil =>
    intro s _ h0 h1 h2 hroom _
    have hsum0 : 0 ≤ s.level_map Level.INFO + s.level_map Level.WARN + s.level_map Level.ERROR := by
      omega
    refine ⟨s, rfl, by simp, ?_, by simp, rfl, rfl, fun h => absurd rfl h, fun _ => rfl⟩
    simp only [List.length_nil, Nat.cast_zero, add_zero] at hroom ⊢
    simp only [Statistic.get_count_message, to_uint64]
    omega
  | cons e rest ih =>
    intro s hlevel h0 h1 h2 hroom hsum
    simp only [List.length_cons, Nat.cast_add, Nat.cast_one, List.map_cons, List.sum_cons]
      at hroom hsum
    obtain ⟨s1, u0, _, _, u3, u4, u5, u6, u7, u8, u9, u10, u11, u12, _⟩ :=
      update_spec s e (hlevel e (by simp)) h0 h1 h2 (by omega)
    have hs1 : s1.sum_length = s.sum_length + e.message.length := by
      rw [u9]; exact Nat.mod_eq_of_lt (by omega)
    obtain ⟨s2, v0, v1, v2, v3, v4, v5, v6, v7⟩ := ih s1
      (fun x hx => hlevel x (List.mem_cons_of_mem _ hx)) u3 u4 u5 (by omega) (by omega)
    refine ⟨s2, ?_, ?_, ?_, ?_, ?_, ?_, ?_, ?_⟩
    · simp only [Statistic.update_all, u0]; exact v0
    · rw [v1, u6]; simp only [List.length_cons, Nat.cast_add, Nat.cast_one]; omega
    · rw [v2, u6]; simp only [List.length_cons, Nat.cast_add, Nat.cast_one]; omega
    · rw [v3, hs1]; simp only [List.map_cons, List.sum_cons]; omega
    · rw [v4, u10]; rfl
    · rw [v5, u11]; rfl
    · intro _
      by_cases hr : rest = []
      · have hv := v7 hr
        subst hr
        simp only [Statistic.update_all] at v0
        cases v0
        exact u12
      · exact v6 hr
    · intro h; cases h

theorem foldl_max_zero (l : List Nat) : l.foldl max 0 = l.max?.getD 0 := by
  cases l with
  | nil => rfl
  | cons a r => simp [List.max?]

theorem foldl_min_bound (l : List Nat) (m : Nat) (h : ∀ x ∈ l, x ≤ m) :
    l.foldl min m = l.min?.getD m := by
  cases l with
  | nil => rfl
  | cons a r =>
    have : min m a = a := Nat.min_eq_right (h a (by simp))
    simp [List.min?, this]

theorem le_sum_of_mem_nat : ∀ (l : List Nat) (x : Nat), x ∈ l → x ≤ l.sum
  | [], _, h => by simp at h
  | a :: r, x, h => by
    rcases List.mem_cons.1 h with h | h
    · rw [h, List.sum_cons]; omega
    · have := le_sum_of_mem_nat r x h
      rw [List.sum_cons]; omega

/-- C18: after n ≥ 0 updates of a fresh aggregator with entries of level INFO, WARN or ERROR
(n below 2^31 and the sum of the message lengths below 2^64, the ranges of the `int` counters
and of the `uint64_t` sum), the snapshot has `sum_length` = the sum of the lengths,
`max_length` = the largest length (0 when n = 0), `min_length` = the smallest length (the
sentinel 2^64 - 1 when n = 0) and `averege_length` = `sum_length / max n 1`, rounded down. -/
theorem C18_length_statistics (es : List Protocol)
    (hlevel : ∀ e ∈ es, e.level = Level.INFO ∨ e.level = Level.WARN ∨ e.level = Level.ERROR)
    (hn : es.length < 2 ^ 31)
    (hsum : (es.map (fun e => e.message.length)).sum < 2 ^ 64) :
    ∃ s, Statistic.init.update_all es = .ok s ∧
      s.get_statistics_data.sum_length = (es.map (fun e => e.message.length)).sum ∧
      s.get_statistics_data.max_length = ((es.map (fun e => e.message.length)).max?).getD 0 ∧
      s.get_statistics_data.min_length
        = ((es.map (fun e => e.message.length)).min?).getD (2 ^ 64 - 1) ∧
      s.get_statistics_data.averege_length
        = (es.map (fun e => e.message.length)).sum / max es.length 1 := by
  obtain ⟨s, v0, _, v2, v3, v4, v5, v6, v7⟩ := update_all_spec es Statistic.init hlevel
    (by simp [Statistic.init]) (by simp [Statistic.init]) (by simp [Statistic.init])
    (by simp only [Statistic.init]; omega) (by simpa [Statistic.init] using hsum)
  simp only [Statistic.init, zero_add, add_zero] at v2 v3 v4 v5 v7
  have hcount : s.get_count_message = es.length := by exact_mod_cast v2
  refine ⟨s, v0, by simpa [Statistic.get_statistics_data] using v3, ?_, ?_, ?_⟩
  · simp only [Statistic.get_statistics_data]; rw [v4, foldl_max_zero]
  · simp only [Statistic.get_statistics_data]
    rw [v5, UINT64_MAX, foldl_min_bound]
    intro x hx
    have := le_sum_of_mem_nat _ x hx
    omega
  · simp only [Statistic.get_statistics_data]
    by_cases hes : es = []
    · rw [v7 hes, hes]; rfl
    · rw [v6 hes, v3, hcount]
      have hpos : 0 < es.length := List.length_pos.2 hes
      rw [Nat.max_eq_left hpos]

theorem C18_length_statistics_witness :
    (∀ e ∈ [(⟨"12345".toList, Level.INFO, 1⟩ : Protocol), ⟨"123".toList, Level.ERROR, 2⟩,
        ⟨"123456789".toList, Level.WARN, 3⟩],
      e.level = Level.INFO ∨ e.level = Level.WARN ∨ e.level = Level.ERROR) ∧
    ∃ s, Statistic.init.update_all [⟨"12345".toList, Level.INFO, 1⟩,
        ⟨"123".toList, Level.ERROR, 2⟩, ⟨"123456789".toList, Level.WARN, 3⟩] = .ok s ∧
      s.get_statistics_data.sum_length = 17 ∧ s.get_statistics_data.max_length = 9 ∧
      s.get_statistics_data.min_length = 3 ∧ s.get_statistics_data.averege_length = 5 :=
  ⟨by decide,
   (C18_length_statistics [⟨"12345".toList, Level.INFO, 1⟩, ⟨"123".toList, Level.ERROR, 2⟩,
        ⟨"123456789".toList, Level.WARN, 3⟩] (by decide) (by decide) (by decide)).imp
      (fun _ h => ⟨h.1, h.2.1.trans (by decide), h.2.2.1.trans (by decide),
        h.2.2.2.1.trans (by decide), h.2.2.2.2.trans (by decide)⟩)⟩

/-- C19: for every aggregator state (counters not negative, their sum below the largest `int`)
and every entry whose level is INFO, WARN or ERROR, `update` raises the counter of that level by
exactly one and leaves every other counter unchanged; `get_count_message`, and with it
`all_count` of the snapshot, equals the sum of the three counters before and after the update,
so it grows by exactly one. -/
theorem C19_update_counters (s : Statistic) (e : Protocol)
    (hlevel : e.level = Level.INFO ∨ e.level = Level.WARN ∨ e.level = Level.ERROR)
    (h0 : 0 ≤ s.level_map Level.INFO) (h1 : 0 ≤ s.level_map Level.WARN)
    (h2 : 0 ≤ s.level_map Level.ERROR)
    (hroom : s.level_map Level.INFO + s.level_map Level.WARN + s.level_map Level.ERROR
      < 2 ^ 31 - 1) :
    ∃ s2, s.update e = .ok s2 ∧
      s2.level_map e.level = s.level_map e.level + 1 ∧
      (∀ l, l ≠ e.level → s2.level_map l = s.level_map l) ∧
      (s.get_count_message : Int)
        = s.level_map Level.INFO + s.level_map Level.WARN + s.level_map Level.ERROR ∧
      (s2.get_count_message : Int)
        = s2.level_map Level.INFO + s2.level_map Level.WARN + s2.level_map Level.ERROR ∧
      s2.get_count_message = s.get_count_message + 1 ∧
      s.get_statistics_data.all_count
        = s.get_statistics_data.Level_INFO_count + s.get_statistics_data.Level_WARN_count
          + s.get_statistics_data.Level_ERROR_count ∧
      s2.get_statistics_data.all_count
        = s2.get_statistics_data.Level_INFO_count + s2.get_statistics_data.Level_WARN_count
          + s2.get_statistics_data.Level_ERROR_count ∧
      s2.get_statistics_data.all_count = s.get_statistics_data.all_count + 1 := by
  obtain ⟨s2, u0, u1, u2, _, _, _, u6, u7, u8, _⟩ := update_spec s e hlevel h0 h1 h2 hroom
  have hsum0 : 0 ≤ s.level_map Level.INFO + s.level_map Level.WARN + s.level_map Level.ERROR := by
    omega
  obtain ⟨c1, c2, c3, c4, _⟩ := counts_conv _ hsum0 hroom
  have hs : (s.get_count_message : Int)
      = s.level_map Level.INFO + s.level_map Level.WARN + s.level_map Level.ERROR := by
    rw [Statistic.get_count_message, c1]; exact Int.toNat_of_nonneg hsum0
  have ha : s.get_statistics_data.all_count
      = s.level_map Level.INFO + s.level_map Level.WARN + s.level_map Level.ERROR := by
    simp only [Statistic.get_statistics_data, Statistic.get_count_message]; exact c3
  have ha2 : s2.get_statistics_data.all_count
      = s2.level_map Level.INFO + s2.level_map Level.WARN + s2.level_map Level.ERROR := by
    simp only [Statistic.get_statistics_data, Statistic.get_count_message]
    rw [u6]; exact c4
  refine ⟨s2, u0, u1, u2, hs, u8, u7, ha, ha2, ?_⟩
  rw [ha2, ha, u6]

theorem C19_update_counters_witness :
    (0 : Int) ≤ Statistic.init.level_map Level.INFO ∧
    Statistic.init.level_map Level.INFO + Statistic.init.level_map Level.WARN
      + Statistic.init.level_map Level.ERROR < 2 ^ 31 - 1 ∧
    ∃ s2, Statistic.init.update ⟨"abc".toList, Level.WARN, 5⟩ = .ok s2 ∧
      s2.level_map Level.WARN = 1 ∧ s2.level_map Level.INFO = 0 ∧ s2.level_map Level.ERROR = 0 ∧
      s2.get_count_message = 1 :=
  ⟨by decide, by decide,
   (C19_update_counters Statistic.init ⟨"abc".toList, Level.WARN, 5⟩ (Or.inr (Or.inl rfl))
      (by decide) (by decide) (by decide) (by decide)).imp
      (fun _ h => ⟨h.1, h.2.1.trans (by decide), (h.2.2.1 Level.INFO (by decide)).trans (by decide),
        (h.2.2.1 Level.ERROR (by decide)).trans (by decide), h.2.2.2.2.2.1.trans (by decide)⟩)⟩

/-! ## The count-based flush of `statistic_app_run` -/

theorem serialization_level_valid (l : Level)
    (h : l = Level.INFO ∨ l = Level.WARN ∨ l = Level.ERROR) :
    ∃ name, serialization_level l = some name := by
  rcases h with h | h | h <;> (rw [h]; exact ⟨_, rfl⟩)

/-- C20: the frame "msg 7 100" decodes successfully, yet the round that receives it ends in
`std::bad_optional_access`, thrown by `print_log_entry` before the aggregator is updated. For
every message interval k ≥ 1 and every server state (counters not negative, their sum below the
largest `int`), when a received frame decodes to an entry of level INFO, WARN or ERROR (whose
time `std::localtime` converts), the round prints the entry, updates the aggregator, and prints
a snapshot if and only if the new total count is a multiple of k; then
`previous_count_message` becomes the total count, otherwise it keeps its value. The connection
stays open. With k = 2 the snapshot is printed in the round of the 2nd decoded entry, and a
timeout right after it prints nothing. -/
theorem C20_count_based_flush (localtime : Int → Option Tm) (k : Nat) (sv : Server)
    (payload : List Char) (e : Protocol) (tm : Tm)
    (hk : 1 ≤ k) (hkmax : (k : Int) ≤ INT_MAX)
    (hdec : deserialization_log payload = .ok (some e))
    (hlevel : e.level = Level.INFO ∨ e.level = Level.WARN ∨ e.level = Level.ERROR)
    (hlocal : localtime e.time = some tm)
    (h0 : 0 ≤ sv.stats.level_map Level.INFO) (h1 : 0 ≤ sv.stats.level_map Level.WARN)
    (h2 : 0 ≤ sv.stats.level_map Level.ERROR)
    (hroom : sv.stats.level_map Level.INFO + sv.stats.level_map Level.WARN
      + sv.stats.level_map Level.ERROR < 2 ^ 31 - 1) :
    (∃ stats line, sv.stats.update e = .ok stats ∧ print_log_entry localtime e = .ok line ∧
      stats.get_count_message = sv.stats.get_count_message + 1 ∧
      (stats.get_count_message % k = 0 →
        statistic_app_step localtime k sv (Poll.ready (.ok payload))
          = .ok ⟨⟨stats, stats.get_count_message⟩,
              [Output.log_entry line, Output.statistic stats.statistic_display], true⟩) ∧
      (stats.get_count_message % k ≠ 0 →
        statistic_app_step localtime k sv (Poll.ready (.ok payload))
          = .ok ⟨⟨stats, sv.previous_count_message⟩, [Output.log_entry line], true⟩)) ∧
    (statistic_app_steps (fun _ => some ⟨45, 30, 15, 10, 7, 125⟩) 2 ⟨Statistic.init, 0⟩
        [Poll.ready (.ok "a 0 1".toList), Poll.ready (.ok "b 1 2".toList), Poll.timeout]).map
        (fun r => (r.2.map List.length, r.1.previous_count_message))
      = .ok ([1, 2, 0], 2) ∧
    deserialization_log "msg 7 100".toList = .ok (some ⟨"msg".toList, ⟨7⟩, 100⟩) ∧
    (statistic_app_step (fun _ => some ⟨45, 30, 15, 10, 7, 125⟩) 2 ⟨Statistic.init, 0⟩
        (Poll.ready (.ok "msg 7 100".toList))).map
        (fun r => r.output) = .error Fault.bad_optional_access := by
  refine ⟨?_, by decide, by decide, by decide⟩
  obtain ⟨stats, u0, _, _, _, _, _, u6, u7, u8, _⟩ :=
    update_spec sv.stats e hlevel h0 h1 h2 hroom
  obtain ⟨name, hname⟩ := serialization_level_valid e.level hlevel
  have hline : print_log_entry localtime e
      = .ok (e.message ++ [' '] ++ name ++ [' '] ++ put_time tm) := by
    simp only [print_log_entry, hlocal, hname]
  have hsum0 : 0 ≤ sv.stats.level_map Level.INFO + sv.stats.level_map Level.WARN
      + sv.stats.level_map Level.ERROR := by omega
  obtain ⟨_, _, _, c4, _⟩ := counts_conv _ hsum0 hroom
  have hprev : to_int stats.get_count_message = (stats.get_count_message : Int) := by
    rw [u8, u6]
    simp only [Statistic.get_count_message, u6]
    exact c4
  have hku : to_uint64 (k : Int) = k := by
    simp only [INT_MAX] at hkmax
    unfold to_uint64
    omega
  refine ⟨stats, _, u0, hline, u7, fun hmod => ?_, fun hmod => ?_⟩
  · simp only [statistic_app_step, hdec, hline, u0, hku, hmod, if_true, hprev]
  · simp only [statistic_app_step, hdec, hline, u0, hku, hmod, if_false]

theorem C20_count_based_flush_witness :
    (1 : Nat) ≤ 2 ∧ ((2 : Nat) : Int) ≤ INT_MAX ∧
    deserialization_log "b 1 2".toList = .ok (some ⟨"b".toList, Level.WARN, 2⟩) ∧
    ∃ stats line, Statistic.update
        ⟨fun l => if l = Level.INFO then 1 else 0, 1, 1, 1, 1, [1]⟩ ⟨"b".toList, Level.WARN, 2⟩
          = .ok stats ∧
      print_log_entry (fun _ => some ⟨45, 30, 15, 10, 7, 125⟩) ⟨"b".toList, Level.WARN, 2⟩
        = .ok line ∧
      stats.get_count_message = 2 ∧
      statistic_app_step (fun _ => some ⟨45, 30, 15, 10, 7, 125⟩) 2
          ⟨⟨fun l => if l = Level.INFO then 1 else 0, 1, 1, 1, 1, [1]⟩, 0⟩
          (Poll.ready (.ok "b 1 2".toList))
        = .ok ⟨⟨stats, stats.get_count_message⟩,
            [Output.log_entry line, Output.statistic stats.statistic_display], true⟩ :=
  ⟨by decide, by decide, by decide,
   (C20_count_based_flush (fun _ => some ⟨45, 30, 15, 10, 7, 125⟩) 2
      ⟨⟨fun l => if l = Level.INFO then 1 else 0, 1, 1, 1, 1, [1]⟩, 0⟩ "b 1 2".toList
      ⟨"b".toList, Level.WARN, 2⟩ ⟨45, 30, 15, 10, 7, 125⟩ (by decide) (by decide) (by decide)
      (Or.inr (Or.inl rfl)) rfl (by decide) (by decide) (by decide) (by decide)).1.imp
      (fun _ h => h.imp (fun _ g => ⟨g.1, g.2.1, g.2.2.1.trans (by decide),
        g.2.2.2.1 (by rw [g.2.2.1.trans (show _ = 2 by decide)])⟩))⟩

/-! ## The poll timeout, dropped frames and the return to `accept` -/

/-- A count that fits `int` survives the conversions between `int` and `uint64_t`. -/
theorem int_count_conv (x : Int) (h0 : 0 ≤ x) (h1 : x ≤ INT_MAX) :
    to_uint64 x = x.toNat ∧ to_int x.toNat = x := by
  simp only [INT_MAX] at h1
  unfold to_uint64 to_int
  constructor <;> omega

/-- The round of a poll timeout, in terms of the two counts. -/
theorem timeout_step (localtime : Int → Option Tm) (k : Int) (sv : Server)
    (hprev0 : 0 ≤ sv.previous_count_message) (hprev1 : sv.previous_count_message ≤ INT_MAX)
    (hcount : (sv.stats.get_count_message : Int) ≤ INT_MAX) :
    statistic_app_step localtime k sv Poll.timeout
      = if sv.previous_count_message < (sv.stats.get_count_message : Int) then
          .ok ⟨⟨sv.stats, (sv.stats.get_count_message : Int)⟩,
            [Output.statistic sv.stats.statistic_display], true⟩
        else .ok ⟨sv, [], true⟩ := by
  obtain ⟨c1, _⟩ := int_count_conv _ hprev0 hprev1
  obtain ⟨_, c2⟩ := int_count_conv _ (Int.ofNat_nonneg sv.stats.get_count_message) hcount
  rw [Int.toNat_ofNat] at c2
  have hiff : (sv.stats.get_count_message > to_uint64 sv.previous_count_message)
      ↔ sv.previous_count_message < (sv.stats.get_count_message : Int) := by
    rw [c1]; omega
  simp only [statistic_app_step, hiff, c2]

/-- C21: for every server state whose two counts fit `int`, the round of a poll timeout prints a
snapshot if and only if the total count is greater than `previous_count_message`, which then
becomes the total count; otherwise it prints nothing and changes nothing. In both cases the
aggregator is untouched and the connection stays open. Of two timeouts in a row the second prints
nothing. -/
theorem C21_time_based_flush (localtime : Int → Option Tm) (k : Int) (sv : Server)
    (hprev0 : 0 ≤ sv.previous_count_message) (hprev1 : sv.previous_count_message ≤ INT_MAX)
    (hcount : (sv.stats.get_count_message : Int) ≤ INT_MAX) :
    (sv.previous_count_message < (sv.stats.get_count_message : Int) →
      statistic_app_step localtime k sv Poll.timeout
        = .ok ⟨⟨sv.stats, (sv.stats.get_count_message : Int)⟩,
            [Output.statistic sv.stats.statistic_display], true⟩) ∧
    (¬ sv.previous_count_message < (sv.stats.get_count_message : Int) →
      statistic_app_step localtime k sv Poll.timeout = .ok ⟨sv, [], true⟩) ∧
    (∃ step, statistic_app_step localtime k sv Poll.timeout = .ok step ∧
      step.connected = true ∧ step.server.stats = sv.stats ∧
      (step.output ≠ [] ↔ sv.previous_count_message < (sv.stats.get_count_message : Int)) ∧
      statistic_app_step localtime k step.server Poll.timeout = .ok ⟨step.server, [], true⟩ ∧
      statistic_app_steps localtime k sv [Poll.timeout, Poll.timeout]
        = .ok (step.server, [step.output, []])) := by
  have h := timeout_step localtime k sv hprev0 hprev1 hcount
  by_cases hlt : sv.previous_count_message < (sv.stats.get_count_message : Int)
  · rw [if_pos hlt] at h
    have h2 := timeout_step localtime k ⟨sv.stats, (sv.stats.get_count_message : Int)⟩
      (Int.ofNat_nonneg _) hcount hcount
    rw [if_neg (lt_irrefl _)] at h2
    refine ⟨fun _ => h, fun hn => absurd hlt hn, _, h, rfl, rfl, ?_, h2, ?_⟩
    · simp [hlt]
    · simp only [statistic_app_steps, h, h2, if_true]
  · rw [if_neg hlt] at h
    refine ⟨fun hp => absurd hp hlt, fun _ => h, _, h, rfl, rfl, ?_, h, ?_⟩
    · simp [hlt]
    · simp only [statistic_app_steps, h, if_true]

theorem C21_time_based_flush_witness :
    statistic_app_step (fun _ => none) 5
        ⟨⟨fun l => if l = Level.INFO then 3 else 0, 9, 3, 4, 2, [1, 2, 3]⟩, 0⟩ Poll.timeout
      = .ok ⟨⟨⟨fun l => if l = Level.INFO then 3 else 0, 9, 3, 4, 2, [1, 2, 3]⟩, 3⟩,
          [Output.statistic (Statistic.statistic_display
            ⟨fun l => if l = Level.INFO then 3 else 0, 9, 3, 4, 2, [1, 2, 3]⟩)], true⟩ :=
  (C21_time_based_flush (fun _ => none) 5
    ⟨⟨fun l => if l = Level.INFO then 3 else 0, 9, 3, 4, 2, [1, 2, 3]⟩, 0⟩
    (by decide) (by decide) (by decide)).1 (by decide)

/-- C22: for every frame payload on which `deserialization_log` returns nothing, the round that
receives the frame leaves the aggregator and `previous_count_message` as they were, prints
nothing, and stays on the connection. -/
theorem C22_undecodable_frame_dropped (localtime : Int → Option Tm) (k : Int) (sv : Server)
    (payload : List Char) (hdec : deserialization_log payload = .ok none) :
    statistic_app_step localtime k sv (Poll.ready (.ok payload)) = .ok ⟨sv, [], true⟩ ∧
    ∀ (out : List Output),
      statistic_app_run_step localtime k ⟨Mode.serving, sv, out⟩
          (Syscall.poll (Poll.ready (.ok payload)))
        = .ok ⟨Mode.serving, sv, out⟩ := by
  have h : statistic_app_step localtime k sv (Poll.ready (.ok payload)) = .ok ⟨sv, [], true⟩ := by
    simp only [statistic_app_step, hdec]
  refine ⟨h, fun out => ?_⟩
  simp only [statistic_app_run_step, h, if_true, List.append_nil]

theorem C22_undecodable_frame_dropped_witness :
    deserialization_log "hello".toList = .ok none ∧
    statistic_app_step (fun _ => none) 5 ⟨Statistic.init, 0⟩ (Poll.ready (.ok "hello".toList))
      = .ok ⟨⟨Statistic.init, 0⟩, [], true⟩ :=
  ⟨by decide, (C22_undecodable_frame_dropped (fun _ => none) 5 ⟨Statistic.init, 0⟩
    "hello".toList (by decide)).1⟩

/-- C23: for every server state, when `socket_read` reports an error the round writes the text
of the error, leaves the inner loop and goes back to `accept` without returning; the aggregator
and `previous_count_message` are the same when the next connection is accepted. An interrupted
`accept` keeps the state as well, and a header read of 0 bytes (the peer closed the connection)
is such an error of `socket_read`. -/
theorem C23_read_error_returns_to_accept (localtime : Int → Option Tm) (k : Int) (sv : Server)
    (out : List Output) (err : Logger.Error) :
    statistic_app_step localtime k sv (Poll.ready (.error err))
      = .ok ⟨sv, [Output.error_message err.error_message], false⟩ ∧
    statistic_app_run_step localtime k ⟨Mode.serving, sv, out⟩
        (Syscall.poll (Poll.ready (.error err)))
      = .ok ⟨Mode.accepting, sv, out ++ [Output.error_message err.error_message]⟩ ∧
    statistic_app_run_step localtime k
        ⟨Mode.accepting, sv, out ++ [Output.error_message err.error_message]⟩
        (Syscall.accept Accept.interrupted)
      = .ok ⟨Mode.accepting, sv, out ++ [Output.error_message err.error_message]⟩ ∧
    statistic_app_run_step localtime k
        ⟨Mode.accepting, sv, out ++ [Output.error_message err.error_message]⟩
        (Syscall.accept Accept.connection)
      = .ok ⟨Mode.serving, sv, out ++ [Output.error_message err.error_message]⟩ ∧
    ∀ (alloc_ok : Bool) (payload : Socket.Recv_result) (strerror : List Char),
      Socket.socket_read ⟨0, []⟩ alloc_ok payload strerror
        = .error ⟨Error_code.ERROR, "closed the connection".toList⟩ := by
  refine ⟨rfl, rfl, rfl, rfl, fun _ _ _ => rfl⟩

/-! ## The length-prefixed frames of `Socket` -/

set_option maxRecDepth 100000 in
theorem char_ofNat_toNat : ∀ b, b < 256 → (Char.ofNat b).toNat = b := by
  decide

theorem ntohl_bytes_four (a b c d : Char) :
    Socket.ntohl_bytes [a, b, c, d]
      = 256 * (256 * (256 * (a.toNat % 256) + b.toNat % 256) + c.toNat % 256) + d.toNat % 256 := by
  simp [Socket.ntohl_bytes]

theorem ntohl_bytes_lt (l : List Char) (h : l.length = 4) : Socket.ntohl_bytes l < 2 ^ 32 := by
  match l, h with
  | [a, b, c, d], _ =>
    rw [ntohl_bytes_four]
    omega

/-- The prefix written by `htonl` is read back by `ntohl`. -/
theorem ntohl_htonl (n : Nat) (h : n < 2 ^ 32) :
    Socket.ntohl_bytes (Socket.htonl_bytes n) = n := by
  have e1 := char_ofNat_toNat (n / 2 ^ 24 % 256) (Nat.mod_lt _ (by decide))
  have e2 := char_ofNat_toNat (n / 2 ^ 16 % 256) (Nat.mod_lt _ (by decide))
  have e3 := char_ofNat_toNat (n / 2 ^ 8 % 256) (Nat.mod_lt _ (by decide))
  have e4 := char_ofNat_toNat (n % 256) (Nat.mod_lt _ (by decide))
  rw [Socket.htonl_bytes, ntohl_bytes_four, e1, e2, e3, e4]
  omega

/-- A count between -1 and `2 ^ 32 - 1` stored in `int` and compared with a `uint32_t` is that
count modulo `2 ^ 32`. -/
theorem to_uint32_int_of_ssize (c : Int) :
    (Socket.to_uint32 (Socket.int_of_ssize c) : Int) = c % 2 ^ 32 := by
  unfold Socket.to_uint32 Socket.int_of_ssize
  omega

/-- What `socket_read` returns once the header read reports a positive count and the buffer is
allocated. -/
theorem socket_read_payload (header payload : Socket.Recv_result) (strerror : List Char)
    (h : 0 < Socket.int_of_ssize header.count) :
    Socket.socket_read header true payload strerror
      = if Socket.to_uint32 (Socket.int_of_ssize payload.count)
            ≠ Socket.ntohl_bytes ((header.data ++ List.replicate 4 (Char.ofNat 0)).take 4) then
          .error ⟨Error_code.ERROR, "not all data received".toList⟩
        else .ok ((payload.data ++ List.replicate
            (Socket.ntohl_bytes ((header.data ++ List.replicate 4 (Char.ofNat 0)).take 4))
            (Char.ofNat 0)).take
            (Socket.ntohl_bytes ((header.data ++ List.replicate 4 (Char.ofNat 0)).take 4))) := by
  have h0 : ¬ Socket.int_of_ssize header.count ≤ 0 := by omega
  simp only [Socket.socket_read, h0, if_false, if_true]

/-- C24: the header FF FF FF FF announces N = 2^32 - 1; when the buffer is allocated and the
payload read fails with -1, `socket_read` returns the zero-filled buffer as a successful
payload, because `receive != message_length` converts the `int` -1 to the `uint32_t` 2^32 - 1.
For every other combination of an announced length N and a payload read that reports fewer
than N bytes (a count from 0 to N - 1, or -1 with N other than 2^32 - 1) the result is the
error "not all data received". -/
theorem C24_payload_short_read (header payload : Socket.Recv_result) (strerror : List Char)
    (hcount : header.count = 4) (hlen : header.data.length = 4)
    (hlow : -1 ≤ payload.count)
    (hshort : payload.count < (Socket.ntohl_bytes header.data : Int))
    (hnot : ¬ (payload.count = -1 ∧ Socket.ntohl_bytes header.data = 2 ^ 32 - 1)) :
    Socket.socket_read header true payload strerror
      = .error ⟨Error_code.ERROR, "not all data received".toList⟩ ∧
    Socket.socket_read
        ⟨4, [Char.ofNat 255, Char.ofNat 255, Char.ofNat 255, Char.ofNat 255]⟩ true ⟨-1, []⟩
        strerror
      = .ok (List.replicate 4294967295 (Char.ofNat 0)) := by
  constructor
  · have h4 : 0 < Socket.int_of_ssize header.count := by rw [hcount]; decide
    have htake : (header.data ++ List.replicate 4 (Char.ofNat 0)).take 4 = header.data := by
      rw [← hlen]; exact List.take_left' rfl
    have hN := ntohl_bytes_lt header.data hlen
    have hconv := to_uint32_int_of_ssize payload.count
    have hne : Socket.to_uint32 (Socket.int_of_ssize payload.count)
        ≠ Socket.ntohl_bytes header.data := by
      intro heq
      rw [heq] at hconv
      have hnot2 : ¬ (payload.count = -1 ∧ (Socket.ntohl_bytes header.data : Int) = 2 ^ 32 - 1) := by
        rintro ⟨ha, hb⟩
        exact hnot ⟨ha, by omega⟩
      omega
    rw [socket_read_payload header payload strerror h4, htake, if_pos hne]
  · have h4 : 0 < Socket.int_of_ssize (Socket.Recv_result.mk 4
        [Char.ofNat 255, Char.ofNat 255, Char.ofNat 255, Char.ofNat 255]).count := by decide
    have hN : Socket.ntohl_bytes
        (((Socket.Recv_result.mk 4
          [Char.ofNat 255, Char.ofNat 255, Char.ofNat 255, Char.ofNat 255]).data
          ++ List.replicate 4 (Char.ofNat 0)).take 4) = 4294967295 := by decide
    have hc : Socket.to_uint32 (Socket.int_of_ssize (Socket.Recv_result.mk (-1) []).count)
        = 4294967295 := by decide
    rw [socket_read_payload _ _ strerror h4, hN, hc, if_neg (fun h => h rfl)]
    show Except.ok (([] ++ List.replicate 4294967295 (Char.ofNat 0)).take 4294967295) = _
    rw [List.nil_append, List.take_replicate, Nat.min_self]

theorem C24_payload_short_read_witness :
    Socket.socket_read ⟨4, [Char.ofNat 0, Char.ofNat 0, Char.ofNat 0, Char.ofNat 5]⟩ true
        ⟨3, "abc".toList⟩ "Connection reset by peer".toList
      = .error ⟨Error_code.ERROR, "not all data received".toList⟩ :=
  (C24_payload_short_read ⟨4, [Char.ofNat 0, Char.ofNat 0, Char.ofNat 0, Char.ofNat 5]⟩
    ⟨3, "abc".toList⟩ "Connection reset by peer".toList rfl rfl (by decide) (by decide)
    (by decide)).1

/-- C25: a header read of 0 bytes gives the error "closed the connection" and a failed header
read (-1) gives the error text of `errno`, but a header read of 1, 2 or 3 bytes is not an error:
the bytes received, completed with the zero bytes `message_length` was initialised with, are
taken as the length, and a payload read of that many bytes is returned as a successful payload.
A header read of the single byte 00 followed by a payload read of 0 bytes returns the empty
payload. -/
theorem C25_partial_header (header payload : Socket.Recv_result) (strerror : List Char)
    (h1 : 1 ≤ header.count) (h3 : header.count ≤ 3)
    (hp : payload.count
      = (Socket.ntohl_bytes ((header.data ++ List.replicate 4 (Char.ofNat 0)).take 4) : Int))
    (hlen : payload.data.length
      = Socket.ntohl_bytes ((header.data ++ List.replicate 4 (Char.ofNat 0)).take 4)) :
    Socket.socket_read header true payload strerror = .ok payload.data ∧
    Socket.socket_read ⟨1, [Char.ofNat 0]⟩ true ⟨0, []⟩ strerror = .ok [] ∧
    (∀ (alloc_ok : Bool) (p : Socket.Recv_result),
      Socket.socket_read ⟨0, []⟩ alloc_ok p strerror
        = .error ⟨Error_code.ERROR, "closed the connection".toList⟩) ∧
    (∀ (alloc_ok : Bool) (p : Socket.Recv_result),
      Socket.socket_read ⟨-1, []⟩ alloc_ok p strerror = .error ⟨Error_code.ERROR, strerror⟩) := by
  refine ⟨?_, rfl, fun _ _ => rfl, fun _ _ => rfl⟩
  have h4 : 0 < Socket.int_of_ssize header.count := by
    unfold Socket.int_of_ssize; omega
  have hN := ntohl_bytes_lt ((header.data ++ List.replicate 4 (Char.ofNat 0)).take 4)
    (by simp)
  have hconv := to_uint32_int_of_ssize payload.count
  have heq : Socket.to_uint32 (Socket.int_of_ssize payload.count)
      = Socket.ntohl_bytes ((header.data ++ List.replicate 4 (Char.ofNat 0)).take 4) := by
    omega
  rw [socket_read_payload header payload strerror h4, if_neg (fun h => h heq), ← hlen]
  exact congrArg Except.ok (List.take_left' rfl)

theorem C25_partial_header_witness :
    Socket.socket_read ⟨3, [Char.ofNat 0, Char.ofNat 0, Char.ofNat 1]⟩ true
        ⟨256, List.replicate 256 'x'⟩ "Interrupted system call".toList
      = .ok (List.replicate 256 'x') :=
  (C25_partial_header ⟨3, [Char.ofNat 0, Char.ofNat 0, Char.ofNat 1]⟩
    ⟨256, List.replicate 256 'x'⟩ "Interrupted system call".toList (by decide) (by decide)
    (by decide) ((List.length_replicate 256 'x').trans (by decide))).1

/-- C26: on a complete transfer `socket_write` puts on the wire the payload length as four
bytes in big-endian order (read back by `ntohl`) followed by the payload, and returns the payload
length. A partial transfer is not an error: when the second `send` reports a count between 1 and
the payload length, that count is returned as success, and when the first `send` reports 2 of
the 4 prefix bytes the payload is sent all the same. Only a count of 0 or -1 gives the write
error. -/
theorem C26_socket_write_partial_transfer (data : List Char) (sent_data : Int) (strerror : List Char)
    (hpos : 0 < sent_data) (hle : sent_data ≤ (data.length : Int))
    (hmax : (data.length : Int) ≤ INT_MAX) :
    Socket.socket_write data 4 sent_data strerror
      = (.ok sent_data, Socket.htonl_bytes data.length ++ data.take sent_data.toNat) ∧
    Socket.socket_write data 4 (data.length : Int) strerror
      = (.ok (data.length : Int), Socket.htonl_bytes data.length ++ data) ∧
    Socket.ntohl_bytes (Socket.htonl_bytes data.length) = data.length ∧
    Socket.socket_write data 2 (data.length : Int) strerror
      = (.ok (data.length : Int), (Socket.htonl_bytes data.length).take 2 ++ data) ∧
    Socket.socket_write data 0 sent_data strerror = (.error ⟨Error_code.WRITE, strerror⟩, []) ∧
    Socket.socket_write data (-1) sent_data strerror
      = (.error ⟨Error_code.WRITE, strerror⟩, []) ∧
    Socket.socket_write data 4 (-1) strerror
      = (.error ⟨Error_code.WRITE, strerror⟩, Socket.htonl_bytes data.length) := by
  simp only [INT_MAX] at hmax
  have hmod : data.length % 2 ^ 32 = data.length := Nat.mod_eq_of_lt (by omega)
  have hs : Socket.int_of_ssize sent_data = sent_data := by
    unfold Socket.int_of_ssize; omega
  have hl : Socket.int_of_ssize (data.length : Int) = (data.length : Int) := by
    unfold Socket.int_of_ssize; omega
  have hlpos : ¬ (data.length : Int) ≤ 0 := by omega
  have h4 : ¬ Socket.int_of_ssize 4 ≤ 0 := by decide
  have h2 : ¬ Socket.int_of_ssize 2 ≤ 0 := by decide
  have h0 : Socket.int_of_ssize 0 ≤ 0 := by decide
  have hm1 : Socket.int_of_ssize (-1) ≤ 0 := by decide
  have hspos : ¬ sent_data ≤ 0 := by omega
  have hprefix : (Socket.htonl_bytes data.length).take (4 : Int).toNat
      = Socket.htonl_bytes data.length := rfl
  refine ⟨?_, ?_, ntohl_htonl _ (by omega), ?_, ?_, ?_, ?_⟩
  · simp only [Socket.socket_write, hmod, h4, hs, hspos, if_false, hprefix]
  · simp only [Socket.socket_write, hmod, h4, hl, hlpos, if_false, hprefix, Int.toNat_ofNat,
      List.take_length]
  · simp only [Socket.socket_write, hmod, h2, hl, hlpos, if_false, Int.toNat_ofNat,
      List.take_length]
    rfl
  · simp only [Socket.socket_write, h0, if_true]
  · simp only [Socket.socket_write, hm1, if_true]
  · simp only [Socket.socket_write, hmod, h4, hm1, if_true, if_false, hprefix]

theorem C26_socket_write_partial_transfer_witness :
    Socket.socket_write "0123456789".toList 4 3 "Success".toList
      = (.ok 3, Socket.htonl_bytes 10 ++ "012".toList) :=
  (C26_socket_write_partial_transfer "0123456789".toList 3 "Success".toList (by decide) (by decide)
    (by decide)).1

/-! ## The text of an encoded and of a printed entry -/

/-- C27: for every entry of level INFO, WARN or ERROR, `serialization_log` returns the message,
one space, the digit 0, 1 or 2 of the level, one space, and the time as written by `operator<<`,
nothing else: for a time that is not negative its decimal digits, for a negative time a minus
sign and the decimal digits of its magnitude. -/
theorem C27_serialization_log_format (e : Protocol)
    (hlevel : e.level = Level.INFO ∨ e.level = Level.WARN ∨ e.level = Level.ERROR) :
    serialization_log e
      = e.message ++ [' ']
        ++ [if e.level = Level.INFO then '0' else if e.level = Level.WARN then '1' else '2']
        ++ [' '] ++ put_int e.time ∧
    (0 ≤ e.time → put_int e.time ≠ [] ∧ (∀ c ∈ put_int e.time, c.isDigit = true) ∧
      (digits_value (put_int e.time) : Int) = e.time) ∧
    (e.time < 0 → put_int e.time = '-' :: put_int (-e.time)) := by
  refine ⟨?_, put_int_nonneg_spec e.time, fun hneg => ?_⟩
  · have key : ∀ l : Level, (l = Level.INFO ∨ l = Level.WARN ∨ l = Level.ERROR) →
        put_int l.ord
          = [if l = Level.INFO then '0' else if l = Level.WARN then '1' else '2'] := by
      intro l hl
      rcases hl with h | h | h <;> subst h <;> decide
    simp only [serialization_log, key e.level hlevel]
  · have h1 : ¬ -e.time < 0 := by omega
    have h2 : (-e.time).toNat = e.time.natAbs := by omega
    simp only [put_int, hneg, h1, if_true, if_false, h2]

theorem C27_serialization_log_format_witness :
    serialization_log ⟨"Hello".toList, Level.WARN, 1754829045⟩ = "Hello 1 1754829045".toList :=
  (C27_serialization_log_format ⟨"Hello".toList, Level.WARN, 1754829045⟩
    (Or.inr (Or.inl rfl))).1.trans (by decide)

theorem toDigitsCore_step (fuel n : Nat) (acc : List Char) :
    Nat.toDigitsCore 10 (fuel + 1) n acc
      = if n / 10 = 0 then Nat.digitChar (n % 10) :: acc
        else Nat.toDigitsCore 10 fuel (n / 10) (Nat.digitChar (n % 10) :: acc) := by
  simp only [Nat.toDigitsCore]

theorem toDigits_length_one (n : Nat) (h : n < 10) : (Nat.toDigits 10 n).length = 1 := by
  have h0 : n / 10 = 0 := by omega
  simp only [Nat.toDigits, toDigitsCore_step, h0, if_true, List.length_singleton]

theorem toDigits_length_two (n : Nat) (h0 : 10 ≤ n) (h1 : n < 100) :
    (Nat.toDigits 10 n).length = 2 := by
  obtain ⟨f, hf⟩ : ∃ f, n + 1 = f + 1 + 1 := ⟨n - 1, by omega⟩
  have a0 : ¬ n / 10 = 0 := by omega
  have a1 : n / 10 / 10 = 0 := by omega
  simp only [Nat.toDigits, hf, toDigitsCore_step, a0, a1, if_true, if_false, List.length_cons,
    List.length_nil]

theorem toDigits_length_four (n : Nat) (h0 : 1000 ≤ n) (h1 : n < 10000) :
    (Nat.toDigits 10 n).length = 4 := by
  obtain ⟨f, hf⟩ : ∃ f, n + 1 = f + 1 + 1 + 1 + 1 := ⟨n - 3, by omega⟩
  have a0 : ¬ n / 10 = 0 := by omega
  have a1 : ¬ n / 10 / 10 = 0 := by omega
  have a2 : ¬ n / 10 / 10 / 10 = 0 := by omega
  have a3 : n / 10 / 10 / 10 / 10 = 0 := by omega
  simp only [Nat.toDigits, hf, toDigitsCore_step, a0, a1, a2, a3, if_true, if_false,
    List.length_cons, List.length_nil]

/-- The year field `%Y` of a four-digit year. -/
theorem put_int_year (y : Int) (h0 : 1000 ≤ y) (h1 : y ≤ 9999) :
    decimal_field 4 y (put_int y) := by
  obtain ⟨_, p2, p3⟩ := put_int_nonneg_spec y (by omega)
  refine ⟨?_, p2, p3⟩
  have hneg : ¬ y < 0 := by omega
  simp only [put_int, hneg, if_false]
  exact toDigits_length_four _ (by omega) (by omega)

/-- The zero-padded fields `%m`, `%d`, `%H`, `%M` and `%S`. -/
theorem two_digits_field (v : Int) (h0 : 0 ≤ v) (h1 : v < 100) :
    decimal_field 2 v (two_digits v) := by
  obtain ⟨_, p2, p3⟩ := put_int_nonneg_spec v h0
  have hneg : ¬ v < 0 := by omega
  by_cases h10 : v < 10
  · have hc : 0 ≤ v ∧ v < 10 := ⟨h0, h10⟩
    have hlen : (put_int v).length = 1 := by
      simp only [put_int, hneg, if_false]
      exact toDigits_length_one _ (by omega)
    simp only [two_digits, hc, and_self, if_true]
    refine ⟨by simp [hlen], ?_, ?_⟩
    · intro c hc
      rcases List.mem_cons.1 hc with h | h
      · rw [h]; decide
      · exact p2 c h
    · have hz : digits_value ('0' :: put_int v) = digits_value (put_int v) := rfl
      rw [hz]; exact p3
  · have hc : ¬ (0 ≤ v ∧ v < 10) := fun h => h10 h.2
    simp only [two_digits, hc, if_false]
    refine ⟨?_, p2, p3⟩
    simp only [put_int, hneg, if_false]
    exact toDigits_length_two _ (by omega) (by omega)

theorem deserialization_level_valid (w : List Char) (l : Level)
    (h : deserialization_level w = some l) :
    l = Level.INFO ∨ l = Level.WARN ∨ l = Level.ERROR := by
  unfold deserialization_level at h
  split_ifs at h <;> simp_all

/-- The entry that `create_log_entry` returns has the given time, and the default level or one of
the three named levels. -/
theorem create_log_entry_level_time (data : List Char) (d : Level) (t : Int) (e : Protocol)
    (h : create_log_entry data d t = some e) :
    e.time = t ∧ (e.level = d ∨ e.level = Level.INFO ∨ e.level = Level.WARN
      ∨ e.level = Level.ERROR) := by
  unfold create_log_entry at h
  generalize read_words (data.length + 1) data [] [] = p at h
  obtain ⟨word, message⟩ := p
  simp only at h
  cases hl : deserialization_level word with
  | none =>
    rw [hl] at h
    simp only at h
    split_ifs at h
    simp only [Option.some.injEq] at h
    subst h
    exact ⟨rfl, Or.inl rfl⟩
  | some lvl =>
    rw [hl] at h
    simp only at h
    split_ifs at h
    simp only [Option.some.injEq] at h
    subst h
    exact ⟨rfl, Or.inr (deserialization_level_valid word lvl hl)⟩

/-- C28: for the entry with message "Hi", level ERROR and time `LONG_MAX`, which
`deserialization_log` returns for the frame "Hi 2 9223372036854775807", `std::localtime`
returns a null pointer (the year does not fit `int`) and `print_log_entry` dereferences it:
nothing is written, by `print_log_entry`, by `File_logging::write` or by the round of the
server that receives the frame. For the time 253402300800 the year is written in five digits,
10000. For every entry of level INFO, WARN or ERROR whose time `std::localtime` converts to a
calendar time with a four-digit year, `print_log_entry` writes the message, one space, the name
INFO, WARN or ERROR of the level, one space, and the date and time as
`YYYY-MM-DD HH:MM:SS`: the year in four digits, month (counted from 1), day, hour, minute and
second in two digits each. When the stream does not fail, `File_logging::write` appends this text
and a newline to the file and returns no error; for an entry built by `create_log_entry` with a
default level among the three, the appended line is `print_log_entry` of that entry. -/
theorem C28_print_log_entry_format (localtime : Int → Option Tm) (e : Protocol) (tm : Tm)
    (hlevel : e.level = Level.INFO ∨ e.level = Level.WARN ∨ e.level = Level.ERROR)
    (hlocal : localtime e.time = some tm)
    (hyear0 : 1000 ≤ tm.tm_year + 1900) (hyear1 : tm.tm_year + 1900 ≤ 9999)
    (hmon0 : 0 ≤ tm.tm_mon) (hmon1 : tm.tm_mon ≤ 11)
    (hmday0 : 1 ≤ tm.tm_mday) (hmday1 : tm.tm_mday ≤ 31)
    (hhour0 : 0 ≤ tm.tm_hour) (hhour1 : tm.tm_hour ≤ 23)
    (hmin0 : 0 ≤ tm.tm_min) (hmin1 : tm.tm_min ≤ 59)
    (hsec0 : 0 ≤ tm.tm_sec) (hsec1 : tm.tm_sec ≤ 60) :
    (∃ year month day hour minute second : List Char,
      print_log_entry localtime e
        = .ok (e.message ++ [' ']
            ++ (if e.level = Level.INFO then "INFO".toList
                else if e.level = Level.WARN then "WARN".toList else "ERROR".toList)
            ++ [' '] ++ (year ++ ['-'] ++ month ++ ['-'] ++ day ++ [' '] ++ hour ++ [':']
              ++ minute ++ [':'] ++ second)) ∧
      decimal_field 4 (tm.tm_year + 1900) year ∧ decimal_field 2 (tm.tm_mon + 1) month ∧
      decimal_field 2 tm.tm_mday day ∧ decimal_field 2 tm.tm_hour hour ∧
      decimal_field 2 tm.tm_min minute ∧ decimal_field 2 tm.tm_sec second) ∧
    (∃ text, print_log_entry localtime e = .ok text ∧
      ∀ (strerror log_file : List Char),
        File_logging.write localtime true strerror log_file e
          = .ok (log_file ++ text ++ ['\n'], none)) ∧
    (∀ (data : List Char) (default_level : Level) (built : Protocol),
      (default_level = Level.INFO ∨ default_level = Level.WARN ∨ default_level = Level.ERROR) →
      create_log_entry data default_level e.time = some built →
      ∃ text, print_log_entry localtime built = .ok text ∧
        ∀ (strerror log_file : List Char),
          File_logging.write localtime true strerror log_file built
            = .ok (log_file ++ text ++ ['\n'], none)) ∧
    gmtime LONG_MAX = none ∧
    print_log_entry gmtime ⟨"Hi".toList, Level.ERROR, LONG_MAX⟩
      = .error Fault.null_pointer_dereference ∧
    File_logging.write gmtime true [] [] ⟨"Hi".toList, Level.ERROR, LONG_MAX⟩
      = .error Fault.null_pointer_dereference ∧
    deserialization_log "Hi 2 9223372036854775807".toList
      = .ok (some ⟨"Hi".toList, Level.ERROR, LONG_MAX⟩) ∧
    statistic_app_step gmtime 2 ⟨Statistic.init, 0⟩
        (Poll.ready (.ok "Hi 2 9223372036854775807".toList))
      = .error Fault.null_pointer_dereference ∧
    (∀ (any : Int → Option Tm) (b : Protocol), any b.time = none →
      print_log_entry any b = .error Fault.null_pointer_dereference) ∧
    print_log_entry gmtime ⟨"Hi".toList, Level.ERROR, 253402300800⟩
      = .ok "Hi ERROR 10000-01-01 00:00:00".toList ∧
    print_log_entry gmtime ⟨"Hi".toList, Level.ERROR, 1754829045⟩
      = .ok "Hi ERROR 2025-08-10 12:30:45".toList := by
  have hnull : ∀ (any : Int → Option Tm) (b : Protocol), any b.time = none →
      print_log_entry any b = .error Fault.null_pointer_dereference := by
    intro any b hb
    simp only [print_log_entry, hb]
  have hmax : gmtime LONG_MAX = none := by decide
  have hdec : deserialization_log "Hi 2 9223372036854775807".toList
      = .ok (some ⟨"Hi".toList, Level.ERROR, LONG_MAX⟩) := by decide
  have hfail : print_log_entry gmtime ⟨"Hi".toList, Level.ERROR, LONG_MAX⟩
      = .error Fault.null_pointer_dereference := hnull gmtime _ hmax
  have hwritefail : File_logging.write gmtime true [] [] ⟨"Hi".toList, Level.ERROR, LONG_MAX⟩
      = .error Fault.null_pointer_dereference := by
    simp only [File_logging.write, hfail]
  have hstep : statistic_app_step gmtime 2 ⟨Statistic.init, 0⟩
      (Poll.ready (.ok "Hi 2 9223372036854775807".toList))
      = .error Fault.null_pointer_dereference := by
    simp only [statistic_app_step, hdec, hfail]
  have hprint : ∀ (b : Protocol),
      (b.level = Level.INFO ∨ b.level = Level.WARN ∨ b.level = Level.ERROR) →
      b.time = e.time →
      print_log_entry localtime b
        = .ok (b.message ++ [' ']
            ++ (if b.level = Level.INFO then "INFO".toList
                else if b.level = Level.WARN then "WARN".toList else "ERROR".toList)
            ++ [' '] ++ put_time tm) := by
    intro b hb ht
    have hname : serialization_level b.level
        = some (if b.level = Level.INFO then "INFO".toList
                else if b.level = Level.WARN then "WARN".toList else "ERROR".toList) := by
      rcases hb with h | h | h <;> (rw [h]; rfl)
    simp only [print_log_entry, ht, hlocal, hname]
  have hwrite : ∀ (b : Protocol) (text : List Char), print_log_entry localtime b = .ok text →
      ∀ (strerror log_file : List Char),
        File_logging.write localtime true strerror log_file b
          = .ok (log_file ++ text ++ ['\n'], none) := by
    intro b text hb strerror log_file
    simp only [File_logging.write, hb, if_true]
  refine ⟨⟨put_int (tm.tm_year + 1900), two_digits (tm.tm_mon + 1), two_digits tm.tm_mday,
    two_digits tm.tm_hour, two_digits tm.tm_min, two_digits tm.tm_sec,
    hprint e hlevel rfl, put_int_year _ hyear0 hyear1,
    two_digits_field _ (by omega) (by omega), two_digits_field _ (by omega) (by omega),
    two_digits_field _ hhour0 (by omega), two_digits_field _ hmin0 (by omega),
    two_digits_field _ hsec0 (by omega)⟩, ⟨_, hprint e hlevel rfl, hwrite e _ (hprint e hlevel rfl)⟩,
    ?_, hmax, hfail, hwritefail, hdec, hstep, hnull, by decide, by decide⟩
  intro data default_level built hd hb
  obtain ⟨ht, hl⟩ := create_log_entry_level_time data default_level e.time built hb
  have hvalid : built.level = Level.INFO ∨ built.level = Level.WARN ∨ built.level = Level.ERROR := by
    rcases hl with h | h
    · rw [h]; exact hd
    · exact h
  exact ⟨_, hprint built hvalid ht, hwrite built _ (hprint built hvalid ht)⟩

theorem C28_print_log_entry_format_witness :
    print_log_entry (fun _ => some ⟨45, 30, 15, 10, 7, 125⟩) ⟨"Hi".toList, Level.ERROR, 1754829045⟩
      = .ok "Hi ERROR 2025-08-10 15:30:45".toList ∧
    ∃ text, print_log_entry (fun _ => some ⟨45, 30, 15, 10, 7, 125⟩)
        ⟨"Hi".toList, Level.ERROR, 1754829045⟩ = .ok text ∧
      ∀ (strerror log_file : List Char),
        File_logging.write (fun _ => some ⟨45, 30, 15, 10, 7, 125⟩) true strerror log_file
            ⟨"Hi".toList, Level.ERROR, 1754829045⟩
          = .ok (log_file ++ text ++ ['\n'], none) :=
  ⟨by decide,
   (C28_print_log_entry_format (fun _ => some ⟨45, 30, 15, 10, 7, 125⟩)
    ⟨"Hi".toList, Level.ERROR, 1754829045⟩ ⟨45, 30, 15, 10, 7, 125⟩ (Or.inr (Or.inr rfl)) rfl
    (by decide) (by decide) (by decide) (by decide) (by decide) (by decide) (by decide)
    (by decide) (by decide) (by decide) (by decide) (by decide)).2.1⟩

/-! ## What `extract_last_number` leaves in the string -/

theorem pop_back_spaces_eq : ∀ (l r : List Char), pop_back_spaces l = some r →
    r = l.dropWhile isspace
  | [], r, h => by simp [pop_back_spaces] at h
  | c :: cs, r, h => by
    cases hc : isspace c with
    | true =>
      simp only [pop_back_spaces, hc, if_true] at h
      simp only [List.dropWhile, hc]
      exact pop_back_spaces_eq cs r h
    | false =>
      simp only [pop_back_spaces, hc, Bool.false_eq_true, if_false, Option.some.injEq] at h
      simp only [List.dropWhile, hc]
      exact h.symm

/-- Whenever `extract_last_number` returns nothing, the string is the input without its trailing
whitespace. -/
theorem extract_last_number_none (lo hi : Int) (entry rest : List Char)
    (h : extract_last_number lo hi entry = .ok (none, rest)) :
    rest = (entry.reverse.dropWhile isspace).reverse := by
  unfold extract_last_number at h
  by_cases h0 : entry = []
  · simp only [h0, if_true, Except.ok.injEq, Prod.mk.injEq, true_and] at h
    rw [h0, ← h]; rfl
  · simp only [h0, if_false] at h
    cases hp : pop_back_spaces entry.reverse with
    | none => rw [hp] at h; cases h
    | some r =>
      rw [hp] at h
      have hr := pop_back_spaces_eq _ _ hp
      simp only at h
      cases hf : rfind ' ' r.reverse with
      | none =>
        rw [hf] at h
        simp only [Except.ok.injEq, Prod.mk.injEq, true_and] at h
        rw [← h, hr]
      | some position =>
        rw [hf] at h
        simp only at h
        cases hc : from_chars lo hi
            ((r.reverse.drop (position + 1)).takeWhile (fun c => c ≠ Char.ofNat 0)) with
        | none =>
          rw [hc] at h
          simp only [Except.ok.injEq, Prod.mk.injEq, true_and] at h
          rw [← h, hr]
        | some v =>
          rw [hc] at h
          simp only [Except.ok.injEq, Prod.mk.injEq] at h
          exact absurd h.1 (by simp)

/-- The text `operator<<` writes for an integer in range is read back by `from_chars`. -/
theorem from_chars_put_int (lo hi n : Int) (hlo : lo ≤ n) (hhi : n ≤ hi) :
    from_chars lo hi (put_int n) = some n := by
  by_cases hneg : n < 0
  · obtain ⟨d1, d2, d3⟩ := toDigits_spec n.natAbs
    have htw : (Nat.toDigits 10 n.natAbs).takeWhile Char.isDigit = Nat.toDigits 10 n.natAbs :=
      List.takeWhile_eq_self_iff.2 d2
    have hv : -((n.natAbs : Nat) : Int) = n := by omega
    simp [from_chars, put_int, hneg, htw, d1, d3, hv, hlo, hhi]
    rw [abs_of_neg hneg]
    omega
  · obtain ⟨p1, p2, p3⟩ := put_int_nonneg_spec n (by omega)
    have h := from_chars_digits lo hi (put_int n) p1 p2 (by rw [p3]; exact hlo)
      (by rw [p3]; exact hhi)
    rw [h, p3]

/-- Success path of `extract_last_number` for a trailing integer as `operator<<` writes it. -/
theorem extract_last_number_put_int (lo hi n : Int) (p : List Char) (hlo : lo ≤ n)
    (hhi : n ≤ hi) :
    extract_last_number lo hi (p ++ [' '] ++ put_int n) = .ok (some n, p) := by
  by_cases hneg : n < 0
  · obtain ⟨d1, d2, d3⟩ := toDigits_spec n.natAbs
    have hput : put_int n = '-' :: Nat.toDigits 10 n.natAbs := by
      simp only [put_int, hneg, if_true]
    have hfc := from_chars_put_int lo hi n hlo hhi
    rw [hput] at hfc
    rw [hput]
    have hsplit : p ++ [' '] ++ '-' :: Nat.toDigits 10 n.natAbs
        = (p ++ ' ' :: '-' :: (Nat.toDigits 10 n.natAbs).dropLast)
          ++ [(Nat.toDigits 10 n.natAbs).getLast d1] := by
      simp [List.dropLast_append_getLast d1]
    have hlast : isspace ((Nat.toDigits 10 n.natAbs).getLast d1) = false :=
      isDigit_not_isspace (d2 _ (List.getLast_mem d1))
    have hpop : pop_back_spaces (p ++ [' '] ++ '-' :: Nat.toDigits 10 n.natAbs).reverse
        = some (p ++ [' '] ++ '-' :: Nat.toDigits 10 n.natAbs).reverse := by
      rw [hsplit]; exact pop_back_spaces_snoc _ _ hlast
    have hsp : ' ' ∉ '-' :: Nat.toDigits 10 n.natAbs := by
      intro h
      rcases List.mem_cons.1 h with h | h
      · revert h; decide
      · exact isDigit_not_space (d2 _ h) rfl
    have hnul : (('-' :: Nat.toDigits 10 n.natAbs).takeWhile fun c => decide (c ≠ Char.ofNat 0))
        = '-' :: Nat.toDigits 10 n.natAbs :=
      List.takeWhile_eq_self_iff.2 (fun c hc => by
        rcases List.mem_cons.1 hc with h | h
        · rw [h]; decide
        · simpa using isDigit_not_nul (d2 c h))
    have hshape : p ++ [' '] ++ '-' :: Nat.toDigits 10 n.natAbs
        = p ++ ' ' :: ('-' :: Nat.toDigits 10 n.natAbs) := by simp
    have hdrop : (p ++ ' ' :: ('-' :: Nat.toDigits 10 n.natAbs)).drop (p.length + 1)
        = '-' :: Nat.toDigits 10 n.natAbs := by
      rw [show p ++ ' ' :: ('-' :: Nat.toDigits 10 n.natAbs)
        = (p ++ [' ']) ++ ('-' :: Nat.toDigits 10 n.natAbs) by simp]
      exact List.drop_left' (by simp)
    have htake : (p ++ ' ' :: ('-' :: Nat.toDigits 10 n.natAbs)).take p.length = p := by simp
    have hnonempty : (p ++ ' ' :: ('-' :: Nat.toDigits 10 n.natAbs) = []) = False := by simp
    rw [hshape] at hpop ⊢
    simp only [extract_last_number, hnonempty, if_false, hpop, List.reverse_reverse,
      rfind_append_sep ' ' p _ hsp, hdrop, hnul, hfc, htake]
  · obtain ⟨p1, p2, p3⟩ := put_int_nonneg_spec n (by omega)
    have h := extract_last_number_digits lo hi p (put_int n) p1 p2 (by rw [p3]; exact hlo)
      (by rw [p3]; exact hhi)
    rw [p3] at h
    rw [← h]
    simp

/-- C29, as stated, fails: on "not number" followed by two spaces,
`extract_last_number<int>` returns nothing and leaves "not number" in the string, the two
trailing spaces gone. -/
theorem C29_trailing_whitespace_counterexample :
    extract_last_number INT_MIN INT_MAX "not number  ".toList
      = .ok (none, "not number".toList) ∧
    "not number".toList ≠ "not number  ".toList := by
  decide

/-- C29, amended: whenever `extract_last_number` returns nothing, the string is left as the
input without its trailing whitespace, so exactly as it was when it did not end in whitespace;
on an input p, one space and the decimal text of an integer n of the range of the type, it
returns n and leaves p. -/
theorem C29_extract_last_number_frame (lo hi : Int) (entry rest : List Char)
    (h : extract_last_number lo hi entry = .ok (none, rest)) :
    rest = (entry.reverse.dropWhile isspace).reverse ∧
    ((∀ c, entry.getLast? = some c → isspace c = false) → rest = entry) ∧
    (∀ (p : List Char) (n : Int), lo ≤ n → n ≤ hi →
      extract_last_number lo hi (p ++ [' '] ++ put_int n) = .ok (some n, p)) := by
  have hrest := extract_last_number_none lo hi entry rest h
  refine ⟨hrest, fun hlast => ?_, fun p n hlo hhi => extract_last_number_put_int lo hi n p hlo hhi⟩
  rw [hrest]
  rcases List.eq_nil_or_concat entry with h0 | ⟨init, c, hc⟩
  · rw [h0]; rfl
  · simp only [List.concat_eq_append] at hc
    have hsp : isspace c = false := hlast c (by rw [hc]; simp)
    rw [hc]
    simp [List.dropWhile, hsp]

theorem C29_extract_last_number_frame_witness :
    "not number".toList = (("not number  ".toList).reverse.dropWhile isspace).reverse :=
  (C29_extract_last_number_frame INT_MIN INT_MAX "not number  ".toList "not number".toList
    (by decide)).1

/-- C30: the frame "msg 7 100" is accepted by `deserialization_log` with the level
`static_cast<Level>(7)`, for which `serialization_level` returns no name; the round that
receives it, in every server state and with every message interval, ends in the exception
`std::bad_optional_access` thrown by `.value()` in `print_log_entry` (in a null pointer
dereference instead if `std::localtime` fails), and the aggregator is not updated. -/
theorem C30_step_fails_on_unnamed_level (localtime : Int → Option Tm) (k : Int) (sv : Server) :
    deserialization_log "msg 7 100".toList = .ok (some ⟨"msg".toList, ⟨7⟩, 100⟩) ∧
    serialization_level ⟨7⟩ = none ∧
    (∃ f, statistic_app_step localtime k sv (Poll.ready (.ok "msg 7 100".toList)) = .error f) ∧
    statistic_app_step (fun _ => some ⟨40, 1, 0, 1, 0, 70⟩) k sv
        (Poll.ready (.ok "msg 7 100".toList))
      = .error Fault.bad_optional_access := by
  have hdec : deserialization_log "msg 7 100".toList = .ok (some ⟨"msg".toList, ⟨7⟩, 100⟩) := by
    decide
  have hname : serialization_level ⟨7⟩ = none := by decide
  refine ⟨hdec, hname, ?_, ?_⟩
  · cases hl : localtime 100 with
    | none =>
      exact ⟨Fault.null_pointer_dereference, by
        simp only [statistic_app_step, hdec, print_log_entry, hl]⟩
    | some tm =>
      exact ⟨Fault.bad_optional_access, by
        simp only [statistic_app_step, hdec, print_log_entry, hl, hname]⟩
  · simp only [statistic_app_step, hdec, print_log_entry, hname]

/-! ## The window after timestamps in order, and the eviction loop -/

theorem htonl_bytes_length (n : Nat) : (Socket.htonl_bytes n).length = 4 := rfl

/-- A complete transfer of a payload of 1 to `INT_MAX` bytes: the length, then the payload. -/
theorem socket_write_full (data strerror : List Char) (hpos : data ≠ [])
    (hmax : data.length < 2 ^ 31) :
    Socket.socket_write data 4 (data.length : Int) strerror
      = (.ok (data.length : Int), Socket.htonl_bytes data.length ++ data) := by
  have hlen : 0 < data.length := List.length_pos.2 hpos
  have hmod : data.length % 2 ^ 32 = data.length := Nat.mod_eq_of_lt (by omega)
  have hl : Socket.int_of_ssize (data.length : Int) = (data.length : Int) := by
    unfold Socket.int_of_ssize; omega
  have hlpos : ¬ (data.length : Int) ≤ 0 := by omega
  have h4 : ¬ Socket.int_of_ssize 4 ≤ 0 := by decide
  have hprefix : (Socket.htonl_bytes data.length).take (4 : Int).toNat
      = Socket.htonl_bytes data.length := rfl
  simp only [Socket.socket_write, hmod, h4, hl, hlpos, if_false, hprefix, Int.toNat_ofNat,
    List.take_length]

theorem recv_all_append (a b : List Char) :
    Socket.recv_all (a ++ b) a.length = (⟨(a.length : Int), a⟩, b) := by
  simp [Socket.recv_all]

/-- One frame at the head of the stream is read back, and nothing after it is consumed. -/
theorem socket_read_stream_frame (data rest strerror : List Char) (hmax : data.length < 2 ^ 31) :
    Socket.socket_read_stream (Socket.htonl_bytes data.length ++ data ++ rest) strerror
      = (.ok data, rest) := by
  have hrecv1 : Socket.recv_all (Socket.htonl_bytes data.length ++ data ++ rest) 4
      = (⟨4, Socket.htonl_bytes data.length⟩, data ++ rest) := by
    have := recv_all_append (Socket.htonl_bytes data.length) (data ++ rest)
    rw [htonl_bytes_length] at this
    rw [List.append_assoc]
    exact this
  have h4 : ¬ Socket.int_of_ssize 4 ≤ 0 := by decide
  have hN : Socket.ntohl_bytes
      ((Socket.htonl_bytes data.length ++ List.replicate 4 (Char.ofNat 0)).take 4)
      = data.length := by
    have ht : (Socket.htonl_bytes data.length ++ List.replicate 4 (Char.ofNat 0)).take 4
        = Socket.htonl_bytes data.length := rfl
    rw [ht]
    exact ntohl_htonl _ (by omega)
  have hconv := to_uint32_int_of_ssize (data.length : Int)
  have hcount : Socket.to_uint32 (Socket.int_of_ssize (data.length : Int)) = data.length := by
    omega
  have hread : Socket.socket_read ⟨4, Socket.htonl_bytes data.length⟩ true
      ⟨(data.length : Int), data⟩ strerror = .ok data := by
    have hpos : 0 < Socket.int_of_ssize
        (Socket.Recv_result.mk 4 (Socket.htonl_bytes data.length)).count := by
      show 0 < Socket.int_of_ssize 4
      decide
    rw [socket_read_payload _ _ strerror hpos]
    simp only [hN, hcount, ne_eq, not_true_eq_false, if_false]
    exact congrArg Except.ok (List.take_left' rfl)
  simp only [Socket.socket_read_stream, hrecv1, h4, if_false, hN, recv_all_append, hread]

theorem socket_write_stream_full (stream data strerror : List Char) (hpos : data ≠ [])
    (hmax : data.length < 2 ^ 31) :
    Socket.socket_write_stream stream data strerror
      = (.ok (data.length : Int), stream ++ (Socket.htonl_bytes data.length ++ data)) := by
  simp only [Socket.socket_write_stream, socket_write_full data strerror hpos hmax]

theorem write_frames_step (strerror d stream : List Char) (ds : List (List Char)) :
    Socket.write_frames strerror stream (d :: ds)
      = Socket.write_frames strerror (Socket.socket_write_stream stream d strerror).2 ds := by
  unfold Socket.write_frames
  rw [List.foldl_cons]

theorem socket_write_stream_snd (strerror d stream : List Char) :
    (Socket.socket_write_stream stream d strerror).2
      = stream ++ (Socket.socket_write d 4 (d.length : Int) strerror).2 := by
  unfold Socket.socket_write_stream
  rfl

theorem read_frames_succ (strerror stream : List Char) (n : Nat) :
    Socket.read_frames strerror (n + 1) stream
      = ((Socket.socket_read_stream stream strerror).1
          :: (Socket.read_frames strerror n (Socket.socket_read_stream stream strerror).2).1,
        (Socket.read_frames strerror n (Socket.socket_read_stream stream strerror).2).2) := by
  rw [Socket.read_frames]

theorem write_frames_append (strerror : List Char) : ∀ (frames : List (List Char))
    (stream : List Char),
    Socket.write_frames strerror stream frames
      = stream ++ Socket.write_frames strerror [] frames
  | [], stream => (List.append_nil stream).symm
  | d :: ds, stream => by
    rw [write_frames_step, write_frames_step,
      write_frames_append strerror ds (Socket.socket_write_stream stream d strerror).2,
      write_frames_append strerror ds (Socket.socket_write_stream [] d strerror).2,
      socket_write_stream_snd, socket_write_stream_snd, List.nil_append, List.append_assoc]

theorem write_frames_cons (strerror d : List Char) (ds : List (List Char)) (hpos : d ≠ [])
    (hmax : d.length < 2 ^ 31) :
    Socket.write_frames strerror [] (d :: ds)
      = Socket.htonl_bytes d.length ++ d ++ Socket.write_frames strerror [] ds := by
  rw [write_frames_step, write_frames_append, socket_write_stream_snd,
    socket_write_full d strerror hpos hmax, List.nil_append]

/-- Frames written one after the other are read back one per call, in the order written. -/
theorem read_frames_write_frames (strerror rest : List Char) : ∀ (frames : List (List Char)),
    (∀ d ∈ frames, d ≠ [] ∧ d.length < 2 ^ 31) →
    Socket.read_frames strerror frames.length (Socket.write_frames strerror [] frames ++ rest)
      = (frames.map Except.ok, rest)
  | [], _ => rfl
  | d :: ds, h => by
    have hd := h d (List.mem_cons_self d ds)
    have ih := read_frames_write_frames strerror rest ds
      (fun x hx => h x (List.mem_cons_of_mem d hx))
    have hframe := socket_read_stream_frame d (Socket.write_frames strerror [] ds ++ rest)
      strerror hd.2
    rw [write_frames_cons strerror d ds hd.1 hd.2, List.append_assoc, List.length_cons,
      read_frames_succ, hframe, ih, List.map_cons]

/-- C32: on a stream on which every `send` and `recv` transfers all requested bytes, for
payloads that are not empty and shorter than 2^31 bytes, `socket_write` returns the payload
length and appends 4 + length bytes to the stream; `socket_read` on these bytes, whatever
follows them, returns exactly the payload and leaves what follows unread; and as many
`socket_read` calls as frames were written return the payloads one per call in the order
written. -/
theorem C32_framing_round_trip (frames : List (List Char)) (rest strerror : List Char)
    (h : ∀ d ∈ frames, d ≠ [] ∧ d.length < 2 ^ 31) :
    Socket.read_frames strerror frames.length (Socket.write_frames strerror [] frames ++ rest)
      = (frames.map Except.ok, rest) ∧
    ∀ data ∈ frames, ∀ (stream : List Char),
      (Socket.socket_write_stream stream data strerror).1 = .ok (data.length : Int) ∧
      ((Socket.socket_write_stream stream data strerror).2).length
        = stream.length + (4 + data.length) ∧
      Socket.socket_read_stream ((Socket.socket_write_stream [] data strerror).2 ++ rest) strerror
        = (.ok data, rest) := by
  refine ⟨read_frames_write_frames strerror rest frames h, fun data hdata stream => ?_⟩
  have hd := h data hdata
  have hfull := socket_write_full data strerror hd.1 hd.2
  refine ⟨?_, ?_, ?_⟩
  · rw [socket_write_stream_full stream data strerror hd.1 hd.2]
  · rw [socket_write_stream_snd, hfull, List.length_append, List.length_append,
      htonl_bytes_length]
  · rw [socket_write_stream_snd, hfull, List.nil_append]
    exact socket_read_stream_frame data rest strerror hd.2

theorem C32_framing_round_trip_witness :
    Socket.read_frames "Success".toList 2
        (Socket.write_frames "Success".toList [] ["ab 0 1".toList, "c 2 3".toList]
          ++ "tail".toList)
      = ([.ok "ab 0 1".toList, .ok "c 2 3".toList], "tail".toList) :=
  (C32_framing_round_trip ["ab 0 1".toList, "c 2 3".toList] "tail".toList "Success".toList
    (by decide)).1

/-! ## The trailing trim on whitespace, the eviction loop, and the average length -/

theorem pop_back_spaces_none : ∀ (l : List Char),
    pop_back_spaces l = none ↔ ∀ c ∈ l, isspace c = true
  | [] => by simp [pop_back_spaces]
  | c :: cs => by
    have ih := pop_back_spaces_none cs
    cases hc : isspace c with
    | true => simp [pop_back_spaces, hc, ih]
    | false => simp [pop_back_spaces, hc]

/-- The trim loop of `extract_last_number` leaves defined behaviour exactly on a string that is
not empty and holds whitespace only. -/
theorem extract_last_number_fault (lo hi : Int) (entry : List Char) :
    extract_last_number lo hi entry = .error Fault.back_of_empty_string
      ↔ entry ≠ [] ∧ ∀ c ∈ entry, isspace c = true := by
  have hrev : (∀ c ∈ entry.reverse, isspace c = true) ↔ ∀ c ∈ entry, isspace c = true := by
    simp
  constructor
  · intro h
    unfold extract_last_number at h
    by_cases h0 : entry = []
    · simp only [h0, if_true] at h; cases h
    · simp only [h0, if_false] at h
      cases hp : pop_back_spaces entry.reverse with
      | none => exact ⟨h0, hrev.1 ((pop_back_spaces_none _).1 hp)⟩
      | some r =>
        rw [hp] at h
        simp only at h
        cases hf : rfind ' ' r.reverse with
        | none => rw [hf] at h; cases h
        | some position =>
          rw [hf] at h
          simp only at h
          cases hc : from_chars lo hi
              ((r.reverse.drop (position + 1)).takeWhile (fun c => c ≠ Char.ofNat 0)) with
          | none => rw [hc] at h; cases h
          | some v => rw [hc] at h; cases h
  · rintro ⟨h0, hall⟩
    have hp := (pop_back_spaces_none entry.reverse).2 (hrev.2 hall)
    simp only [extract_last_number, h0, if_false, hp]

/-- C33: on a string that is not empty and holds whitespace only, such as three spaces, the
trim loop `while (std::isspace(entry.back())) entry.pop_back();` removes every character and
then calls `back()` on the empty string; `extract_last_number` and `deserialization_log` do not
return nothing there but leave defined behaviour. These strings are the only ones on which
`extract_last_number` does so. `deserialization_log` also does so on two spaces followed by 5,
where the second extraction is made on one space. -/
theorem C33_trim_reaches_empty_string (lo hi : Int) (entry : List Char) :
    (extract_last_number lo hi entry = .error Fault.back_of_empty_string
      ↔ entry ≠ [] ∧ ∀ c ∈ entry, isspace c = true) ∧
    (extract_last_number lo hi entry ≠ .error Fault.back_of_empty_string
      ↔ ∃ result, extract_last_number lo hi entry = .ok result) ∧
    extract_last_number lo hi "   ".toList = .error Fault.back_of_empty_string ∧
    deserialization_log "   ".toList = .error Fault.back_of_empty_string ∧
    deserialization_log "  5".toList = .error Fault.back_of_empty_string := by
  refine ⟨extract_last_number_fault lo hi entry, ?_,
    (extract_last_number_fault lo hi _).2 (by decide), by decide, by decide⟩
  constructor
  · intro h
    cases hr : extract_last_number lo hi entry with
    | ok result => exact ⟨result, rfl⟩
    | error f =>
      exfalso
      apply h
      rw [hr]
      have hf : f = Fault.back_of_empty_string := by
        unfold extract_last_number at hr
        by_cases h0 : entry = []
        · simp only [h0, if_true] at hr; cases hr
        · simp only [h0, if_false] at hr
          cases hp : pop_back_spaces entry.reverse with
          | none =>
            rw [hp] at hr
            simp only [Except.error.injEq] at hr
            exact hr.symm
          | some r =>
            rw [hp] at hr
            simp only at hr
            cases hf : rfind ' ' r.reverse with
            | none => rw [hf] at hr; cases hr
            | some position =>
              rw [hf] at hr
              simp only at hr
              cases hc : from_chars lo hi
                  ((r.reverse.drop (position + 1)).takeWhile (fun c => c ≠ Char.ofNat 0)) with
              | none => rw [hc] at hr; cases hr
              | some v => rw [hc] at hr; cases hr
      rw [hf]
  · rintro ⟨result, hr⟩ h
    rw [hr] at h
    cases h

/-- The eviction loop makes as many `pop` calls as the queue loses elements. -/
theorem evict_pops_eq : ∀ (l : List Int), l ≠ [] →
    Statistic.evict_pops l
      = .ok (Statistic.drop_old l, l.length - (Statistic.drop_old l).length)
  | [], h => absurd rfl h
  | [x], _ => by
    have h0 : to_time_t 0 = 0 := rfl
    simp [Statistic.evict_pops, Statistic.drop_old, Statistic.interval_time, h0]
  | x :: y :: r, _ => by
    have ih := evict_pops_eq (y :: r) (List.cons_ne_nil y r)
    have hlen := (drop_old_spec (y :: r) (List.cons_ne_nil y r)).2.2.2.1
    by_cases hc : to_time_t ((x :: y :: r).getLast (List.cons_ne_nil x (y :: r)) - x)
        ≥ Statistic.interval_time
    · rw [Statistic.evict_pops, Statistic.drop_old, if_pos hc, if_pos hc, ih]
      simp only [List.length_cons] at hlen ⊢
      have hsub : r.length + 1 - (Statistic.drop_old (y :: r)).length + 1
          = r.length + 1 + 1 - (Statistic.drop_old (y :: r)).length := by omega
      rw [hsub]
    · rw [Statistic.evict_pops, Statistic.drop_old, if_neg hc, if_neg hc]
      simp

/-- C34: for every queue and every timestamp, `add_time` returns without `front`, `back` or `pop`
on an empty queue; its loop makes at most as many `pop` calls as the queue had elements before
the call, each removing the front; what is left is an end piece of the queue with the new
timestamp appended, it is not empty and its back is the timestamp just added. -/
theorem C34_eviction_terminates (w : List Int) (t : Int) :
    ∃ w2 pops, Statistic.add_time w t = .ok w2 ∧
      Statistic.evict_pops (w ++ [t]) = .ok (w2, pops) ∧
      pops ≤ w.length ∧ w2.length + pops = w.length + 1 ∧
      w2 <:+ w ++ [t] ∧ w2 ≠ [] ∧ w2.getLast? = some t := by
  obtain ⟨h1, h2, h3, h4, _⟩ := drop_old_spec (w ++ [t]) (by simp)
  have hpos : 0 < (Statistic.drop_old (w ++ [t])).length := List.length_pos.2 h1
  simp only [List.length_append, List.length_singleton] at h4
  refine ⟨Statistic.drop_old (w ++ [t]), (w ++ [t]).length - (Statistic.drop_old (w ++ [t])).length,
    add_time_eq w t, evict_pops_eq (w ++ [t]) (by simp), ?_, ?_, h2, h1, ?_⟩
  · simp only [List.length_append, List.length_singleton]; omega
  · simp only [List.length_append, List.length_singleton]; omega
  · rw [h3]; simp

theorem foldl_min_le_init : ∀ (l : List Nat) (m : Nat), l.foldl min m ≤ m
  | [], m => Nat.le_refl m
  | a :: r, m => by
    have := foldl_min_le_init r (min m a)
    simp only [List.foldl_cons]
    omega

theorem foldl_min_le_mem : ∀ (l : List Nat) (m x : Nat), x ∈ l → l.foldl min m ≤ x
  | [], _, _, h => by simp at h
  | a :: r, m, x, h => by
    simp only [List.foldl_cons]
    rcases List.mem_cons.1 h with h | h
    · have := foldl_min_le_init r (min m a)
      omega
    · exact foldl_min_le_mem r (min m a) x h

theorem le_foldl_max_init : ∀ (l : List Nat) (m : Nat), m ≤ l.foldl max m
  | [], m => Nat.le_refl m
  | a :: r, m => by
    have := le_foldl_max_init r (max m a)
    simp only [List.foldl_cons]
    omega

theorem le_foldl_max_mem : ∀ (l : List Nat) (m x : Nat), x ∈ l → x ≤ l.foldl max m
  | [], _, _, h => by simp at h
  | a :: r, m, x, h => by
    simp only [List.foldl_cons]
    rcases List.mem_cons.1 h with h | h
    · have := le_foldl_max_init r (max m a)
      omega
    · exact le_foldl_max_mem r (max m a) x h

theorem sum_bounds (lo hi : Nat) : ∀ (l : List Nat), (∀ x ∈ l, lo ≤ x ∧ x ≤ hi) →
    lo * l.length ≤ l.sum ∧ l.sum ≤ hi * l.length
  | [], _ => by simp
  | a :: r, h => by
    have ha := h a (by simp)
    have ih := sum_bounds lo hi r (fun x hx => h x (by simp [hx]))
    simp only [List.length_cons, List.sum_cons, Nat.mul_succ]
    omega

/-- C35: after updates of a fresh aggregator with at least one and fewer than 2^31 entries of
level INFO, WARN or ERROR whose lengths sum to less than 2^64, the smallest length is at most
the average length and the average length is at most the largest length, in the aggregator and
in its snapshot. -/
theorem C35_average_between_min_and_max (es : List Protocol) (hne : es ≠ [])
    (hlevel : ∀ e ∈ es, e.level = Level.INFO ∨ e.level = Level.WARN ∨ e.level = Level.ERROR)
    (hn : es.length < 2 ^ 31)
    (hsum : (es.map (fun e => e.message.length)).sum < 2 ^ 64) :
    ∃ s, Statistic.init.update_all es = .ok s ∧
      s.min_length ≤ s.averege_length ∧ s.averege_length ≤ s.max_length ∧
      s.get_statistics_data.min_length ≤ s.get_statistics_data.averege_length ∧
      s.get_statistics_data.averege_length ≤ s.get_statistics_data.max_length := by
  obtain ⟨s, v0, _, v2, v3, v4, v5, v6, _⟩ := update_all_spec es Statistic.init hlevel
    (by simp [Statistic.init]) (by simp [Statistic.init]) (by simp [Statistic.init])
    (by simp only [Statistic.init]; omega) (by simpa [Statistic.init] using hsum)
  simp only [Statistic.init, zero_add, add_zero] at v2 v3 v4 v5
  have hcount : s.get_count_message = es.length := by exact_mod_cast v2
  have hpos : 0 < es.length := List.length_pos.2 hne
  have hbounds := sum_bounds s.min_length s.max_length (es.map (fun e => e.message.length))
    (fun x hx => ⟨by rw [v5]; exact foldl_min_le_mem _ _ x hx,
      by rw [v4]; exact le_foldl_max_mem _ _ x hx⟩)
  simp only [List.length_map] at hbounds
  have havg : s.averege_length = (es.map (fun e => e.message.length)).sum / es.length := by
    rw [v6 hne, v3, hcount]
  have hlow : s.min_length ≤ s.averege_length := by
    rw [havg]
    exact (Nat.le_div_iff_mul_le hpos).2 hbounds.1
  have hhigh : s.averege_length ≤ s.max_length := by
    rw [havg]
    exact Nat.div_le_of_le_mul (by rw [Nat.mul_comm]; exact hbounds.2)
  exact ⟨s, v0, hlow, hhigh, hlow, hhigh⟩

theorem C35_average_between_min_and_max_witness :
    ∃ s, Statistic.init.update_all [⟨"12345".toList, Level.INFO, 1⟩,
        ⟨"123".toList, Level.ERROR, 2⟩, ⟨"123456789".toList, Level.WARN, 3⟩] = .ok s ∧
      s.min_length ≤ s.averege_length ∧ s.averege_length ≤ s.max_length :=
  (C35_average_between_min_and_max [⟨"12345".toList, Level.INFO, 1⟩,
      ⟨"123".toList, Level.ERROR, 2⟩, ⟨"123456789".toList, Level.WARN, 3⟩] (by decide)
    (by decide) (by decide) (by decide)).imp (fun _ h => ⟨h.1, h.2.1, h.2.2.1⟩)
